import Mathlib

/-!
# FIM: file integrity monitor

A shallow embedding of the reconciliation engine (`core::FileIntegrityEngine`), of the
exclusion rules of `core::FileScanner`, of the signed record store (`DatabaseManager`), of the
storage adapter (`QtStorageAdapter`), of the scan of `FileMonitor` and of the worker
(`ScanWorker`), with the properties of the specification stated over them.

Conventions of the embedding.
* `std::string`, `QString` are `String`; byte arrays (`QByteArray`) are lists of naturals
  below 256.
* Unsigned 64-bit counters that only count elements of an in-memory vector are `Nat`
  (they cannot wrap); values read back from a database column are reduced modulo the
  width of the C++ type they are converted to.
* A `std::chrono` time point is an `Int` (ticks since the epoch).
-/

namespace FIM

namespace core

/-- Status of a file, `core/FileStatus.h`. -/
inductive FileStatus where
  | Ok
  | Changed
  | New
  | Deleted
  | Error
deriving DecidableEq, Repr

/-- The value of `static_cast<int>(status)`: Ok = 0, Changed = 1, New = 2, Deleted = 3,
Error = 4. -/
def FileStatus.code : FileStatus → Int
  | .Ok => 0
  | .Changed => 1
  | .New => 2
  | .Deleted => 3
  | .Error => 4

/-- The record `core::FileMetadata` of `core/FileMetadata.h`. -/
structure FileMetadata where
  path : String
  hash : String
  size : Nat
  mtime : Int
  permissions : Nat
  owner : String
  group : String
  inode : Nat
  status : FileStatus
deriving DecidableEq, Repr

/-- The record `core::HistoryEvent` of `core/IStorage.h`; a default-constructed event has
`oldStatus = newStatus = -1` and empty strings. -/
structure HistoryEvent where
  scanTime : Int
  filePath : String
  oldStatus : Int
  newStatus : Int
  oldHash : String
  newHash : String
  comment : String
deriving DecidableEq, Repr

/-- The record `core::ScanSummary` of `core/ScanSummary.h`. -/
structure ScanSummary where
  totalFiles : Nat
  changedCount : Nat
  newCount : Nat
  deletedCount : Nat
  errorCount : Nat
deriving DecidableEq, Repr

/-- The method `ScanSummary::overallStatus`. -/
def ScanSummary.overallStatus (s : ScanSummary) : FileStatus :=
  if s.errorCount > 0 then .Error
  else if s.changedCount > 0 ∨ s.newCount > 0 ∨ s.deletedCount > 0 then .Changed
  else .Ok

/-- The local `std::unordered_map<std::string, FileMetadata> oldByPath`, as an association
list. The iteration order of an unordered map is unspecified; the model iterates in insertion
order. -/
abbrev PathMap := List (String × FileMetadata)

/-- The call `oldByPath.emplace(key, value)`: nothing happens when the key is present. -/
def PathMap.emplace (m : PathMap) (key : String) (value : FileMetadata) : PathMap :=
  if m.any (fun kv => decide (kv.1 = key)) then m else m ++ [(key, value)]

/-- The call `oldByPath.find(key)`; `none` stands for `end()`. -/
def PathMap.find (m : PathMap) (key : String) : Option (String × FileMetadata) :=
  List.find? (fun kv => decide (kv.1 = key)) m

/-- The call `oldByPath.erase(it)` for the iterator found for `key`: the entry of that key
is removed. -/
def PathMap.erase (m : PathMap) (key : String) : PathMap :=
  List.filter (fun kv => decide (kv.1 ≠ key)) m

/-- State of the locals of `compareAndPersist` while it runs: the map, the entries of
`merged` visited so far (with the status written into them), the summary, and the events
passed to `appendHistoryRecord` so far, in call order. -/
structure Reconcile where
  oldByPath : PathMap
  merged : List FileMetadata
  summary : ScanSummary
  history : List HistoryEvent
deriving DecidableEq, Repr

/-- Lines 45-48 of `FileIntegrityEngine.cpp`: the map built from the old state. -/
def buildOldByPath (oldState : List FileMetadata) : PathMap :=
  oldState.foldl (fun m o => PathMap.emplace m o.path o) []

/-- Body of the first loop of `compareAndPersist` (lines 52-93), for one entry `m` of
`merged`. `clock k` is the reading of `system_clock::now()` taken for the event number `k`
of the call. -/
def classifyEntry (clock : Nat → Int) (st : Reconcile) (m : FileMetadata) : Reconcile :=
  let summary := { st.summary with totalFiles := st.summary.totalFiles + 1 }
  let it := st.oldByPath.find m.path
  let oldStatus := match it with
    | some kv => kv.2.status
    | none => FileStatus.Ok
  let oldHash := match it with
    | some kv => kv.2.hash
    | none => ""
  let hasOld := it.isSome
  let r : FileStatus × ScanSummary × PathMap :=
    if m.hash = "" then
      (FileStatus.Error, { summary with errorCount := summary.errorCount + 1 }, st.oldByPath)
    else
      match it with
      | none => (FileStatus.New, { summary with newCount := summary.newCount + 1 }, st.oldByPath)
      | some kv =>
        let oldMeta := kv.2
        if m.hash ≠ oldMeta.hash ∨ m.permissions ≠ oldMeta.permissions ∨ m.owner ≠ oldMeta.owner ∨
            m.group ≠ oldMeta.group ∨ m.inode ≠ oldMeta.inode ∨ m.mtime ≠ oldMeta.mtime ∨
            m.size ≠ oldMeta.size then
          (FileStatus.Changed, { summary with changedCount := summary.changedCount + 1 },
            st.oldByPath.erase m.path)
        else
          (FileStatus.Ok, summary, st.oldByPath.erase m.path)
  let m1 := { m with status := r.1 }
  let history :=
    if hasOld = true ∧ r.1 ≠ FileStatus.Ok then
      st.history ++ [{ scanTime := clock st.history.length, filePath := m1.path,
                       oldStatus := oldStatus.code, newStatus := m1.status.code,
                       oldHash := oldHash, newHash := m1.hash, comment := "" }]
    else st.history
  { oldByPath := r.2.2, merged := st.merged ++ [m1], summary := r.2.1, history := history }

/-- Body of the second loop of `compareAndPersist` (lines 95-107), for one remaining entry of
the map. The old status of the event is read from `meta` after its status was overwritten. -/
def markDeleted (clock : Nat → Int) (st : Reconcile) (remaining : String × FileMetadata) :
    Reconcile :=
  let m := { remaining.2 with status := FileStatus.Deleted }
  { oldByPath := st.oldByPath
    merged := st.merged ++ [m]
    summary := { st.summary with deletedCount := st.summary.deletedCount + 1 }
    history := st.history ++ [{ scanTime := clock st.history.length, filePath := m.path,
                                oldStatus := m.status.code,
                                newStatus := FileStatus.Deleted.code,
                                oldHash := m.hash, newHash := "", comment := "" }] }

/-- What a call of `compareAndPersist` does to the storage interface and returns: the
summary, the events passed to `appendHistoryRecord` in call order, and the vector passed to
`saveCurrentState` (`none` when it is not called). -/
structure Persisted where
  summary : ScanSummary
  history : List HistoryEvent
  saved : Option (List FileMetadata)
deriving DecidableEq, Repr

/-- The method `FileIntegrityEngine::compareAndPersist`. `hasStorage` tells whether
`m_storage` is set. -/
def compareAndPersist (hasStorage : Bool) (clock : Nat → Int) (newState oldState : List FileMetadata) :
    Persisted :=
  let summary : ScanSummary := ⟨0, 0, 0, 0, 0⟩
  if hasStorage = false then
    { summary := summary, history := [], saved := none }
  else
    let st0 : Reconcile :=
      { oldByPath := buildOldByPath oldState, merged := [], summary := summary, history := [] }
    let st1 := newState.foldl (classifyEntry clock) st0
    let st2 := st1.oldByPath.foldl (markDeleted clock) st1
    { summary := st2.summary, history := st2.history, saved := some st2.merged }

/-- The comparison of lines 72-74. -/
def differs (m o : FileMetadata) : Prop :=
  m.hash ≠ o.hash ∨ m.permissions ≠ o.permissions ∨ m.owner ≠ o.owner ∨
    m.group ≠ o.group ∨ m.inode ≠ o.inode ∨ m.mtime ≠ o.mtime ∨ m.size ≠ o.size

instance (m o : FileMetadata) : Decidable (differs m o) := by
  unfold differs; infer_instance

/-- Status given to an entry by one pass of the loop body, as a function of the map. -/
def statusIn (map : PathMap) (m : FileMetadata) : FileStatus :=
  if m.hash = "" then .Error
  else match map.find m.path with
    | none => .New
    | some kv => if differs m kv.2 then .Changed else .Ok

/-- Number of entries of `S` that get the status `s` against the map. -/
def tally (map : PathMap) (S : List FileMetadata) (s : FileStatus) : Nat :=
  S.countP (fun m => decide (statusIn map m = s))

/-- Status that the specification gives to a scanned entry against a baseline. -/
def expectedStatus (baseline : List FileMetadata) (m : FileMetadata) : FileStatus :=
  if m.hash = "" then FileStatus.Error
  else
    match baseline.find? (fun o => decide (o.path = m.path)) with
    | none => FileStatus.New
    | some o =>
      if m.hash ≠ o.hash ∨ m.permissions ≠ o.permissions ∨ m.owner ≠ o.owner ∨
          m.group ≠ o.group ∨ m.inode ≠ o.inode ∨ m.mtime ≠ o.mtime ∨ m.size ≠ o.size then
        FileStatus.Changed
      else FileStatus.Ok

/-- Entries of the map that the first loop leaves in it. -/
def remainingAfter (map : PathMap) (S : List FileMetadata) : PathMap :=
  map.filter (fun kv => S.all (fun m => decide (m.hash = "" ∨ kv.1 ≠ m.path)))

/-- A readable file of the examples. -/
def demoA : FileMetadata := ⟨"/r/a", "h1", 1, 10, 420, "u", "g", 7, .Ok⟩

/-- An unreadable file of the examples (empty hash). -/
def demoB : FileMetadata := ⟨"/r/b", "", 0, 11, 420, "u", "g", 8, .Ok⟩

/-- A second readable file of the examples. -/
def demoC : FileMetadata := ⟨"/r/c", "h3", 3, 12, 420, "u", "g", 9, .Ok⟩

end core

/-! ## The signed record store (`storage/DatabaseManager`) -/

/-- A byte array (`QByteArray`): every element is a byte value. -/
abbrev Bytes := List Nat

/-- UTF-8 encoding of one code point. -/
def utf8EncodeChar (c : Nat) : Bytes :=
  if c < 0x80 then [c]
  else if c < 0x800 then [0xC0 + c / 64, 0x80 + c % 64]
  else if c < 0x10000 then [0xE0 + c / 4096, 0x80 + c / 64 % 64, 0x80 + c % 64]
  else [0xF0 + c / 262144, 0x80 + c / 4096 % 64, 0x80 + c / 64 % 64, 0x80 + c % 64]

/-- The call `s.toUtf8()` on a `QString`. -/
def toUtf8 (s : String) : Bytes :=
  s.data.flatMap (fun c => utf8EncodeChar c.toNat)

/-- The call `QByteArray::number(n)`: the decimal digits of `n`, with a leading `-` for a
negative number. -/
def number (n : Int) : Bytes :=
  if n < 0 then 45 :: (Nat.toDigits 10 n.natAbs).map Char.toNat
  else (Nat.toDigits 10 n.toNat).map Char.toNat

/-- One lowercase hexadecimal digit. -/
def hexDigit (n : Nat) : Char :=
  if n < 10 then Char.ofNat (48 + n) else Char.ofNat (87 + n)

/-- The call `bytes.toHex()`: two lowercase hexadecimal digits per byte. -/
def toHex (b : Bytes) : String :=
  String.mk (b.flatMap (fun x => [hexDigit (x / 16 % 16), hexDigit (x % 16)]))

/-- The call `a.leftJustified(width, fill, truncate)` of `QByteArray`. -/
def leftJustified (a : Bytes) (width : Nat) (fill : Nat) (truncate : Bool) : Bytes :=
  if a.length < width then a ++ List.replicate (width - a.length) fill
  else if truncate then a.take width
  else a

/-- The call `s.startsWith(p)` of `QString`. -/
def startsWith (s p : String) : Bool :=
  p.data.isPrefixOf s.data

/-- The call `s.endsWith(p)` of `QString`. -/
def endsWith (s p : String) : Bool :=
  p.data.isSuffixOf s.data

/-- The call `s.contains(needle, Qt::CaseInsensitive)` of `QString`, with the case folding
of the ASCII letters. -/
def containsCaseInsensitive (s needle : String) : Bool :=
  (s.data.map Char.toLower).tails.any
    (fun t => (needle.data.map Char.toLower).isPrefixOf t)

/-- A `QDateTime` in UTC: milliseconds since the epoch, `none` for an invalid (null) value. -/
abbrev QDateTime := Option Int

/-- What the environment decides for the program. `sha256` is
`QCryptographicHash::hash(·, QCryptographicHash::Sha256)`; statement number `n` issued on
the connection fails when `fails n`, with the driver's message `errorText n`; `clock n` is
the reading of `QDateTime::currentDateTimeUtc()` once `n` statements have been issued. -/
structure Env where
  sha256 : Bytes → Bytes
  fails : Nat → Bool
  errorText : Nat → String
  clock : Nat → Int

/-- The record `FileMetadata` of `storage/DatabaseManager.h`. -/
structure FileMetadata where
  path : String
  hash : String
  size : Int
  mtimeSeconds : Int
  uid : Nat
  gid : Nat
  mode : Nat
  device : Nat
  inode : Nat
  hardlinkCount : Nat
  permissions : Nat
  owner : String
  groupName : String
  errorReason : String
deriving DecidableEq, Repr

/-- A default-constructed `FileMetadata`. -/
def FileMetadata.empty : FileMetadata :=
  { path := "", hash := "", size := 0, mtimeSeconds := 0, uid := 0, gid := 0, mode := 0,
    device := 0, inode := 0, hardlinkCount := 0, permissions := 0, owner := "", groupName := "",
    errorReason := "" }

/-- The numeric fields hold values of their C++ types (`qint64`, `quint32`, `quint64`). -/
def FileMetadata.wellTyped (m : FileMetadata) : Prop :=
  -(2 ^ 63 : Int) ≤ m.size ∧ m.size < 2 ^ 63 ∧
  -(2 ^ 63 : Int) ≤ m.mtimeSeconds ∧ m.mtimeSeconds < 2 ^ 63 ∧
  m.uid < 2 ^ 32 ∧ m.gid < 2 ^ 32 ∧ m.mode < 2 ^ 32 ∧
  m.device < 2 ^ 64 ∧ m.inode < 2 ^ 64 ∧ m.hardlinkCount < 2 ^ 64 ∧ m.permissions < 2 ^ 64

instance (m : FileMetadata) : Decidable m.wellTyped := by
  unfold FileMetadata.wellTyped
  infer_instance

/-- The record `FileRecordEntry` of `storage/DatabaseManager.h`. -/
structure FileRecordEntry where
  metadata : FileMetadata
  signature : String
  updatedAt : QDateTime
  lastChecked : QDateTime
  scannerVersion : String
  status : String
  previousHash : String
  errorReason : String
  signatureValid : Bool
  metadataChanged : Bool
  permissionsChanged : Bool
  ownerChanged : Bool
  mtimeChanged : Bool
  inodeChanged : Bool
deriving DecidableEq, Repr

/-- A default-constructed `FileRecordEntry` (`signatureValid` defaults to true). -/
def FileRecordEntry.empty : FileRecordEntry :=
  { metadata := FileMetadata.empty, signature := "", updatedAt := none, lastChecked := none,
    scannerVersion := "", status := "", previousHash := "", errorReason := "",
    signatureValid := true, metadataChanged := false, permissionsChanged := false,
    ownerChanged := false, mtimeChanged := false, inodeChanged := false }

/-- The record `HistoryRecord` of `storage/DatabaseManager.h`. -/
structure HistoryRecord where
  scanTime : QDateTime
  filePath : String
  oldStatus : Int
  newStatus : Int
  oldHash : String
  newHash : String
  comment : String
deriving DecidableEq, Repr

/-- A row of the table `files`. An INTEGER column holds the bound number; the two TEXT
columns for dates hold an ISO date, modelled by its number of seconds since the epoch
(`none` for a text that is not a date). -/
structure FilesRow where
  path : String
  hash : String
  size : Int
  mtime : Int
  uid : Int
  gid : Int
  mode : Int
  device : Int
  inode : Int
  hardlink_count : Int
  permissions : Int
  owner : String
  group_name : String
  status : String
  signature : String
  updated_at : Option Int
  last_checked : Option Int
  scanner_version : String
deriving DecidableEq, Repr

/-- A row of the table `scan_history`; the rows are kept in the order of their `id`.
The column `old_status` may be NULL (`none`). -/
structure HistoryRow where
  scan_time : Option Int
  file_path : String
  old_status : Option Int
  new_status : Int
  old_hash : String
  new_hash : String
  comment : String
deriving DecidableEq, Repr

/-- The call `dt.toString(Qt::ISODate)`, as stored in a date column: the date to the second. -/
def toISODate (dt : QDateTime) : Option Int :=
  dt.map (fun ms => ms / 1000)

/-- The call `QDateTime::fromString(text, Qt::ISODate)` on a date column. -/
def fromISODate (text : Option Int) : QDateTime :=
  text.map (fun s => s * 1000)

/-- The call `value.toLongLong()` on an INTEGER column. -/
def toLongLong (x : Int) : Int :=
  (x + 2 ^ 63) % 2 ^ 64 - 2 ^ 63

/-- The call `value.toUInt()` on an INTEGER column. -/
def toUInt (x : Int) : Nat :=
  (x % 2 ^ 32).toNat

/-- The call `value.toULongLong()` on an INTEGER column. -/
def toULongLong (x : Int) : Nat :=
  (x % 2 ^ 64).toNat

/-- The object `DatabaseManager` with the database its connection is opened on: the HMAC
key, the two tables, the content saved when the open transaction began (`none` when no
transaction is open), `m_lastError`, and the number of statements issued so far. -/
structure DatabaseManager where
  hmacKey : Bytes
  files : List FilesRow
  scan_history : List HistoryRow
  snapshot : Option (List FilesRow × List HistoryRow)
  lastError : String
  ops : Nat
deriving DecidableEq, Repr

namespace DatabaseManager

/-- The state after a statement that failed: only the statement count and `m_lastError`
change. -/
def failed (env : Env) (self : DatabaseManager) : DatabaseManager :=
  { self with ops := self.ops + 1, lastError := env.errorText self.ops }

/-- The method `setHmacKey`. -/
def setHmacKey (self : DatabaseManager) (key : Bytes) : DatabaseManager :=
  { self with hmacKey := key }

/-- The method `computeSignature` (DatabaseManager.cpp 474-504). -/
def computeSignature (env : Env) (self : DatabaseManager) (metadata : FileMetadata) : String :=
  if self.hmacKey = [] then ""
  else
    let payload := toUtf8 metadata.path
    let payload := payload ++ (124 :: number metadata.size)
    let payload := payload ++ (124 :: number metadata.mtimeSeconds)
    let payload := payload ++ (124 :: number metadata.uid)
    let payload := payload ++ (124 :: number metadata.gid)
    let payload := payload ++ (124 :: number metadata.mode)
    let payload := payload ++ (124 :: toUtf8 metadata.hash)
    let key := self.hmacKey
    let blockSize := 64
    let key := if key.length > blockSize then env.sha256 key else key
    let key := leftJustified key blockSize 0 true
    let oKeyPad := List.replicate blockSize 0x5c
    let iKeyPad := List.replicate blockSize 0x36
    let pads := (List.range blockSize).foldl
      (fun (p : Bytes × Bytes) i =>
        (p.1.set i (p.1.getD i 0 ^^^ key.getD i 0), p.2.set i (p.2.getD i 0 ^^^ key.getD i 0)))
      (oKeyPad, iKeyPad)
    let innerHash := env.sha256 (pads.2 ++ payload)
    let mac := env.sha256 (pads.1 ++ innerHash)
    toHex mac

/-- The method `verifySignature` (DatabaseManager.cpp 506-518). -/
def verifySignature (env : Env) (self : DatabaseManager) (record : FileRecordEntry) : Bool :=
  if self.hmacKey = [] then true
  else
    let expected := computeSignature env self record.metadata
    if expected = "" then false
    else decide (expected = record.signature)

/-- The method `hydrateRecord` (DatabaseManager.cpp 293-316), on the row the query stands
on. -/
def hydrateRecord (env : Env) (self : DatabaseManager) (row : FilesRow) : FileRecordEntry :=
  let metadata : FileMetadata :=
    { path := row.path, hash := row.hash, size := toLongLong row.size,
      mtimeSeconds := toLongLong row.mtime, uid := toUInt row.uid, gid := toUInt row.gid,
      mode := toUInt row.mode, device := toULongLong row.device,
      inode := toULongLong row.inode, hardlinkCount := toULongLong row.hardlink_count,
      permissions := toULongLong row.permissions, owner := row.owner,
      groupName := row.group_name, errorReason := "" }
  let record : FileRecordEntry :=
    { FileRecordEntry.empty with
      metadata := metadata, previousHash := metadata.hash, status := row.status,
      signature := row.signature, updatedAt := fromISODate row.updated_at,
      lastChecked := fromISODate row.last_checked, scannerVersion := row.scanner_version }
  { record with signatureValid := verifySignature env self record }

/-- The statement `INSERT INTO files ... ON CONFLICT(path) DO UPDATE SET ...`: the row of
that path is replaced, or the row is added. -/
def upsertRow (files : List FilesRow) (row : FilesRow) : List FilesRow :=
  if files.any (fun r => decide (r.path = row.path)) then
    files.map (fun r => if r.path = row.path then row else r)
  else files ++ [row]

/-- The values that `upsertFileRecord` binds to its statement (lines 231-248), as the row
they make. -/
def boundRow (record : FileRecordEntry) (signature : String) : FilesRow :=
  { path := record.metadata.path, hash := record.metadata.hash, size := record.metadata.size,
    mtime := record.metadata.mtimeSeconds, uid := record.metadata.uid,
    gid := record.metadata.gid, mode := record.metadata.mode,
    device := record.metadata.device, inode := record.metadata.inode,
    hardlink_count := record.metadata.hardlinkCount,
    permissions := record.metadata.permissions, owner := record.metadata.owner,
    group_name := record.metadata.groupName, status := record.status,
    signature := signature, updated_at := toISODate record.updatedAt,
    last_checked := toISODate record.lastChecked, scanner_version := record.scannerVersion }

/-- The method `upsertFileRecord` (DatabaseManager.cpp 200-262). -/
def upsertFileRecord (env : Env) (self : DatabaseManager) (record : FileRecordEntry) :
    Bool × DatabaseManager :=
  if env.fails self.ops then
    (false,
      { self with
        ops := self.ops + 1
        lastError :=
          if containsCaseInsensitive (env.errorText self.ops) "readonly" then
            "База данных доступна только для чтения. Проверьте права на файл или путь к базе."
          else env.errorText self.ops })
  else
    let signature := computeSignature env self record.metadata
    (true,
      { self with ops := self.ops + 1, files := upsertRow self.files (boundRow record signature) })

/-- The method `clearAllRecords` (DatabaseManager.cpp 264-283): two DELETE statements. -/
def clearAllRecords (env : Env) (self : DatabaseManager) : Bool × DatabaseManager :=
  if env.fails self.ops then (false, self.failed env)
  else
    let s1 := { self with ops := self.ops + 1, files := [] }
    if env.fails s1.ops then (false, s1.failed env)
    else (true, { s1 with ops := s1.ops + 1, scan_history := [] })

/-- The method `fetchRecord` (DatabaseManager.cpp 318-341). -/
def fetchRecord (env : Env) (self : DatabaseManager) (path : String) :
    FileRecordEntry × DatabaseManager :=
  if env.fails self.ops then (FileRecordEntry.empty, self.failed env)
  else
    match self.files.find? (fun r => decide (r.path = path)) with
    | some row => (hydrateRecord env self row, { self with ops := self.ops + 1 })
    | none => (FileRecordEntry.empty, { self with ops := self.ops + 1 })

/-- The method `fetchAllRecords` (DatabaseManager.cpp 343-365): the rows in ascending order
of `path`. -/
def fetchAllRecords (env : Env) (self : DatabaseManager) :
    List FileRecordEntry × DatabaseManager :=
  if env.fails self.ops then ([], self.failed env)
  else
    ((List.insertionSort (fun a b : FilesRow => ¬ b.path.data < a.path.data) self.files).map
        (hydrateRecord env self),
      { self with ops := self.ops + 1 })

/-- The method `insertHistoryRecord` (DatabaseManager.cpp 367-402): a negative old status
is stored as NULL. -/
def insertHistoryRecord (env : Env) (self : DatabaseManager) (filePath : String)
    (oldStatus newStatus : Int) (oldHash newHash comment : String) : Bool × DatabaseManager :=
  if env.fails self.ops then (false, self.failed env)
  else
    let row : HistoryRow :=
      { scan_time := toISODate (some (env.clock self.ops)), file_path := filePath,
        old_status := if oldStatus < 0 then none else some oldStatus,
        new_status := newStatus, old_hash := oldHash, new_hash := newHash, comment := comment }
    (true, { self with ops := self.ops + 1, scan_history := self.scan_history ++ [row] })

/-- The method `fetchHistory` (DatabaseManager.cpp 404-436): the latest rows first, at most
`limit` of them (all of them under a negative limit). -/
def fetchHistory (env : Env) (self : DatabaseManager) (limit : Int) :
    List HistoryRecord × DatabaseManager :=
  if env.fails self.ops then ([], self.failed env)
  else
    let rows := if limit < 0 then self.scan_history.reverse
      else self.scan_history.reverse.take limit.toNat
    (rows.map (fun r =>
        { scanTime := fromISODate r.scan_time, filePath := r.file_path,
          oldStatus := match r.old_status with
            | none => -1
            | some s => s
          newStatus := r.new_status, oldHash := r.old_hash, newHash := r.new_hash,
          comment := r.comment }),
      { self with ops := self.ops + 1 })

/-- The method `beginTransaction` (DatabaseManager.cpp 438-449): it fails when a transaction
is already open. -/
def beginTransaction (env : Env) (self : DatabaseManager) : Bool × DatabaseManager :=
  if env.fails self.ops ∨ self.snapshot.isSome then (false, self.failed env)
  else
    (true, { self with ops := self.ops + 1, snapshot := some (self.files, self.scan_history) })

/-- The method `commitTransaction` (DatabaseManager.cpp 451-462): it fails when no
transaction is open. -/
def commitTransaction (env : Env) (self : DatabaseManager) : Bool × DatabaseManager :=
  if env.fails self.ops ∨ self.snapshot.isNone then (false, self.failed env)
  else (true, { self with ops := self.ops + 1, snapshot := none })

/-- The method `rollbackTransaction` (DatabaseManager.cpp 464-472): the content saved at
the beginning of the open transaction is restored; without an open transaction the statement
fails. -/
def rollbackTransaction (env : Env) (self : DatabaseManager) : DatabaseManager :=
  match self.snapshot with
  | some saved =>
    { self with ops := self.ops + 1, files := saved.1, scan_history := saved.2, snapshot := none }
  | none => self.failed env

end DatabaseManager

/-! ## The scan of `gui/FileMonitor` -/

/-- The method `FileMonitor::statusCode`. -/
def statusCode (status : String) : Int :=
  if status = "Changed" then 1
  else if status = "New" then 2
  else if status = "Deleted" then 3
  else if status = "Error" then 4
  else 0

/-- The method `FileMonitor::buildDeletedRecord`. -/
def buildDeletedRecord (existing : FileRecordEntry) (timestamp : QDateTime) : FileRecordEntry :=
  { existing with status := "Deleted", lastChecked := timestamp, updatedAt := timestamp }

/-- The method `FileMonitor::isPathInDirectory`, with `/` for `QDir::separator()`. -/
def isPathInDirectory (filePath directoryPath : String) : Bool :=
  if filePath = directoryPath ∨ startsWith filePath directoryPath = true then true
  else
    let normalizedDirectory :=
      if endsWith directoryPath "/" = true then directoryPath else directoryPath ++ "/"
    startsWith filePath normalizedDirectory

/-- What `scanDirectory` asks the file system, apart from the traversal: whether a path
exists and is a directory, `QDir(p).absolutePath()`, `QFileInfo(p).absoluteFilePath()`, and
`QFileInfo::exists(p)`. -/
structure Disk where
  isDir : String → Bool
  absolutePath : String → String
  absoluteFilePath : String → String
  fileExists : String → Bool

/-- State of the locals of `scanDirectory` while it runs; `returned` is set once a
`return results` of the loop body has been executed. -/
structure ScanLoop where
  db : DatabaseManager
  results : List FileRecordEntry
  seenInodes : List String
  seenPaths : List String
  returned : Bool
deriving DecidableEq, Repr

/-- The key `QStringLiteral("%1:%2").arg(device).arg(inode)`. -/
def inodeKey (metadata : FileMetadata) : String :=
  toString metadata.device ++ ":" ++ toString metadata.inode

/-- Lines 167-196 of `FileMonitor.cpp`: the record of a readable file completed with the
previous hash, the change flags and the status, from the record fetched for its path. -/
def classifyRecord (record oldRecord : FileRecordEntry) : FileRecordEntry :=
  let oldHash := oldRecord.metadata.hash
  let record := { record with previousHash := oldHash }
  let hasOldRecord : Bool := decide (oldRecord.metadata.path ≠ "")
  let signatureMismatch : Bool :=
    hasOldRecord && !oldRecord.signatureValid && decide (oldRecord.signature ≠ "")
  let permissionsChanged : Bool :=
    hasOldRecord && decide (oldRecord.metadata.permissions ≠ record.metadata.permissions ∨
      oldRecord.metadata.mode ≠ record.metadata.mode)
  let ownerChanged : Bool :=
    hasOldRecord && decide (oldRecord.metadata.owner ≠ record.metadata.owner ∨
      oldRecord.metadata.groupName ≠ record.metadata.groupName ∨
      oldRecord.metadata.uid ≠ record.metadata.uid ∨
      oldRecord.metadata.gid ≠ record.metadata.gid)
  let mtimeChanged : Bool :=
    hasOldRecord && decide (oldRecord.metadata.mtimeSeconds ≠ record.metadata.mtimeSeconds)
  let inodeChanged : Bool :=
    hasOldRecord && decide (oldRecord.metadata.inode ≠ record.metadata.inode)
  let metadataChanged : Bool :=
    permissionsChanged || ownerChanged || mtimeChanged || inodeChanged
  let status :=
    if hasOldRecord = false then "New"
    else if signatureMismatch = true then "Changed"
    else if oldHash = record.metadata.hash ∧ metadataChanged = false then "Ok"
    else "Changed"
  { record with
    permissionsChanged := permissionsChanged, ownerChanged := ownerChanged,
    mtimeChanged := mtimeChanged, inodeChanged := inodeChanged,
    metadataChanged := metadataChanged, status := status }

/-- Lines 198-239 of `FileMonitor.cpp`: the history row and the upsert for a classified
record, with the `return` taken when one of them fails. `seenInodes` and `db` are the set of
inode keys and the database manager after the fetch of `oldRecord`. -/
def persistRecord (env : Env) (disk : Disk) (st : ScanLoop) (seenInodes : List String)
    (db : DatabaseManager) (record oldRecord : FileRecordEntry) : ScanLoop :=
  let oldHash := oldRecord.metadata.hash
  let oldStatus := if oldRecord.status = "" then "Ok" else oldRecord.status
  let hasOldRecord : Bool := decide (oldRecord.metadata.path ≠ "")
  let statusChanged : Bool := decide (oldStatus ≠ record.status)
  let hashChanged : Bool := decide (oldHash ≠ record.metadata.hash)
  let inserted : Bool × DatabaseManager :=
    if hasOldRecord = false then
      db.insertHistoryRecord env record.metadata.path (-1) (statusCode record.status)
        oldRecord.metadata.hash record.metadata.hash "Новый файл обнаружен"
    else if statusChanged = true ∨ hashChanged = true then
      db.insertHistoryRecord env record.metadata.path (statusCode oldStatus)
        (statusCode record.status) oldRecord.metadata.hash record.metadata.hash ""
    else (true, db)
  if inserted.1 = false then
    let db := inserted.2.rollbackTransaction env
    let record := { record with status := "Error", errorReason := db.lastError }
    { db := db, results := st.results ++ [record], seenInodes := seenInodes,
      seenPaths := st.seenPaths, returned := true }
  else
    let upserted : Bool × DatabaseManager :=
      if hasOldRecord = false ∨ statusChanged = true ∨ hashChanged = true ∨
          record.metadataChanged = true then
        inserted.2.upsertFileRecord env record
      else (true, inserted.2)
    if upserted.1 = false then
      let db := upserted.2.rollbackTransaction env
      let record := { record with status := "Error", errorReason := db.lastError }
      { db := db, results := st.results ++ [record], seenInodes := seenInodes,
        seenPaths := st.seenPaths, returned := true }
    else
      { db := upserted.2, results := st.results ++ [record], seenInodes := seenInodes,
        seenPaths := st.seenPaths ++ [disk.absoluteFilePath record.metadata.path],
        returned := false }

/-- Lines 139-239 of `FileMonitor.cpp`: what the traversal loop does with one regular file,
given the metadata that `buildMetadata` returned for it. -/
def scanFile (env : Env) (disk : Disk) (scannerVersion : String) (st : ScanLoop)
    (metadata : FileMetadata) : ScanLoop :=
  let updatedAt : QDateTime := some (env.clock st.db.ops)
  let record : FileRecordEntry :=
    { FileRecordEntry.empty with
      metadata := metadata, updatedAt := updatedAt, lastChecked := updatedAt,
      scannerVersion := scannerVersion }
  if record.metadata.hash = "" then
    let errorReason :=
      if record.metadata.errorReason = "" then "Не удалось прочитать файл"
      else if containsCaseInsensitive record.metadata.errorReason "Permission denied" = true then
        "Недостаточно прав (Permission denied)"
      else record.metadata.errorReason
    let record :=
      { record with
        status := "Error", errorReason := errorReason,
        scannerVersion := record.scannerVersion ++ " (error_read)" }
    { st with results := st.results ++ [record] }
  else if record.metadata.inode ≠ 0 ∧ inodeKey record.metadata ∈ st.seenInodes then st
  else
    let seenInodes := inodeKey record.metadata :: st.seenInodes
    let fetched := st.db.fetchRecord env record.metadata.path
    let oldRecord := fetched.1
    let record := classifyRecord record oldRecord
    persistRecord env disk st seenInodes fetched.2 record oldRecord

/-- Lines 244-281 of `FileMonitor.cpp`: what the final loop does with one record of the
baseline read at the start of the scan. -/
def checkDeleted (env : Env) (disk : Disk) (baseWithSep : String) (now : QDateTime)
    (st : ScanLoop) (existing : FileRecordEntry) : ScanLoop :=
  let absolutePath := disk.absoluteFilePath existing.metadata.path
  if absolutePath ∈ st.seenPaths then st
  else if isPathInDirectory absolutePath baseWithSep = false then st
  else if disk.fileExists absolutePath = true then st
  else
    let deleted := buildDeletedRecord existing now
    let oldStatus := if existing.status = "" then "Ok" else existing.status
    let statusTransition : Bool := decide (statusCode oldStatus ≠ statusCode deleted.status)
    let inserted : Bool × DatabaseManager :=
      if statusTransition then
        st.db.insertHistoryRecord env deleted.metadata.path (statusCode oldStatus)
          (statusCode deleted.status) existing.metadata.hash deleted.metadata.hash "Файл удалён"
      else (true, st.db)
    if inserted.1 = false then
      let db := inserted.2.rollbackTransaction env
      let deleted := { deleted with status := "Error", errorReason := db.lastError }
      { st with db := db, results := st.results ++ [deleted], returned := true }
    else
      let upserted := inserted.2.upsertFileRecord env deleted
      if upserted.1 = false then
        let db := upserted.2.rollbackTransaction env
        let deleted := { deleted with status := "Error", errorReason := db.lastError }
        { st with db := db, results := st.results ++ [deleted], returned := true }
      else
        { st with db := upserted.2, results := st.results ++ [deleted] }

/-- A loop of `scanDirectory` over `items` with the given body, left as soon as the body has
executed a `return`. -/
def runLoop {α : Type} (body : ScanLoop → α → ScanLoop) : ScanLoop → List α → ScanLoop
  | st, [] => st
  | st, x :: rest =>
    if (body st x).returned = true then body st x else runLoop body (body st x) rest

/-- The method `FileMonitor::scanDirectory` (FileMonitor.cpp 51-298): the records it returns
and the state of the database manager afterwards. `scanned` stands for the traversal of
lines 79-140: the metadata that `buildMetadata` returns for the regular files that the
traversal reaches under `directoryPath`, in the order in which it reaches them. -/
def scanDirectory (env : Env) (disk : Disk) (scannerVersion : String) (db : DatabaseManager)
    (directoryPath : String) (scanned : List FileMetadata) :
    List FileRecordEntry × DatabaseManager :=
  if disk.isDir directoryPath = false then ([], db)
  else
    let fetchedAll := db.fetchAllRecords env
    let existingRecords := fetchedAll.1
    let basePath := disk.absolutePath directoryPath
    let baseWithSep := if endsWith basePath "/" = true then basePath else basePath ++ "/"
    let begun := fetchedAll.2.beginTransaction env
    if begun.1 = false then
      ([{ FileRecordEntry.empty with status := "Error", errorReason := begun.2.lastError }],
        begun.2)
    else
      let st1 := runLoop (scanFile env disk scannerVersion)
        { db := begun.2, results := [], seenInodes := [], seenPaths := [], returned := false }
        scanned
      if st1.returned = true then (st1.results, st1.db)
      else
        let now : QDateTime := some (env.clock st1.db.ops)
        let st2 := runLoop (checkDeleted env disk baseWithSep now) st1 existingRecords
        if st2.returned = true then (st2.results, st2.db)
        else
          let committed := st2.db.commitTransaction env
          if committed.1 = false then
            let db := committed.2.rollbackTransaction env
            (st2.results ++
                [{ FileRecordEntry.empty with status := "Error", errorReason := db.lastError }],
              db)
          else (st2.results, committed.2)

/-! ## Definitions used to state the properties of the store and of the scan -/

/-- The keyed hash of RFC 2104 over a hash function `H` with block size `B`. -/
def hmacRfc2104 (H : Bytes → Bytes) (B : Nat) (K text : Bytes) : Bytes :=
  let K0 := if K.length > B then H K else K
  let Kz := K0 ++ List.replicate (B - K0.length) 0
  let ipad := List.replicate B 0x36
  let opad := List.replicate B 0x5c
  H (List.zipWith (fun k p => k ^^^ p) Kz opad ++ H (List.zipWith (fun k p => k ^^^ p) Kz ipad ++ text))

/-- The signed payload of the specification (4.4.2). -/
def signedPayload (m : FileMetadata) : Bytes :=
  List.intercalate [124]
    [toUtf8 m.path, number m.size, number m.mtimeSeconds, number m.uid, number m.gid,
      number m.mode, toUtf8 m.hash]

/-- The row was written by an upsert of a record of `f` with status `s` under the key. -/
def GoodRow (env : Env) (key : Bytes) (f : FileMetadata) (s : String) (row : FilesRow) : Prop :=
  ∃ (rec : FileRecordEntry) (sig : String), rec.metadata = f ∧ rec.status = s ∧
    row = DatabaseManager.boundRow rec sig ∧
    ∀ d : DatabaseManager, d.hmacKey = key → sig = d.computeSignature env f

/-- The record that `scanFile` reports for a readable file met for the first time (`New`)
or found unchanged (`Ok`). -/
def reportedRecord (env : Env) (ver : String) (st : ScanLoop) (f : FileMetadata)
    (previousHash status : String) : FileRecordEntry :=
  { FileRecordEntry.empty with
    metadata := f, updatedAt := some (env.clock st.db.ops),
    lastChecked := some (env.clock st.db.ops), scannerVersion := ver,
    previousHash := previousHash, status := status }

/-- An environment of the examples: no statement fails, the hash function returns 32 zero
bytes, the clock advances by one second per statement. -/
def demoEnv : Env :=
  { sha256 := fun _ => List.replicate 32 0, fails := fun _ => false, errorText := fun _ => "",
    clock := fun n => 1000 * n }

/-- A disk of the examples: every path is a directory and exists, paths are absolute. -/
def demoDisk : Disk :=
  { isDir := fun _ => true, absolutePath := fun p => p, absoluteFilePath := fun p => p,
    fileExists := fun _ => true }

/-- The metadata of a readable file of the examples. -/
def demoFile : FileMetadata :=
  { path := "/r/a", hash := "ab", size := 5, mtimeSeconds := 100, uid := 1000, gid := 1000,
    mode := 33188, device := 2049, inode := 77, hardlinkCount := 1, permissions := 420,
    owner := "u", groupName := "g", errorReason := "" }

/-- An empty store with a three-byte key and no open transaction. -/
def demoDb : DatabaseManager :=
  { hmacKey := [1, 2, 3], files := [], scan_history := [], snapshot := none, lastError := "",
    ops := 0 }

/-- The files of a traversal that `scanFile` does not skip as hard links of a file met
before, when all of them are readable; `seen` is the set of inode keys met so far. -/
def acceptedFiles : List String → List FileMetadata → List FileMetadata
  | _, [] => []
  | seen, f :: rest =>
    if f.inode ≠ 0 ∧ inodeKey f ∈ seen then acceptedFiles seen rest
    else f :: acceptedFiles (inodeKey f :: seen) rest

/-- The columns of a history row other than its time. -/
def HistoryRow.content (h : HistoryRow) :
    String × Option Int × Int × String × String × String :=
  (h.file_path, h.old_status, h.new_status, h.old_hash, h.new_hash, h.comment)

/-- A store whose only row carries a signature that does not match. -/
def demoTampered : DatabaseManager :=
  { hmacKey := [1, 2, 3]
    files := [DatabaseManager.boundRow
      { FileRecordEntry.empty with metadata := demoFile, status := "Ok" } "deadbeef"]
    scan_history := [], snapshot := some ([], []), lastError := "", ops := 0 }

/-- A store whose key is longer than one block of the hash. -/
def demoLongKeyDb : DatabaseManager :=
  { demoDb with hmacKey := List.replicate 70 7 }

/-- A record of the demonstration file. -/
def demoRecord : FileRecordEntry :=
  { FileRecordEntry.empty with metadata := demoFile, status := "Ok", signature := "00" }


namespace core

/-! ## The exclusion rules of `core::FileScanner` -/

/-- The enumeration `core::ExcludeType` of `core/Config.h`. -/
inductive ExcludeType where
  | Path
  | Glob
deriving DecidableEq, Repr

/-- The record `core::ExcludeRule` of `core/Config.h`. -/
structure ExcludeRule where
  type : ExcludeType
  pattern : String
deriving DecidableEq, Repr

/-- The record `core::Config` of `core/Config.h`. -/
structure Config where
  directories : List String
  excludeRules : List ExcludeRule
  recursive : Bool
  followSymlinks : Bool
  maxDepth : Int
deriving DecidableEq, Repr

/-- The difference `a - b` of two `std::size_t`: it wraps modulo 2^64. -/
def sizeSub (a b : Nat) : Nat :=
  (a + 2 ^ 64 - b % 2 ^ 64) % 2 ^ 64

/-- The call `s.substr(pos, count)` of `std::string`, for `pos` not beyond the end of `s`
(the case of every call made here): the characters from `pos` on, at most `count` of them. -/
def substr (s : List Char) (pos count : Nat) : List Char :=
  (s.drop pos).take count

/-- The call `s.find(needle)` of `std::string`: the first position at which `needle` occurs,
`none` for `npos`. -/
def find (s needle : List Char) : Option Nat :=
  (List.range (s.length + 1)).find? (fun i => needle.isPrefixOf (s.drop i))

/-- The call `s.rfind(needle, pos)` of `std::string`: the last position not after `pos` at
which `needle` occurs, `none` for `npos`. -/
def rfind (s needle : List Char) (pos : Nat) : Option Nat :=
  if needle.length > s.length then none
  else
    (List.range (min pos (s.length - needle.length) + 1)).reverse.find?
      (fun i => needle.isPrefixOf (s.drop i))

/-- The call `s.compare(pos, len, other) == 0` of `std::string`, for `pos` not beyond the end
of `s`. -/
def compareEq (s : List Char) (pos len : Nat) (other : List Char) : Bool :=
  decide (substr s pos len = other)

/-- The call `path.filename().string()` of `std::filesystem::path`, for the separator `/`:
what follows the last separator. -/
def filename (path : String) : String :=
  String.mk (path.data.reverse.takeWhile (fun c => decide (c ≠ '/'))).reverse

/-- The body of the loop of `FileScanner::isExcluded` (FileScanner.cpp 18-48) for one rule:
whether it executes `return true`. -/
def ruleExcludes (normalized fileName : String) (rule : ExcludeRule) : Bool :=
  match rule.type with
  | ExcludeType.Path => decide (rfind normalized.data rule.pattern.data 0 = some 0)
  | ExcludeType.Glob =>
    if rule.pattern.data ≠ [] then
      let p := rule.pattern.data
      if p.head? = some '*' ∧ p.getLast? = some '*' then
        let needle := substr p 1 (sizeSub p.length 2)
        (find fileName.data needle).isSome
      else if p.head? = some '*' then
        let needle := p.drop 1
        decide (fileName.data.length ≥ needle.length) &&
          compareEq fileName.data (fileName.data.length - needle.length) needle.length needle
      else if p.getLast? = some '*' then
        let needle := substr p 0 (sizeSub p.length 1)
        decide (rfind fileName.data needle 0 = some 0)
      else decide (fileName = rule.pattern)
    else false

/-- The method `FileScanner::isExcluded` (FileScanner.cpp 13-51). `canonical` stands for
`std::filesystem::weakly_canonical`, which reads the file system. The loop returns at the
first rule that matches. -/
def isExcluded (canonical : String → String) (config : Config) (path : String) : Bool :=
  let normalized := canonical path
  let fileName := filename path
  config.excludeRules.any (fun rule => ruleExcludes normalized fileName rule)

/-- A configuration with the given exclusion rules and the default options. -/
def configOf (rules : List ExcludeRule) : Config :=
  { directories := [], excludeRules := rules, recursive := true, followSymlinks := false,
    maxDepth := 20 }

end core

/-! ## The worker of `gui/ScanWorker` -/

/-- The signals of `ScanWorker` (ScanWorker.h), as the events of a trace. -/
inductive Signal where
  | progressChanged (current total : Int)
  | fileProcessed (path : String)
  | scanFinished (results : List FileRecordEntry)
  | scanError (message : String)
deriving DecidableEq, Repr

/-- What a call can throw: an exception derived from `std::exception` with its `what()`, or
anything else. -/
inductive Thrown where
  | stdException (what : String)
  | other
deriving DecidableEq, Repr

/-- State of the locals of `startScan` while it runs, with the state of `m_fileMonitor` and
the signals emitted so far. The two counters are `int`; they count records of `aggregated`,
whose size is an `int`. -/
structure ScanRun (σ : Type) where
  monitor : σ
  aggregated : List FileRecordEntry
  totalFiles : Int
  processedFiles : Int
  emitted : List Signal

/-- Lines 39-43 of `ScanWorker.cpp`: the body of the loop over the results of one directory. -/
def reportRecord {σ : Type} (st : ScanRun σ) (record : FileRecordEntry) : ScanRun σ :=
  let processedFiles := st.processedFiles + 1
  { st with
    processedFiles := processedFiles
    emitted := st.emitted ++
      [Signal.progressChanged processedFiles st.totalFiles,
        Signal.fileProcessed record.metadata.path] }

/-- Lines 35-45 of `ScanWorker.cpp`: the loop over the directories. `scan` stands for
`m_fileMonitor.scanDirectory(dir, m_recursive, m_followSymlinks, m_maxDepth)`, which returns
its results or throws. The loop is left at the first exception, with what was emitted. -/
def scanDirectories {σ : Type} (scan : σ → String → Except Thrown (List FileRecordEntry × σ)) :
    ScanRun σ → List String → ScanRun σ × Option Thrown
  | st, [] => (st, none)
  | st, dir :: rest =>
    match scan st.monitor dir with
    | Except.error thrown => (st, some thrown)
    | Except.ok (results, monitor) =>
      let totalFiles := st.totalFiles + results.length
      let st1 : ScanRun σ :=
        { st with
          monitor := monitor, totalFiles := totalFiles
          emitted := st.emitted ++ [Signal.progressChanged st.processedFiles totalFiles] }
      let st2 := results.foldl reportRecord st1
      scanDirectories scan { st2 with aggregated := st2.aggregated ++ results } rest

/-- The slot `ScanWorker::startScan` (ScanWorker.cpp 29-54): the signals it emits, in
order. -/
def startScan {σ : Type} (scan : σ → String → Except Thrown (List FileRecordEntry × σ))
    (monitor : σ) (directories : List String) : List Signal :=
  let run := scanDirectories scan
    { monitor := monitor, aggregated := [], totalFiles := 0, processedFiles := 0, emitted := [] }
    directories
  match run.2 with
  | none =>
    run.1.emitted ++
      [Signal.progressChanged run.1.processedFiles run.1.totalFiles,
        Signal.scanFinished run.1.aggregated]
  | some (Thrown.stdException what) => run.1.emitted ++ [Signal.scanError what]
  | some Thrown.other => run.1.emitted ++ [Signal.scanError "Неизвестная ошибка при сканировании"]

/-- The call of `FileMonitor::scanDirectory` made by the worker, on the database manager of
the worker: the method has no `throw` and reports a failure of the store in the records it
returns. `scanned dir` is what the traversal of `dir` yields. -/
def monitorScan (env : Env) (disk : Disk) (scannerVersion : String)
    (scanned : String → List FileMetadata) (db : DatabaseManager) (dir : String) :
    Except Thrown (List FileRecordEntry × DatabaseManager) :=
  Except.ok (scanDirectory env disk scannerVersion db dir (scanned dir))

/-- Whether a signal is one of the two terminal ones. -/
def Signal.isTerminal : Signal → Bool
  | Signal.scanFinished _ => true
  | Signal.scanError _ => true
  | _ => false

/-- Whether a signal is not a progress report, or reports `0 ≤ current ≤ total`. -/
def Signal.progressInRange : Signal → Bool
  | Signal.progressChanged current total => decide (0 ≤ current) && decide (current ≤ total)
  | _ => true

/-- An environment in which the second statement, the `BEGIN` of the scan, fails. -/
def demoLockedEnv : Env :=
  { demoEnv with fails := fun n => decide (n = 1), errorText := fun _ => "database is locked" }

/-- What holds of the locals of `startScan` between two signals. -/
def ScanRun.inRange {σ : Type} (st : ScanRun σ) : Prop :=
  0 ≤ st.processedFiles ∧ st.processedFiles ≤ st.totalFiles ∧
    ∀ e ∈ st.emitted, e.isTerminal = false ∧ e.progressInRange = true

/-- A record whose fields outside the table `files` are set. -/
def demoFlagged : FileRecordEntry :=
  { demoRecord with
    previousHash := "00", errorReason := "x", metadataChanged := true, mtimeChanged := true,
    updatedAt := some 1500, lastChecked := some 2999 }

/-! ## The storage adapter of `storage/QtStorageAdapter` -/

namespace QtStorageAdapter

/-- Number of ticks of `std::chrono::system_clock` in one second (nanoseconds, as in
libstdc++). -/
def ticksPerSecond : Int := 1000000000

/-- The call `std::chrono::system_clock::to_time_t(t)`: whole seconds, rounded towards
zero. -/
def to_time_t (t : Int) : Int :=
  Int.tdiv t ticksPerSecond

/-- The call `std::chrono::system_clock::from_time_t(s)`. -/
def from_time_t (s : Int) : Int :=
  s * ticksPerSecond

/-- The helper `toString(core::FileStatus)` of `QtStorageAdapter.cpp`. -/
def toString (status : core.FileStatus) : String :=
  match status with
  | core.FileStatus.Changed => "Changed"
  | core.FileStatus.New => "New"
  | core.FileStatus.Deleted => "Deleted"
  | core.FileStatus.Error => "Error"
  | core.FileStatus.Ok => "Ok"

/-- The helper `toChrono` of `QtStorageAdapter.cpp`; `toSecsSinceEpoch()` of an invalid date
is 0. -/
def toChrono (dt : QDateTime) : Int :=
  match dt with
  | some ms => from_time_t (Int.tdiv ms 1000)
  | none => from_time_t 0

/-- Lines 63-75 of `QtStorageAdapter.cpp`: the record built for one entry, `now` being the
reading of the clock. -/
def buildRecord (now : Int) (m : core.FileMetadata) : FileRecordEntry :=
  { FileRecordEntry.empty with
    metadata :=
      { FileMetadata.empty with
        path := m.path, hash := m.hash, size := toLongLong m.size, permissions := m.permissions,
        owner := m.owner, groupName := m.group, inode := m.inode,
        mtimeSeconds := to_time_t m.mtime }
    status := toString m.status
    updatedAt := some now
    lastChecked := some now
    signatureValid := true }

/-- The method `saveCurrentState` (QtStorageAdapter.cpp 60-78); what `clearAllRecords` and
`upsertFileRecord` return is not looked at. -/
def saveCurrentState (env : Env) (db : DatabaseManager) (files : List core.FileMetadata) :
    DatabaseManager :=
  let cleared := (db.clearAllRecords env).2
  files.foldl (fun d m => (d.upsertFileRecord env (buildRecord (env.clock d.ops) m)).2) cleared

/-- The method `appendHistoryRecord` (QtStorageAdapter.cpp 80-88); the time of the event is
not passed on, `insertHistoryRecord` reads the clock itself. -/
def appendHistoryRecord (env : Env) (db : DatabaseManager) (event : core.HistoryEvent) :
    DatabaseManager :=
  (db.insertHistoryRecord env event.filePath event.oldStatus event.newStatus event.oldHash
    event.newHash event.comment).2

/-- The method `loadHistory` (QtStorageAdapter.cpp 90-106). -/
def loadHistory (env : Env) (db : DatabaseManager) (limit : Int) :
    List core.HistoryEvent × DatabaseManager :=
  let fetched := db.fetchHistory env limit
  (fetched.1.map (fun record =>
      { scanTime := toChrono record.scanTime, filePath := record.filePath,
        oldStatus := record.oldStatus, newStatus := record.newStatus, oldHash := record.oldHash,
        newHash := record.newHash, comment := record.comment }),
    fetched.2)

/-- The calls that `FileIntegrityEngine::compareAndPersist` makes on `m_storage`, made on the
adapter: `appendHistoryRecord` for each event in order, then `saveCurrentState`. None of them
returns anything to the engine. -/
def persist (env : Env) (db : DatabaseManager) (calls : core.Persisted) : DatabaseManager :=
  let db1 := calls.history.foldl (appendHistoryRecord env) db
  match calls.saved with
  | some files => saveCurrentState env db1 files
  | none => db1

end QtStorageAdapter

/-- A store that holds one history row. -/
def demoHistoryDb : DatabaseManager :=
  { demoDb with
    scan_history := [{ scan_time := some 5, file_path := "/r/z", old_status := none,
                       new_status := 2, old_hash := "", new_hash := "h9", comment := "" }] }

/-! ## The scan of `gui/FileMonitor` over an abstract store, with the calls it makes -/

/-- The methods of the store that `FileMonitor::scanDirectory` calls, over any state `σ` of
the store; `currentDateTimeUtc` is the reading of the clock when the store is in that
state. -/
structure Store (σ : Type) where
  fetchAllRecords : σ → List FileRecordEntry × σ
  beginTransaction : σ → Bool × σ
  fetchRecord : σ → String → FileRecordEntry × σ
  insertHistoryRecord : σ → String → Int → Int → String → String → String → Bool × σ
  upsertFileRecord : σ → FileRecordEntry → Bool × σ
  commitTransaction : σ → Bool × σ
  rollbackTransaction : σ → σ
  lastError : σ → String
  currentDateTimeUtc : σ → Int

/-- A call made on the store, with the path it is made for and what it returned. -/
inductive StoreCall where
  | fetchAllRecords
  | beginTransaction (ok : Bool)
  | fetchRecord (path : String)
  | insertHistoryRecord (path : String) (ok : Bool)
  | upsertFileRecord (path : String) (ok : Bool)
  | commitTransaction (ok : Bool)
  | rollbackTransaction
deriving DecidableEq, Repr

/-- State of the locals of `scanDirectory` while it runs over a store of state `σ`, with the
calls made on the store so far. -/
structure TracedLoop (σ : Type) where
  store : σ
  calls : List StoreCall
  results : List FileRecordEntry
  seenInodes : List String
  seenPaths : List String
  returned : Bool

/-- A call of `insertHistoryRecord`, added to the calls made: what it returned, the store
and the calls after it. -/
def tracedInsert {σ : Type} (S : Store σ) (store : σ) (calls : List StoreCall)
    (filePath : String) (oldStatus newStatus : Int) (oldHash newHash comment : String) :
    Bool × σ × List StoreCall :=
  let r := S.insertHistoryRecord store filePath oldStatus newStatus oldHash newHash comment
  (r.1, r.2, calls ++ [StoreCall.insertHistoryRecord filePath r.1])

/-- A call of `upsertFileRecord`, added to the calls made. -/
def tracedUpsert {σ : Type} (S : Store σ) (store : σ) (calls : List StoreCall)
    (record : FileRecordEntry) : Bool × σ × List StoreCall :=
  let r := S.upsertFileRecord store record
  (r.1, r.2, calls ++ [StoreCall.upsertFileRecord record.metadata.path r.1])

/-- The four statements that follow a failed call in `scanDirectory`: the rollback, the
record turned into an error record and appended, and the `return`. `store` and `calls` are the
store and the calls after the failed call. -/
def abortScan {σ : Type} (S : Store σ) (st : TracedLoop σ) (store : σ) (calls : List StoreCall)
    (record : FileRecordEntry) : TracedLoop σ :=
  let store := S.rollbackTransaction store
  let record := { record with status := "Error", errorReason := S.lastError store }
  { st with
    store := store, calls := calls ++ [StoreCall.rollbackTransaction]
    results := st.results ++ [record], returned := true }

/-- Lines 198-222 of `FileMonitor.cpp` over the abstract store: the history row of a
classified record, written for a new file and for a change of status or of hash. -/
def insertHistoryFor {σ : Type} (S : Store σ) (store : σ) (calls : List StoreCall)
    (record oldRecord : FileRecordEntry) : Bool × σ × List StoreCall :=
  let oldHash := oldRecord.metadata.hash
  let oldStatus := if oldRecord.status = "" then "Ok" else oldRecord.status
  let hasOldRecord : Bool := decide (oldRecord.metadata.path ≠ "")
  let statusChanged : Bool := decide (oldStatus ≠ record.status)
  let hashChanged : Bool := decide (oldHash ≠ record.metadata.hash)
  if hasOldRecord = false then
    tracedInsert S store calls record.metadata.path (-1) (statusCode record.status)
      oldRecord.metadata.hash record.metadata.hash "Новый файл обнаружен"
  else if statusChanged = true ∨ hashChanged = true then
    tracedInsert S store calls record.metadata.path (statusCode oldStatus)
      (statusCode record.status) oldRecord.metadata.hash record.metadata.hash ""
  else (true, store, calls)

/-- Lines 224-232 of `FileMonitor.cpp` over the abstract store: the upsert of a classified
record, made when something changed. -/
def upsertFor {σ : Type} (S : Store σ) (store : σ) (calls : List StoreCall)
    (record oldRecord : FileRecordEntry) : Bool × σ × List StoreCall :=
  let oldHash := oldRecord.metadata.hash
  let oldStatus := if oldRecord.status = "" then "Ok" else oldRecord.status
  let hasOldRecord : Bool := decide (oldRecord.metadata.path ≠ "")
  let statusChanged : Bool := decide (oldStatus ≠ record.status)
  let hashChanged : Bool := decide (oldHash ≠ record.metadata.hash)
  if hasOldRecord = false ∨ statusChanged = true ∨ hashChanged = true ∨
      record.metadataChanged = true then
    tracedUpsert S store calls record
  else (true, store, calls)

/-- Lines 198-239 of `FileMonitor.cpp` over the abstract store: the history row and the
upsert for a classified record, with the `return` taken when one of them fails. -/
def persistRecordTraced {σ : Type} (S : Store σ) (disk : Disk) (st : TracedLoop σ)
    (seenInodes : List String) (store : σ) (calls : List StoreCall)
    (record oldRecord : FileRecordEntry) : TracedLoop σ :=
  let st := { st with seenInodes := seenInodes }
  let inserted := insertHistoryFor S store calls record oldRecord
  if inserted.1 = false then abortScan S st inserted.2.1 inserted.2.2 record
  else
    let upserted := upsertFor S inserted.2.1 inserted.2.2 record oldRecord
    if upserted.1 = false then abortScan S st upserted.2.1 upserted.2.2 record
    else
      { st with
        store := upserted.2.1, calls := upserted.2.2, results := st.results ++ [record]
        seenPaths := st.seenPaths ++ [disk.absoluteFilePath record.metadata.path]
        returned := false }

/-- Lines 139-239 of `FileMonitor.cpp` over the abstract store: what the traversal loop does
with one regular file, given the metadata that `buildMetadata` returned for it. -/
def scanFileTraced {σ : Type} (S : Store σ) (disk : Disk) (scannerVersion : String)
    (st : TracedLoop σ) (metadata : FileMetadata) : TracedLoop σ :=
  let updatedAt : QDateTime := some (S.currentDateTimeUtc st.store)
  let record : FileRecordEntry :=
    { FileRecordEntry.empty with
      metadata := metadata, updatedAt := updatedAt, lastChecked := updatedAt,
      scannerVersion := scannerVersion }
  if record.metadata.hash = "" then
    let errorReason :=
      if record.metadata.errorReason = "" then "Не удалось прочитать файл"
      else if containsCaseInsensitive record.metadata.errorReason "Permission denied" = true then
        "Недостаточно прав (Permission denied)"
      else record.metadata.errorReason
    let record :=
      { record with
        status := "Error", errorReason := errorReason,
        scannerVersion := record.scannerVersion ++ " (error_read)" }
    { st with results := st.results ++ [record] }
  else if record.metadata.inode ≠ 0 ∧ inodeKey record.metadata ∈ st.seenInodes then st
  else
    let seenInodes := inodeKey record.metadata :: st.seenInodes
    let fetched := S.fetchRecord st.store record.metadata.path
    let oldRecord := fetched.1
    let record := classifyRecord record oldRecord
    persistRecordTraced S disk st seenInodes fetched.2
      (st.calls ++ [StoreCall.fetchRecord record.metadata.path]) record oldRecord

/-- Lines 258-271 of `FileMonitor.cpp` over the abstract store: the history row of a deleted
record, written when its status changes. -/
def insertHistoryForDeleted {σ : Type} (S : Store σ) (store : σ) (calls : List StoreCall)
    (existing deleted : FileRecordEntry) : Bool × σ × List StoreCall :=
  let oldStatus := if existing.status = "" then "Ok" else existing.status
  let statusTransition : Bool := decide (statusCode oldStatus ≠ statusCode deleted.status)
  if statusTransition then
    tracedInsert S store calls deleted.metadata.path (statusCode oldStatus)
      (statusCode deleted.status) existing.metadata.hash deleted.metadata.hash "Файл удалён"
  else (true, store, calls)

/-- Lines 244-281 of `FileMonitor.cpp` over the abstract store: what the final loop does with
one record of the baseline read at the start of the scan. -/
def checkDeletedTraced {σ : Type} (S : Store σ) (disk : Disk) (baseWithSep : String)
    (now : QDateTime) (st : TracedLoop σ) (existing : FileRecordEntry) : TracedLoop σ :=
  let absolutePath := disk.absoluteFilePath existing.metadata.path
  if absolutePath ∈ st.seenPaths then st
  else if isPathInDirectory absolutePath baseWithSep = false then st
  else if disk.fileExists absolutePath = true then st
  else
    let deleted := buildDeletedRecord existing now
    let inserted := insertHistoryForDeleted S st.store st.calls existing deleted
    if inserted.1 = false then abortScan S st inserted.2.1 inserted.2.2 deleted
    else
      let upserted := tracedUpsert S inserted.2.1 inserted.2.2 deleted
      if upserted.1 = false then abortScan S st upserted.2.1 upserted.2.2 deleted
      else
        { st with
          store := upserted.2.1, calls := upserted.2.2, results := st.results ++ [deleted] }

/-- A loop of `scanDirectory` over `items` with the given body, left as soon as the body has
executed a `return`. -/
def runLoopTraced {σ α : Type} (body : TracedLoop σ → α → TracedLoop σ) :
    TracedLoop σ → List α → TracedLoop σ
  | st, [] => st
  | st, x :: rest =>
    if (body st x).returned = true then body st x else runLoopTraced body (body st x) rest

/-- The method `FileMonitor::scanDirectory` (FileMonitor.cpp 51-298) over the abstract store:
the final state of its locals, with the calls made on the store in order. `scanned` stands for
the traversal, as in `scanDirectory`. -/
def scanDirectoryTraced {σ : Type} (S : Store σ) (disk : Disk) (scannerVersion : String)
    (store : σ) (directoryPath : String) (scanned : List FileMetadata) : TracedLoop σ :=
  let st0 : TracedLoop σ :=
    { store := store, calls := [], results := [], seenInodes := [], seenPaths := [],
      returned := true }
  if disk.isDir directoryPath = false then st0
  else
    let fetchedAll := S.fetchAllRecords store
    let existingRecords := fetchedAll.1
    let basePath := disk.absolutePath directoryPath
    let baseWithSep := if endsWith basePath "/" = true then basePath else basePath ++ "/"
    let begun := S.beginTransaction fetchedAll.2
    let calls := [StoreCall.fetchAllRecords, StoreCall.beginTransaction begun.1]
    if begun.1 = false then
      { st0 with
        store := begun.2, calls := calls
        results :=
          [{ FileRecordEntry.empty with status := "Error", errorReason := S.lastError begun.2 }] }
    else
      let st1 := runLoopTraced (scanFileTraced S disk scannerVersion)
        { st0 with store := begun.2, calls := calls, returned := false } scanned
      if st1.returned = true then st1
      else
        let now : QDateTime := some (S.currentDateTimeUtc st1.store)
        let st2 := runLoopTraced (checkDeletedTraced S disk baseWithSep now) st1 existingRecords
        if st2.returned = true then st2
        else
          let committed := S.commitTransaction st2.store
          let calls := st2.calls ++ [StoreCall.commitTransaction committed.1]
          if committed.1 = false then
            let store := S.rollbackTransaction committed.2
            { st2 with
              store := store, calls := calls ++ [StoreCall.rollbackTransaction]
              results := st2.results ++
                [{ FileRecordEntry.empty with status := "Error", errorReason := S.lastError store }]
              returned := true }
          else { st2 with store := committed.2, calls := calls, returned := true }

/-- The store `DatabaseManager` as a store of `scanDirectory`. -/
def databaseStore (env : Env) : Store DatabaseManager :=
  { fetchAllRecords := fun db => db.fetchAllRecords env
    beginTransaction := fun db => db.beginTransaction env
    fetchRecord := fun db path => db.fetchRecord env path
    insertHistoryRecord := fun db filePath oldStatus newStatus oldHash newHash comment =>
      db.insertHistoryRecord env filePath oldStatus newStatus oldHash newHash comment
    upsertFileRecord := fun db record => db.upsertFileRecord env record
    commitTransaction := fun db => db.commitTransaction env
    rollbackTransaction := fun db => db.rollbackTransaction env
    lastError := fun db => db.lastError
    currentDateTimeUtc := fun db => env.clock db.ops }

/-- The state of the locals without the calls. -/
def TracedLoop.toScanLoop (st : TracedLoop DatabaseManager) : ScanLoop :=
  { db := st.store, results := st.results, seenInodes := st.seenInodes,
    seenPaths := st.seenPaths, returned := st.returned }

/-- What makes a store transactional for `scanDirectory`: `content` is what the store holds,
`saved` the content to which a rollback returns while a transaction is open. Reading keeps the
content; a successful `beginTransaction` saves it; reads, writes and a failed commit inside
the transaction keep what is saved; a rollback restores it. -/
structure Transactional {σ γ : Type} (S : Store σ) (content : σ → γ) (saved : σ → Option γ) :
    Prop where
  fetchAll_content : ∀ s, content (S.fetchAllRecords s).2 = content s
  begin_saves : ∀ s, (S.beginTransaction s).1 = true →
    saved (S.beginTransaction s).2 = some (content s)
  fetchRecord_saved : ∀ s p, saved (S.fetchRecord s p).2 = saved s
  insert_saved : ∀ s p o n oh nh c, saved (S.insertHistoryRecord s p o n oh nh c).2 = saved s
  upsert_saved : ∀ s r, saved (S.upsertFileRecord s r).2 = saved s
  commit_saved : ∀ s, (S.commitTransaction s).1 = false → saved (S.commitTransaction s).2 = saved s
  rollback_restores : ∀ s c, saved s = some c → content (S.rollbackTransaction s) = c

/-- A call that leaves the scan running inside its transaction: a read, or a write that
succeeded. -/
def StoreCall.continues : StoreCall → Bool
  | StoreCall.fetchRecord _ => true
  | StoreCall.insertHistoryRecord _ ok => ok
  | StoreCall.upsertFileRecord _ ok => ok
  | _ => false

/-- A write or a commit that failed. -/
def StoreCall.failedWrite : StoreCall → Bool
  | StoreCall.insertHistoryRecord _ ok => !ok
  | StoreCall.upsertFileRecord _ ok => !ok
  | StoreCall.commitTransaction ok => !ok
  | _ => false

/-- An environment in which the fifth statement fails: the upsert of the first file of a
scan. -/
def demoFailingEnv : Env :=
  { demoEnv with fails := fun n => decide (n = 4), errorText := fun _ => "disk I/O error" }


/-- The scan is inside its transaction: it has not returned, the store still holds the
content `c0` saved at the beginning, and every call after `pre` let the scan continue. -/
def Running {σ γ : Type} (saved : σ → Option γ) (pre : List StoreCall) (c0 : γ)
    (st : TracedLoop σ) : Prop :=
  st.returned = false ∧ saved st.store = some c0 ∧
    ∃ body, st.calls = pre ++ body ∧ ∀ c ∈ body, c.continues = true

/-- The scan has returned after a failed write: the calls after `pre` end with the failed
call and the rollback, and the content of the store is `c0` again. -/
def Aborted {σ γ : Type} (content : σ → γ) (pre : List StoreCall) (c0 : γ)
    (st : TracedLoop σ) : Prop :=
  st.returned = true ∧ content st.store = c0 ∧
    ∃ body c, st.calls = pre ++ body ++ [c, StoreCall.rollbackTransaction] ∧
      (∀ x ∈ body, x.continues = true) ∧ c.failedWrite = true

/-- What holds after a write made inside the transaction, of what it returned, the store and
the calls after it: the saved content is kept, and the calls after `pre` all let the scan
continue, but for the last one when the write failed. -/
def Written {σ γ : Type} (saved : σ → Option γ) (pre : List StoreCall) (c0 : γ)
    (r : Bool × σ × List StoreCall) : Prop :=
  saved r.2.1 = some c0 ∧
    ((r.1 = true ∧ ∃ body, r.2.2 = pre ++ body ∧ ∀ x ∈ body, x.continues = true) ∨
      (r.1 = false ∧ ∃ body c, r.2.2 = pre ++ body ++ [c] ∧
        (∀ x ∈ body, x.continues = true) ∧ c.failedWrite = true))

/-! ## Definitions used to state the properties of the final loop of the scan -/

/-- The three tests of lines 245-254 of `FileMonitor.cpp`: whether the final loop reports the
baseline record as deleted, given the paths seen by the traversal. -/
def reportedDeleted (disk : Disk) (baseWithSep : String) (seenPaths : List String)
    (existing : FileRecordEntry) : Bool :=
  !decide (disk.absoluteFilePath existing.metadata.path ∈ seenPaths) &&
    isPathInDirectory (disk.absoluteFilePath existing.metadata.path) baseWithSep &&
    !disk.fileExists (disk.absoluteFilePath existing.metadata.path)

/-- The status code that the final loop takes for the old status of a baseline record. -/
def oldStatusCode (existing : FileRecordEntry) : Int :=
  statusCode (if existing.status = "" then "Ok" else existing.status)

/-- The columns, other than the time, of the history row that the final loop writes for a
baseline record reported as deleted. -/
def deletedHistory (existing : FileRecordEntry) :
    String × Option Int × Int × String × String × String :=
  (existing.metadata.path, some (oldStatusCode existing), 3, existing.metadata.hash,
    existing.metadata.hash, "Файл удалён")

/-- A disk of the examples on which no file exists. -/
def demoEmptyDisk : Disk :=
  { demoDisk with fileExists := fun _ => false }

/-- A store that holds the row of the demonstration file, with status `Ok`. -/
def demoStoredDb : DatabaseManager :=
  (demoDb.upsertFileRecord demoEnv demoRecord).2

namespace core

/-! ## The traversal of `core::FileScanner` -/

/-- A `std::filesystem::directory_entry` as an iterator yields it: its path, and what
`is_directory()`, `is_regular_file()` (both follow a symbolic link) and `is_symlink()`
return. -/
structure DirectoryEntry where
  path : String
  is_directory : Bool
  is_regular_file : Bool
  is_symlink : Bool
deriving DecidableEq, Repr

/-- What `FileScanner` reads from the file system and from the hasher. `entries p` is the
content of the directory `p` in the order of iteration, empty when the directory cannot be
opened (`skip_permission_denied`); `last_write_time p` is the time already converted to the
system clock; `stat p` is the inode with the names of the owner and of the group, when
`::stat` succeeds; `compute` is `IHasher::compute`. -/
structure FileSystem where
  pathExists : String → Bool
  is_directory : String → Bool
  entries : String → List DirectoryEntry
  weakly_canonical : String → String
  file_size : String → Nat
  last_write_time : String → Int
  permissions : String → Nat
  stat : String → Option (Nat × Option String × Option String)
  compute : String → String

/-- The method `FileScanner::buildMetadata` (FileScanner.cpp 53-79). -/
def buildMetadata (fs : FileSystem) (entry : DirectoryEntry) : FileMetadata :=
  let path := entry.path
  let m : FileMetadata :=
    { path := path, hash := "", size := fs.file_size path, mtime := fs.last_write_time path,
      permissions := fs.permissions path, owner := "", group := "", inode := 0,
      status := FileStatus.Ok }
  let m :=
    match fs.stat path with
    | some st =>
      let m := { m with inode := st.1 }
      let m := match st.2.1 with
        | some name => { m with owner := name }
        | none => m
      match st.2.2 with
      | some name => { m with group := name }
      | none => m
    | none => m
  { m with hash := fs.compute path }

/-- State of a `recursive_directory_iterator` with the locals of the loop of `scan`: for each
directory being iterated, innermost first, the entries not yet passed (the first entry of the
innermost one is `*it`); the set `visited`; the vector `files`. -/
structure Iteration where
  pending : List (List DirectoryEntry)
  visited : List String
  files : List FileMetadata
deriving DecidableEq, Repr

/-- The position of the iterator once the directories that are exhausted have been left. -/
def settle : List (List DirectoryEntry) → List (List DirectoryEntry)
  | [] :: rest => settle rest
  | stack => stack

/-- The loop of lines 96-115 of `FileScanner.cpp`, for at most `fuel` entries: each round
runs the body on `*it` and then `++it`, which enters a directory unless
`disable_recursion_pending()` was called, the entry being a directory that is not a symbolic
link, or any directory under `follow_directory_symlink`. `none` when the fuel does not
suffice. -/
def iterate (fs : FileSystem) (config : Config) : Nat → Iteration → Option Iteration
  | fuel, st =>
    match settle st.pending with
    | [] => some { st with pending := [] }
    | [] :: _ => none
    | (entry :: siblings) :: outer =>
      match fuel with
      | 0 => none
      | fuel + 1 =>
        let depth : Int := outer.length
        let enters : Bool := entry.is_directory && (!entry.is_symlink || config.followSymlinks)
        if config.maxDepth ≥ 0 ∧ depth > config.maxDepth then
          iterate fs config fuel { st with pending := siblings :: outer }
        else if entry.is_directory = true then
          let canonical := fs.weakly_canonical entry.path
          if canonical ∈ st.visited then
            iterate fs config fuel { st with pending := siblings :: outer }
          else
            iterate fs config fuel
              { st with
                visited := canonical :: st.visited
                pending := if enters then fs.entries entry.path :: siblings :: outer
                  else siblings :: outer }
        else if entry.is_regular_file = false then
          iterate fs config fuel { st with pending := siblings :: outer }
        else if isExcluded fs.weakly_canonical config entry.path = true then
          iterate fs config fuel { st with pending := siblings :: outer }
        else
          iterate fs config fuel
            { st with
              files := st.files ++ [buildMetadata fs entry]
              pending := siblings :: outer }

/-- The loop of lines 117-125 of `FileScanner.cpp` over the entries of a directory. -/
def listFlat (fs : FileSystem) (config : Config) (files : List FileMetadata)
    (entries : List DirectoryEntry) : List FileMetadata :=
  entries.foldl
    (fun files entry =>
      if entry.is_regular_file = false then files
      else if isExcluded fs.weakly_canonical config entry.path = true then files
      else files ++ [buildMetadata fs entry])
    files

/-- The method `FileScanner::scan` (FileScanner.cpp 81-129), with at most `fuel` rounds of
the recursive loop for each directory of the configuration. -/
def scan (fs : FileSystem) (config : Config) (fuel : Nat) : Option (List FileMetadata) :=
  config.directories.foldl
    (fun (acc : Option (List FileMetadata)) dir =>
      match acc with
      | none => none
      | some files =>
        if fs.pathExists dir = false ∨ fs.is_directory dir = false then some files
        else if config.recursive = true then
          match iterate fs config fuel { pending := [fs.entries dir], visited := [], files := files } with
          | some st => some st.files
          | none => none
        else some (listFlat fs config files (fs.entries dir)))
    (some [])

/-- The record `core::ScanResult` of `core/IStorage.h`. -/
structure ScanResult where
  files : List FileMetadata
  overallStatus : FileStatus
deriving DecidableEq, Repr

/-- The method `FileIntegrityEngine::runScan` (FileIntegrityEngine.cpp 16-30): the result and
the calls made on the storage. `hasHasher` tells whether `m_hasher` is set, `scanned` is what
`scanner.scan()` returns and `oldState` what `loadCurrentState()` returns. -/
def runScan (hasStorage hasHasher : Bool) (clock : Nat → Int)
    (scanned oldState : List FileMetadata) : ScanResult × Persisted :=
  if hasStorage = false ∨ hasHasher = false then
    ({ files := [], overallStatus := FileStatus.Ok },
      { summary := ⟨0, 0, 0, 0, 0⟩, history := [], saved := none })
  else
    let newState := scanned
    let persisted := compareAndPersist hasStorage clock newState oldState
    let m_cachedState := newState
    ({ files := m_cachedState, overallStatus := persisted.summary.overallStatus }, persisted)

/-- A file system of the examples: the root `/r` holds the directory `skip`, which holds the
file `a.txt`. -/
def demoFs : FileSystem :=
  { pathExists := fun p => decide (p = "/r" ∨ p = "/r/skip" ∨ p = "/r/skip/a.txt")
    is_directory := fun p => decide (p = "/r" ∨ p = "/r/skip")
    entries := fun p =>
      if p = "/r" then [⟨"/r/skip", true, false, false⟩]
      else if p = "/r/skip" then [⟨"/r/skip/a.txt", false, true, false⟩]
      else []
    weakly_canonical := fun p => p
    file_size := fun _ => 3
    last_write_time := fun _ => 1500000000
    permissions := fun _ => 420
    stat := fun _ => some (7, some "u", some "g")
    compute := fun _ => "h1" }

/-- The configuration of the examples: the root `/r`, the rules given, recursive. -/
def demoConfig (rules : List ExcludeRule) : Config :=
  { directories := ["/r"], excludeRules := rules, recursive := true, followSymlinks := false,
    maxDepth := 20 }

/-- A baseline record of the examples whose path lies outside the root `/r`. -/
def demoOutside : FileMetadata := ⟨"/other/b", "h7", 1, 10, 420, "u", "g", 70, .Ok⟩

end core

/-! ## The baseline read through the storage adapter -/

namespace QtStorageAdapter

/-- The test `a.compare(b, Qt::CaseInsensitive) == 0` of `QString`, with the case folding of
the ASCII letters. -/
def equalsCaseInsensitive (a b : String) : Bool :=
  decide (a.data.map Char.toLower = b.data.map Char.toLower)

/-- The helper `fromString` of `QtStorageAdapter.cpp`. -/
def fromString (status : String) : core.FileStatus :=
  if equalsCaseInsensitive status "Changed" = true then core.FileStatus.Changed
  else if equalsCaseInsensitive status "New" = true then core.FileStatus.New
  else if equalsCaseInsensitive status "Deleted" = true then core.FileStatus.Deleted
  else if equalsCaseInsensitive status "Error" = true then core.FileStatus.Error
  else if equalsCaseInsensitive status "Unchanged" = true then core.FileStatus.Ok
  else core.FileStatus.Ok

/-- Lines 45-54 of `QtStorageAdapter.cpp`: the entry built from one record of the store. -/
def toCoreMetadata (record : FileRecordEntry) : core.FileMetadata :=
  { path := record.metadata.path, hash := record.metadata.hash,
    size := toULongLong record.metadata.size, permissions := record.metadata.permissions,
    owner := record.metadata.owner, group := record.metadata.groupName,
    inode := record.metadata.inode, mtime := from_time_t record.metadata.mtimeSeconds,
    status := fromString record.status }

/-- The method `loadCurrentState` (QtStorageAdapter.cpp 40-58). -/
def loadCurrentState (env : Env) (db : DatabaseManager) :
    List core.FileMetadata × DatabaseManager :=
  let fetched := db.fetchAllRecords env
  (fetched.1.map toCoreMetadata, fetched.2)

end QtStorageAdapter

/-- An entry of the examples whose modification time is one second and a half. -/
def demoHalfSecond : core.FileMetadata :=
  { core.demoA with mtime := 1500000000 }

/-! ## Definitions used to state the classification of the scan -/

/-- The test that `FileMonitor::scanDirectory` makes on a readable file `f` with the baseline
record `o` (lines 174-196 of `FileMonitor.cpp`): a signature that does not match, another
hash, or a change of permissions, mode, owner, group, uid, gid, modification time or inode. -/
def changedAgainst (f : FileMetadata) (o : FileRecordEntry) : Prop :=
  (o.signatureValid = false ∧ o.signature ≠ "") ∨ f.hash ≠ o.metadata.hash ∨
    f.permissions ≠ o.metadata.permissions ∨ f.mode ≠ o.metadata.mode ∨
    f.owner ≠ o.metadata.owner ∨ f.groupName ≠ o.metadata.groupName ∨
    f.uid ≠ o.metadata.uid ∨ f.gid ≠ o.metadata.gid ∨
    f.mtimeSeconds ≠ o.metadata.mtimeSeconds ∨ f.inode ≠ o.metadata.inode

instance (f : FileMetadata) (o : FileRecordEntry) : Decidable (changedAgainst f o) := by
  unfold changedAgainst
  infer_instance


/-- The columns, other than the time, of the history row that the scan writes for a file
classified `New`, given its record. -/
def newFileHistory (r : FileRecordEntry) :
    String × Option Int × Int × String × String × String :=
  (r.metadata.path, none, 2, "", r.metadata.hash, "Новый файл обнаружен")

/-- Whether the column `old_status` of a history row, given by its columns, is NULL. -/
def oldStatusIsNull (c : String × Option Int × Int × String × String × String) : Bool :=
  c.2.1.isNone

/-- Whether a record has the status `New`. -/
def isNewRecord (r : FileRecordEntry) : Bool :=
  decide (r.status = "New")


/-- Value of a list of decimal digit bytes, most significant first. -/
def digitsValue (l : Bytes) : Nat :=
  l.foldl (fun acc b => acc * 10 + (b - 48)) 0

/-- A file of the examples whose path contains the separator of the signed payload. -/
def demoBarPath : FileMetadata :=
  { FileMetadata.empty with
    path := "/r/a|b", hash := "h1", size := 5, mtimeSeconds := 100, uid := 1000, gid := 1000,
    mode := 420 }

/-! ## The traversal of `FileMonitor::scanDirectory` -/

namespace FileMonitor

/-- The enumeration `ExcludeType` of `gui/FileMonitor.h`. -/
inductive ExcludeType where
  | Path
  | Glob
deriving DecidableEq, Repr

/-- The record `ExcludeRule` of `gui/FileMonitor.h`. -/
structure ExcludeRule where
  type : ExcludeType
  pattern : String
deriving DecidableEq, Repr

/-- The fields of `struct stat` that the scan reads after a call of `lstat`. -/
structure Stat where
  st_uid : Nat
  st_gid : Nat
  st_mode : Nat
  st_dev : Nat
  st_ino : Nat
  st_nlink : Nat
deriving DecidableEq, Repr

/-- What the traversal and `buildMetadata` ask Qt and the operating system. The paths of the
model are absolute and clean, so that `QFileInfo(p).absoluteFilePath()` is `p` itself.
`isDir p` is `QFileInfo(p).isDir()` (a link to a directory is a directory), `entryList p` holds
the names of `QDir(p).entryInfoList(NoDotAndDotDot | AllEntries, Name | DirsFirst)` in the
order of that list, `lstat p` is `none` when the call fails, `calculateHash p` is the hash and
the error text, `wildcardMatch` is `QDir::match`. The field `canonicalFilePath` is
`QFileInfo(p).canonicalFilePath()`, the path without links, which the code does not call. -/
structure QtFileSystem where
  isDir : String → Bool
  isSymLink : String → Bool
  symLinkTarget : String → String
  entryList : String → List String
  lstat : String → Option Stat
  size : String → Int
  lastModified : String → Int
  owner : String → String
  group : String → String
  permissions : String → Nat
  calculateHash : String → String × String
  cleanPath : String → String
  wildcardMatch : String → String → Bool
  canonicalFilePath : String → String

/-- The call `QFileInfo(p).fileName()`: what follows the last separator. -/
def fileName (p : String) : String :=
  String.mk (p.data.reverse.takeWhile (fun c => decide (c ≠ '/'))).reverse

/-- The path `entry.absoluteFilePath()` of the entry `name` of `QDir(dir).entryInfoList`. -/
def entryPath (dir name : String) : String :=
  if endsWith dir "/" = true then dir ++ name else dir ++ "/" ++ name

/-- The body of the loop of `FileMonitor::isExcluded` (FileMonitor.cpp 353-372) for one rule:
whether it executes `return true`. -/
def ruleExcludes (fs : QtFileSystem) (normalized fileName : String) (rule : ExcludeRule) :
    Bool :=
  if rule.pattern = "" then false
  else
    match rule.type with
    | ExcludeType.Path =>
      let normalizedRule := fs.cleanPath rule.pattern
      decide (normalized = normalizedRule) || startsWith normalized (normalizedRule ++ "/")
    | ExcludeType.Glob => fs.wildcardMatch rule.pattern fileName

/-- The method `FileMonitor::isExcluded` (FileMonitor.cpp 349-375). -/
def isExcluded (fs : QtFileSystem) (rules : List ExcludeRule) (filePath : String) : Bool :=
  let normalized := fs.cleanPath filePath
  let fileName := fileName normalized
  rules.any (fun rule => ruleExcludes fs normalized fileName rule)

/-- The test `S_ISREG(mode)`: the file type bits are those of a regular file. -/
def S_ISREG (mode : Nat) : Bool :=
  decide (mode / 4096 % 16 = 8)

/-- The method `FileMonitor::buildMetadata` (FileMonitor.cpp 300-327). -/
def buildMetadata (fs : QtFileSystem) (filePath : String) : FileMetadata :=
  let metadata : FileMetadata :=
    { FileMetadata.empty with
      path := filePath, size := fs.size filePath, mtimeSeconds := fs.lastModified filePath,
      owner := fs.owner filePath, groupName := fs.group filePath,
      permissions := fs.permissions filePath }
  let metadata : FileMetadata :=
    match fs.lstat filePath with
    | some st =>
      { metadata with
        uid := st.st_uid, gid := st.st_gid, mode := st.st_mode, device := st.st_dev,
        inode := st.st_ino, hardlinkCount := st.st_nlink }
    | none => metadata
  let hashed := fs.calculateHash filePath
  if hashed.2 ≠ "" then { metadata with hash := hashed.1, errorReason := hashed.2 }
  else { metadata with hash := hashed.1 }

/-- State of the locals of the traversal (FileMonitor.cpp 79-140): the stack of directories
with their depths, its last element first; the set `visitedDirs`, in the order of insertion,
which is the order in which the directories are listed; and the paths of the files passed to
`buildMetadata`, in order. -/
structure Traversal where
  stack : List (String × Nat)
  visitedDirs : List String
  files : List String
deriving DecidableEq, Repr

/-- Lines 98-139 of `FileMonitor.cpp`: what the loop over the entries of the directory
`currentPath`, met at depth `depth`, does with the entry `name`, up to the call of
`buildMetadata` (the branch of `Q_OS_UNIX`). -/
def visitEntry (fs : QtFileSystem) (rules : List ExcludeRule) (recursive followSymlinks : Bool)
    (maxDepth : Int) (currentPath : String) (depth : Nat) (st : Traversal) (name : String) :
    Traversal :=
  let filePath := entryPath currentPath name
  if isExcluded fs rules filePath = true then st
  else if (fs.isSymLink filePath && fs.isDir filePath) = true ∧ followSymlinks = false then st
  else if (fs.isSymLink filePath && fs.isDir filePath) = true ∧
      fs.symLinkTarget filePath ∈ st.visitedDirs then st
  else if fs.isDir filePath = true then
    if recursive = false then st
    else if maxDepth ≥ 0 ∧ ((depth : Int) + 1 > maxDepth) then st
    else { st with stack := (filePath, depth + 1) :: st.stack }
  else
    match fs.lstat filePath with
    | some s =>
      if S_ISREG s.st_mode = false then st else { st with files := st.files ++ [filePath] }
    | none => { st with files := st.files ++ [filePath] }

/-- One pass of the `while` loop (FileMonitor.cpp 82-140) on a non-empty stack: the last
directory is taken off the stack, and listed unless it is not a directory or was visited. -/
def step (fs : QtFileSystem) (rules : List ExcludeRule) (recursive followSymlinks : Bool)
    (maxDepth : Int) (st : Traversal) : Traversal :=
  match st.stack with
  | [] => st
  | (currentPath, depth) :: rest =>
    if fs.isDir currentPath = false then { st with stack := rest }
    else if currentPath ∈ st.visitedDirs then { st with stack := rest }
    else
      (fs.entryList currentPath).foldl
        (visitEntry fs rules recursive followSymlinks maxDepth currentPath depth)
        { st with stack := rest, visitedDirs := st.visitedDirs ++ [currentPath] }

/-- The `while` loop, run for at most `fuel` passes; `none` when the stack is not empty after
them. -/
def loop (fs : QtFileSystem) (rules : List ExcludeRule) (recursive followSymlinks : Bool)
    (maxDepth : Int) : Nat → Traversal → Option Traversal
  | 0, st => if st.stack = [] then some st else none
  | fuel + 1, st =>
    if st.stack = [] then some st
    else loop fs rules recursive followSymlinks maxDepth fuel
      (step fs rules recursive followSymlinks maxDepth st)

/-- The traversal of `scanDirectory(directoryPath, recursive, followSymlinks, maxDepth)`. -/
def traverse (fs : QtFileSystem) (rules : List ExcludeRule) (directoryPath : String)
    (recursive followSymlinks : Bool) (maxDepth : Int) (fuel : Nat) : Option Traversal :=
  loop fs rules recursive followSymlinks maxDepth fuel
    { stack := [(directoryPath, 0)], visitedDirs := [], files := [] }

/-- The method `FileMonitor::scanDirectory` with its traversal: the records returned and the
state of the database manager afterwards; `none` when the traversal has not ended within
`fuel` passes. -/
def scanDirectory (env : Env) (disk : Disk) (fs : QtFileSystem) (rules : List ExcludeRule)
    (scannerVersion : String) (db : DatabaseManager) (directoryPath : String)
    (recursive followSymlinks : Bool) (maxDepth : Int) (fuel : Nat) :
    Option (List FileRecordEntry × DatabaseManager) :=
  (traverse fs rules directoryPath recursive followSymlinks maxDepth fuel).map
    (fun t => FIM.scanDirectory env disk scannerVersion db directoryPath
      (t.files.map (buildMetadata fs)))

/-- The path reached from `root` through the entries `names`. -/
def descend (root : String) (names : List String) : String :=
  names.foldl entryPath root

/-- Whether each name is an entry of the listing of the directory reached before it. -/
def listedChain (fs : QtFileSystem) : String → List String → Bool
  | _, [] => true
  | dir, name :: rest =>
    decide (name ∈ fs.entryList dir) && listedChain fs (entryPath dir name) rest

/-- Greatest number of directory levels under the root that the traversal may enter. -/
def levels (recursive : Bool) (maxDepth : Int) : Nat :=
  if recursive = true then maxDepth.toNat else 0

/-- An upper bound of the number of passes of the loop spent under a directory that may be
entered `k` levels deep. -/
def passes (fs : QtFileSystem) : Nat → String → Nat
  | 0, _ => 1
  | k + 1, dir => 1 + ((fs.entryList dir).map (fun name => passes fs k (entryPath dir name))).sum

/-- The invariant of the traversal: a stacked directory of depth `d` is reached from the root
through `d` listed entries and `d` is at most `L` ; an emitted file is reached through at most
`L` listed directories and its entry. -/
def Bounded (fs : QtFileSystem) (root : String) (L : Nat) (st : Traversal) : Prop :=
  (∀ pd ∈ st.stack, ∃ names : List String, names.length = pd.2 ∧ pd.2 ≤ L ∧
      listedChain fs root names = true ∧ pd.1 = descend root names) ∧
  (∀ f ∈ st.files, ∃ (dirs : List String) (file : String), dirs.length ≤ L ∧
      listedChain fs root (dirs ++ [file]) = true ∧ f = descend root (dirs ++ [file]))

end FileMonitor

namespace FileMonitor

/-- An upper bound of the number of passes of the loop that a stack still takes, when no
directory is entered more than `L` levels deep. -/
def pending (fs : QtFileSystem) (L : Nat) (stack : List (String × Nat)) : Nat :=
  (stack.map (fun pd => passes fs (L - pd.2) pd.1)).sum

/-- The path `p` is that of an entry `file` listed in a directory reached from `root` through
the listed directories `dirs`, which are at most `maxDepth` when the scan is recursive and
none when it is not: `root/x` has no directory level, `root/a/b/x` has two. -/
def AtDepth (fs : QtFileSystem) (root : String) (recursive : Bool) (maxDepth : Int)
    (p : String) : Prop :=
  ∃ (dirs : List String) (file : String),
    (recursive = true → (dirs.length : Int) ≤ maxDepth) ∧ (recursive = false → dirs = []) ∧
      listedChain fs root (dirs ++ [file]) = true ∧ p = descend root (dirs ++ [file])

/-- The status record of a directory of the examples. -/
def demoDirStat : Stat :=
  { st_uid := 1000, st_gid := 1000, st_mode := 16877, st_dev := 2049, st_ino := 2,
    st_nlink := 2 }

/-- The status record of a regular file of the examples. -/
def demoFileStat : Stat :=
  { st_uid := 1000, st_gid := 1000, st_mode := 33188, st_dev := 2049, st_ino := 0,
    st_nlink := 1 }

/-- A tree of the examples: `/r` holds the directory `a` and the file `x.txt`, `/r/a` holds
the directory `b` and the file `y.txt`, `/r/a/b` holds the file `z.txt`; there is no link. -/
def demoTree : QtFileSystem :=
  { isDir := fun p => decide (p = "/r" ∨ p = "/r/a" ∨ p = "/r/a/b")
    isSymLink := fun _ => false
    symLinkTarget := fun _ => ""
    entryList := fun p =>
      if p = "/r" then ["a", "x.txt"]
      else if p = "/r/a" then ["b", "y.txt"]
      else if p = "/r/a/b" then ["z.txt"]
      else []
    lstat := fun p =>
      if p = "/r" ∨ p = "/r/a" ∨ p = "/r/a/b" then some demoDirStat else some demoFileStat
    size := fun _ => 5
    lastModified := fun _ => 100
    owner := fun _ => "u"
    group := fun _ => "g"
    permissions := fun _ => 420
    calculateHash := fun _ => ("ab", "")
    cleanPath := fun p => p
    wildcardMatch := fun _ _ => false
    canonicalFilePath := fun p => p }

/-- A tree of the examples with a link: `/r` holds the link `a_link` to the directory `/r/z`
and the directory `z`, which holds the file `f.txt`. -/
def demoLinked : QtFileSystem :=
  { isDir := fun p => decide (p = "/r" ∨ p = "/r/z" ∨ p = "/r/a_link")
    isSymLink := fun p => decide (p = "/r/a_link")
    symLinkTarget := fun p => if p = "/r/a_link" then "/r/z" else ""
    entryList := fun p =>
      if p = "/r" then ["a_link", "z"]
      else if p = "/r/z" ∨ p = "/r/a_link" then ["f.txt"]
      else []
    lstat := fun p =>
      if p = "/r" ∨ p = "/r/z" then some demoDirStat
      else if p = "/r/a_link" then some { demoDirStat with st_mode := 41471 }
      else some { demoFileStat with st_ino := 9 }
    size := fun _ => 5
    lastModified := fun _ => 100
    owner := fun _ => "u"
    group := fun _ => "g"
    permissions := fun _ => 420
    calculateHash := fun _ => ("ab", "")
    cleanPath := fun p => p
    wildcardMatch := fun _ _ => false
    canonicalFilePath := fun p =>
      if p = "/r/a_link" then "/r/z"
      else if p = "/r/a_link/f.txt" then "/r/z/f.txt"
      else p }

end FileMonitor
/-! ## Properties of the reconciliation engine -/

namespace core

theorem classifyEntry_merged (clock : Nat → Int) (st : Reconcile) (m : FileMetadata) :
    (classifyEntry clock st m).merged = st.merged ++ [{ m with status := statusIn st.oldByPath m }] := by
  unfold classifyEntry statusIn differs
  by_cases h : m.hash = ""
  · simp [h]
  · cases hf : st.oldByPath.find m.path with
    | none => simp [h, hf]
    | some kv =>
      simp only [h, hf, if_false]
      split <;> rfl

theorem classifyEntry_oldByPath (clock : Nat → Int) (st : Reconcile) (m : FileMetadata) :
    (classifyEntry clock st m).oldByPath =
      if m.hash = "" then st.oldByPath else st.oldByPath.erase m.path := by
  unfold classifyEntry
  by_cases h : m.hash = ""
  · simp [h]
  · cases hf : st.oldByPath.find m.path with
    | none =>
      simp only [h, hf, if_false]
      unfold PathMap.erase
      symm
      rw [List.filter_eq_self]
      intro kv hkv
      have := List.find?_eq_none.mp hf kv hkv
      simpa using this
    | some kv =>
      simp only [h, hf, if_false]
      split <;> rfl

theorem classifyEntry_summary (clock : Nat → Int) (st : Reconcile) (m : FileMetadata) :
    (classifyEntry clock st m).summary =
      { totalFiles := st.summary.totalFiles + 1
        changedCount := st.summary.changedCount + (if statusIn st.oldByPath m = .Changed then 1 else 0)
        newCount := st.summary.newCount + (if statusIn st.oldByPath m = .New then 1 else 0)
        deletedCount := st.summary.deletedCount
        errorCount := st.summary.errorCount + (if statusIn st.oldByPath m = .Error then 1 else 0) } := by
  unfold classifyEntry statusIn differs
  by_cases h : m.hash = ""
  · simp [h]
  · cases hf : st.oldByPath.find m.path with
    | none => simp [h, hf]
    | some kv =>
      simp only [h, hf, if_false]
      split <;> simp

theorem find_erase_ne (map : PathMap) {k p : String} (h : k ≠ p) :
    (map.erase p).find k = map.find k := by
  unfold PathMap.erase PathMap.find
  rw [List.find?_filter]
  congr 1
  funext kv
  by_cases hk : kv.1 = k
  · have hp : kv.1 ≠ p := by rw [hk]; exact h
    simp [hk, h]
  · simp [hk]

theorem statusIn_erase_ne (map : PathMap) (m : FileMetadata) {p : String} (h : m.path ≠ p) :
    statusIn (map.erase p) m = statusIn map m := by
  unfold statusIn
  rw [find_erase_ne map h]

theorem foldl_classify_oldByPath (clock : Nat → Int) (S : List FileMetadata) (st : Reconcile) :
    (S.foldl (classifyEntry clock) st).oldByPath =
      st.oldByPath.filter (fun kv => S.all (fun m => decide (m.hash = "" ∨ kv.1 ≠ m.path))) := by
  induction S generalizing st with
  | nil => simp
  | cons m rest ih =>
    rw [List.foldl_cons, ih, classifyEntry_oldByPath]
    by_cases h : m.hash = ""
    · simp [h]
    · simp only [h, if_false, PathMap.erase, List.filter_filter, List.all_cons, false_or]
      congr 1
      funext kv
      simp [Bool.and_comm]

theorem foldl_classify_merged (clock : Nat → Int) (S : List FileMetadata)
    (hS : (S.map (fun m => m.path)).Nodup) (st : Reconcile) :
    (S.foldl (classifyEntry clock) st).merged =
      st.merged ++ S.map (fun m => { m with status := statusIn st.oldByPath m }) := by
  induction S generalizing st with
  | nil => simp
  | cons m rest ih =>
    rw [List.map_cons, List.nodup_cons] at hS
    rw [List.foldl_cons, ih hS.2, classifyEntry_merged, classifyEntry_oldByPath,
      List.append_assoc, List.map_cons]
    congr 2
    simp only [List.singleton_append]
    congr 1
    apply List.map_congr_left
    intro m2 hm2
    have hne : m2.path ≠ m.path := by
      intro e
      exact hS.1 (e ▸ List.mem_map_of_mem _ hm2)
    by_cases h : m.hash = ""
    · simp [h]
    · simp only [h, if_false]
      rw [statusIn_erase_ne _ _ hne]

theorem foldl_classify_summary (clock : Nat → Int) (S : List FileMetadata)
    (hS : (S.map (fun m => m.path)).Nodup) (st : Reconcile) :
    (S.foldl (classifyEntry clock) st).summary =
      { totalFiles := st.summary.totalFiles + S.length
        changedCount := st.summary.changedCount + tally st.oldByPath S .Changed
        newCount := st.summary.newCount + tally st.oldByPath S .New
        deletedCount := st.summary.deletedCount
        errorCount := st.summary.errorCount + tally st.oldByPath S .Error } := by
  induction S generalizing st with
  | nil => simp [tally]
  | cons m rest ih =>
    rw [List.map_cons, List.nodup_cons] at hS
    have hrest : ∀ s, tally (classifyEntry clock st m).oldByPath rest s = tally st.oldByPath rest s := by
      intro s
      unfold tally
      apply List.countP_congr
      intro m2 hm2
      have hne : m2.path ≠ m.path := by
        intro e
        exact hS.1 (e ▸ List.mem_map_of_mem _ hm2)
      rw [classifyEntry_oldByPath]
      by_cases h : m.hash = ""
      · simp [h]
      · simp only [h, if_false]
        rw [statusIn_erase_ne _ _ hne]
    rw [List.foldl_cons, ih hS.2, hrest, hrest, hrest, classifyEntry_summary]
    simp only [tally, List.countP_cons, List.length_cons, decide_eq_true_eq]
    simp only [ScanSummary.mk.injEq]
    refine ⟨?_, ?_, ?_, trivial, ?_⟩
    all_goals omega

theorem foldl_markDeleted (clock : Nat → Int) (L : PathMap) (st : Reconcile) :
    (L.foldl (markDeleted clock) st).merged =
        st.merged ++ L.map (fun kv => { kv.2 with status := FileStatus.Deleted }) ∧
      (L.foldl (markDeleted clock) st).summary =
        { st.summary with deletedCount := st.summary.deletedCount + L.length } ∧
      (L.foldl (markDeleted clock) st).history.length = st.history.length + L.length := by
  induction L generalizing st with
  | nil => simp
  | cons kv rest ih =>
    obtain ⟨h1, h2, h3⟩ := ih (markDeleted clock st kv)
    rw [List.foldl_cons, h1, h2, h3]
    simp [markDeleted]
    omega

theorem foldl_emplace_mem (B : List FileMetadata) (acc : PathMap) (kv : String × FileMetadata)
    (h : kv ∈ B.foldl (fun m o => PathMap.emplace m o.path o) acc) :
    kv ∈ acc ∨ (kv.2 ∈ B ∧ kv.1 = kv.2.path) := by
  induction B generalizing acc with
  | nil => exact Or.inl h
  | cons o rest ih =>
    rw [List.foldl_cons] at h
    rcases ih _ h with h1 | h1
    · unfold PathMap.emplace at h1
      split at h1
      · exact Or.inl h1
      · rcases List.mem_append.mp h1 with h2 | h2
        · exact Or.inl h2
        · right
          have : kv = (o.path, o) := by simpa using h2
          subst this
          simp
    · exact Or.inr ⟨List.mem_cons_of_mem _ h1.1, h1.2⟩

theorem buildOldByPath_mem (B : List FileMetadata) (kv : String × FileMetadata)
    (h : kv ∈ buildOldByPath B) : kv.2 ∈ B ∧ kv.1 = kv.2.path := by
  rcases foldl_emplace_mem B [] kv h with h1 | h1
  · simp at h1
  · exact h1

theorem find_append_singleton (acc : PathMap) (p k : String) (o : FileMetadata) :
    PathMap.find (acc ++ [(p, o)]) k =
      (acc.find k).or (if p = k then some (p, o) else none) := by
  unfold PathMap.find
  rw [List.find?_append]
  congr 1
  by_cases h : p = k <;> simp [h]

theorem foldl_emplace_find (B : List FileMetadata) (acc : PathMap) (k : String) :
    PathMap.find (B.foldl (fun m o => PathMap.emplace m o.path o) acc) k =
      (acc.find k).or
        ((B.find? (fun o => decide (o.path = k))).map (fun o => (o.path, o))) := by
  induction B generalizing acc with
  | nil => simp
  | cons o rest ih =>
    rw [List.foldl_cons, ih]
    by_cases hany : (acc.any (fun kv => decide (kv.1 = o.path))) = true
    · have he : PathMap.emplace acc o.path o = acc := by
        unfold PathMap.emplace
        rw [if_pos hany]
      rw [he]
      cases hf : acc.find k with
      | some kv => simp
      | none =>
        have hne : o.path ≠ k := by
          intro e
          rw [List.any_eq_true] at hany
          obtain ⟨kv, hkv, hk⟩ := hany
          have := List.find?_eq_none.mp hf kv hkv
          simp at hk this
          exact this (hk.trans e)
        simp [List.find?_cons, hne]
    · have he : PathMap.emplace acc o.path o = acc ++ [(o.path, o)] := by
        unfold PathMap.emplace
        rw [if_neg hany]
      rw [he, find_append_singleton]
      cases hf : acc.find k with
      | some kv => simp
      | none =>
        by_cases hk : o.path = k
        · simp [List.find?_cons, hk]
        · simp [List.find?_cons, hk]

theorem buildOldByPath_find (B : List FileMetadata) (k : String) :
    (buildOldByPath B).find k =
      (B.find? (fun o => decide (o.path = k))).map (fun o => (o.path, o)) := by
  unfold buildOldByPath
  rw [foldl_emplace_find]
  simp [PathMap.find]

theorem foldl_emplace_nodup (B : List FileMetadata) (acc : PathMap)
    (h : (acc.map (fun kv => kv.1) ++ B.map (fun o => o.path)).Nodup) :
    B.foldl (fun m o => PathMap.emplace m o.path o) acc = acc ++ B.map (fun o => (o.path, o)) := by
  induction B generalizing acc with
  | nil => simp
  | cons o rest ih =>
    have hno : (acc.any (fun kv => decide (kv.1 = o.path))) = false := by
      rw [List.any_eq_false]
      intro kv hkv
      simp only [decide_eq_true_eq]
      intro e
      rw [List.nodup_append] at h
      exact h.2.2 (List.mem_map_of_mem (fun kv => kv.1) hkv) (by simp [e])
    have he : PathMap.emplace acc o.path o = acc ++ [(o.path, o)] := by
      unfold PathMap.emplace
      rw [hno]
      simp
    rw [List.foldl_cons, he, ih]
    · simp
    · simpa [List.map_append] using h

theorem buildOldByPath_nodup (B : List FileMetadata) (h : (B.map (fun o => o.path)).Nodup) :
    buildOldByPath B = B.map (fun o => (o.path, o)) := by
  unfold buildOldByPath
  rw [foldl_emplace_nodup B [] (by simpa using h)]
  simp

theorem statusIn_buildOldByPath (B : List FileMetadata) (m : FileMetadata) :
    statusIn (buildOldByPath B) m = expectedStatus B m := by
  unfold statusIn expectedStatus differs
  rw [buildOldByPath_find]
  cases List.find? (fun o => decide (o.path = m.path)) B <;> rfl

theorem compareAndPersist_closed (clock : Nat → Int) (S B : List FileMetadata)
    (hS : (S.map (fun m => m.path)).Nodup) :
    (compareAndPersist true clock S B).saved =
        some (S.map (fun m => { m with status := expectedStatus B m }) ++
          (remainingAfter (buildOldByPath B) S).map
            (fun kv => { kv.2 with status := FileStatus.Deleted })) ∧
      (compareAndPersist true clock S B).summary =
        { totalFiles := S.length
          changedCount := S.countP (fun m => decide (expectedStatus B m = FileStatus.Changed))
          newCount := S.countP (fun m => decide (expectedStatus B m = FileStatus.New))
          deletedCount := (remainingAfter (buildOldByPath B) S).length
          errorCount := S.countP (fun m => decide (expectedStatus B m = FileStatus.Error)) } := by
  unfold compareAndPersist
  simp only [Bool.true_eq_false, if_false]
  obtain ⟨h1, h2, _⟩ := foldl_markDeleted clock
    (S.foldl (classifyEntry clock) ⟨buildOldByPath B, [], ⟨0, 0, 0, 0, 0⟩, []⟩).oldByPath
    (S.foldl (classifyEntry clock) ⟨buildOldByPath B, [], ⟨0, 0, 0, 0, 0⟩, []⟩)
  rw [h1, h2, foldl_classify_merged clock S hS, foldl_classify_summary clock S hS,
    foldl_classify_oldByPath]
  refine ⟨?_, ?_⟩
  · simp only [statusIn_buildOldByPath, remainingAfter, List.nil_append]
  · simp only [tally, statusIn_buildOldByPath, remainingAfter, Nat.zero_add]

theorem statusIn_eq_error (map : PathMap) (m : FileMetadata) :
    statusIn map m = FileStatus.Error ↔ m.hash = "" := by
  unfold statusIn
  by_cases h : m.hash = ""
  · simp [h]
  · simp only [h, if_false, iff_false]
    cases map.find m.path with
    | none => simp
    | some kv =>
      by_cases hd : differs m kv.2 <;> simp [hd]

theorem foldl_classify_entries (clock : Nat → Int) (S : List FileMetadata) (st : Reconcile) :
    ∃ cl : List FileMetadata,
      (S.foldl (classifyEntry clock) st).merged = st.merged ++ cl ∧
      List.Forall₂
        (fun m r => r.path = m.path ∧ r.hash = m.hash ∧ (r.hash = "" ↔ r.status = FileStatus.Error))
        S cl := by
  induction S generalizing st with
  | nil => exact ⟨[], by simp, List.Forall₂.nil⟩
  | cons m rest ih =>
    obtain ⟨cl, h1, h2⟩ := ih (classifyEntry clock st m)
    refine ⟨{ m with status := statusIn st.oldByPath m } :: cl, ?_, ?_⟩
    · rw [List.foldl_cons, h1, classifyEntry_merged]
      simp
    · refine List.Forall₂.cons ⟨rfl, rfl, ?_⟩ h2
      exact (statusIn_eq_error st.oldByPath m).symm

theorem foldl_emplace_keys_nodup (B : List FileMetadata) (acc : PathMap)
    (h : (acc.map (fun kv => kv.1)).Nodup) :
    ((B.foldl (fun m o => PathMap.emplace m o.path o) acc).map (fun kv => kv.1)).Nodup := by
  induction B generalizing acc with
  | nil => exact h
  | cons o rest ih =>
    rw [List.foldl_cons]
    apply ih
    unfold PathMap.emplace
    by_cases hany : (acc.any (fun kv => decide (kv.1 = o.path))) = true
    · rw [if_pos hany]
      exact h
    · rw [if_neg hany, List.map_append, List.nodup_append]
      refine ⟨h, by simp, ?_⟩
      intro k hk hk2
      have hk3 : k = o.path := by simpa using hk2
      subst hk3
      apply hany
      rw [List.any_eq_true]
      obtain ⟨kv, hkv, e⟩ := List.mem_map.mp hk
      exact ⟨kv, hkv, by simpa using e⟩

theorem buildOldByPath_keys_nodup (B : List FileMetadata) :
    ((buildOldByPath B).map (fun kv => kv.1)).Nodup :=
  foldl_emplace_keys_nodup B [] (by simp)

/-- Claim C1. For a new state with pairwise distinct paths and any baseline, the vector that
`compareAndPersist` hands to `saveCurrentState` begins with the entries of the new state in
order, each with exactly the status of the specification (`expectedStatus`: Error for an empty
hash; otherwise New when no baseline record has the path; otherwise Changed when one of hash,
permissions, owner, group, inode, mtime, size differs from the baseline record of that path;
otherwise Ok), followed by records of status Deleted only; and `errorCount`, `newCount`,
`changedCount` of the summary count the entries given Error, New and Changed. -/
theorem compareAndPersist_classifies (clock : Nat → Int) (newState baseline : List FileMetadata)
    (hdistinct : (newState.map (fun m => m.path)).Nodup) :
    ∃ deleted : List FileMetadata,
      (compareAndPersist true clock newState baseline).saved =
        some (newState.map (fun m => { m with status := expectedStatus baseline m }) ++ deleted) ∧
      (∀ d ∈ deleted, d.status = FileStatus.Deleted) ∧
      (compareAndPersist true clock newState baseline).summary.errorCount =
        newState.countP (fun m => decide (expectedStatus baseline m = FileStatus.Error)) ∧
      (compareAndPersist true clock newState baseline).summary.newCount =
        newState.countP (fun m => decide (expectedStatus baseline m = FileStatus.New)) ∧
      (compareAndPersist true clock newState baseline).summary.changedCount =
        newState.countP (fun m => decide (expectedStatus baseline m = FileStatus.Changed)) := by
  obtain ⟨h1, h2⟩ := compareAndPersist_closed clock newState baseline hdistinct
  refine ⟨_, h1, ?_, ?_, ?_, ?_⟩
  · intro d hd
    obtain ⟨kv, _, e⟩ := List.mem_map.mp hd
    rw [← e]
  · rw [h2]
  · rw [h2]
  · rw [h2]

theorem compareAndPersist_classifies_witness :
    ([demoA, demoB, demoC].map (fun m => m.path)).Nodup ∧
    ∃ deleted : List FileMetadata,
      (compareAndPersist true (fun _ => 0) [demoA, demoB, demoC] [{ demoA with hash := "h0" }]).saved =
        some ([demoA, demoB, demoC].map
          (fun m => { m with status := expectedStatus [{ demoA with hash := "h0" }] m }) ++ deleted) ∧
      (∀ d ∈ deleted, d.status = FileStatus.Deleted) ∧
      (compareAndPersist true (fun _ => 0) [demoA, demoB, demoC] [{ demoA with hash := "h0" }]).summary.errorCount =
        [demoA, demoB, demoC].countP
          (fun m => decide (expectedStatus [{ demoA with hash := "h0" }] m = FileStatus.Error)) ∧
      (compareAndPersist true (fun _ => 0) [demoA, demoB, demoC] [{ demoA with hash := "h0" }]).summary.newCount =
        [demoA, demoB, demoC].countP
          (fun m => decide (expectedStatus [{ demoA with hash := "h0" }] m = FileStatus.New)) ∧
      (compareAndPersist true (fun _ => 0) [demoA, demoB, demoC] [{ demoA with hash := "h0" }]).summary.changedCount =
        [demoA, demoB, demoC].countP
          (fun m => decide (expectedStatus [{ demoA with hash := "h0" }] m = FileStatus.Changed)) :=
  ⟨by decide, compareAndPersist_classifies _ _ _ (by decide)⟩

/-- Claim C2, as amended. The vector handed to `saveCurrentState` is made of the classified
entries of the new state, for each of which the hash is empty if and only if the status is
Error, followed by the appended records, each of which is a baseline record with its status
set to Deleted and its hash unchanged (so the hash of a Deleted record may be empty). -/
theorem compareAndPersist_hash_empty_iff_error (clock : Nat → Int)
    (newState baseline : List FileMetadata) :
    ∃ classified deleted : List FileMetadata,
      (compareAndPersist true clock newState baseline).saved = some (classified ++ deleted) ∧
      List.Forall₂
        (fun m r => r.path = m.path ∧ r.hash = m.hash ∧ (r.hash = "" ↔ r.status = FileStatus.Error))
        newState classified ∧
      (∀ d ∈ deleted, d.status = FileStatus.Deleted ∧
        ∃ o ∈ baseline, d = { o with status := FileStatus.Deleted }) := by
  obtain ⟨cl, hcl, hf⟩ := foldl_classify_entries clock newState
    ⟨buildOldByPath baseline, [], ⟨0, 0, 0, 0, 0⟩, []⟩
  obtain ⟨h1, _, _⟩ := foldl_markDeleted clock
    (newState.foldl (classifyEntry clock) ⟨buildOldByPath baseline, [], ⟨0, 0, 0, 0, 0⟩, []⟩).oldByPath
    (newState.foldl (classifyEntry clock) ⟨buildOldByPath baseline, [], ⟨0, 0, 0, 0, 0⟩, []⟩)
  refine ⟨cl, (remainingAfter (buildOldByPath baseline) newState).map
    (fun kv => { kv.2 with status := FileStatus.Deleted }), ?_, hf, ?_⟩
  · unfold compareAndPersist
    simp only [Bool.true_eq_false, if_false]
    rw [h1, hcl, foldl_classify_oldByPath]
    simp only [List.nil_append, remainingAfter]
  · intro d hd
    obtain ⟨kv, hkv, e⟩ := List.mem_map.mp hd
    have hb := buildOldByPath_mem baseline kv (List.mem_filter.mp hkv).1
    exact ⟨by rw [← e], kv.2, hb.1, e.symm⟩

/-- Claim C2 fails for an appended Deleted record: an unreadable file is saved with an empty
hash and the status Error by one run, and when the file has disappeared the next run saves
it with the status Deleted and the same empty hash. -/
theorem compareAndPersist_deleted_with_empty_hash :
    ∃ s1, (compareAndPersist true (fun _ => 0) [demoB] []).saved = some s1 ∧
      ¬ ∀ r ∈ ((compareAndPersist true (fun _ => 0) [] s1).saved.getD []),
        (r.hash = "" ↔ r.status = FileStatus.Error) :=
  ⟨[{ demoB with status := FileStatus.Error }], by decide, by decide⟩

/-- Claim C7, as amended. On an empty baseline, for every new state whose entries have
non-empty hashes, every entry is saved with the status New, the summary is
`totalFiles = newCount = n` with all other counts 0, and no history event is appended: the
engine appends a history event only for an entry that has a baseline record. -/
theorem compareAndPersist_empty_baseline (clock : Nat → Int) (newState : List FileMetadata)
    (hhash : ∀ m ∈ newState, m.hash ≠ "") :
    compareAndPersist true clock newState [] =
      { summary := ⟨newState.length, 0, newState.length, 0, 0⟩
        history := []
        saved := some (newState.map (fun m => { m with status := FileStatus.New })) } := by
  have key : ∀ (S : List FileMetadata) (st : Reconcile), (∀ m ∈ S, m.hash ≠ "") →
      st.oldByPath = [] →
      S.foldl (classifyEntry clock) st =
        { oldByPath := []
          merged := st.merged ++ S.map (fun m => { m with status := FileStatus.New })
          summary := { st.summary with totalFiles := st.summary.totalFiles + S.length,
                                       newCount := st.summary.newCount + S.length }
          history := st.history } := by
    intro S
    induction S with
    | nil =>
      intro st _ h0
      cases st
      simp at h0
      simp [h0]
    | cons m rest ih =>
      intro st hS h0
      have hm : m.hash ≠ "" := hS m (List.mem_cons_self _ _)
      have hstep : classifyEntry clock st m =
          { oldByPath := []
            merged := st.merged ++ [{ m with status := FileStatus.New }]
            summary := { st.summary with totalFiles := st.summary.totalFiles + 1,
                                         newCount := st.summary.newCount + 1 }
            history := st.history } := by
        unfold classifyEntry
        simp [h0, hm, PathMap.find]
      rw [List.foldl_cons, ih _ (fun x hx => hS x (List.mem_cons_of_mem _ hx)) (by rw [hstep]),
        hstep]
      simp
      omega
  unfold compareAndPersist
  simp only [Bool.true_eq_false, if_false]
  rw [show buildOldByPath [] = [] from rfl, key newState _ hhash rfl]
  simp

theorem compareAndPersist_empty_baseline_witness :
    (∀ m ∈ [demoA, demoC], m.hash ≠ "") ∧
    compareAndPersist true (fun _ => 0) [demoA, demoC] [] =
      { summary := ⟨[demoA, demoC].length, 0, [demoA, demoC].length, 0, 0⟩
        history := []
        saved := some ([demoA, demoC].map (fun m => { m with status := FileStatus.New })) } :=
  ⟨by decide, compareAndPersist_empty_baseline _ _ (by decide)⟩

/-- Claim C7 fails on its history part: a file classified New on an empty baseline gets no
history event. -/
theorem compareAndPersist_new_file_no_history :
    ((compareAndPersist true (fun _ => 0) [demoA] []).saved =
        some [{ demoA with status := FileStatus.New }]) ∧
      ¬ ∃ e ∈ (compareAndPersist true (fun _ => 0) [demoA] []).history, e.filePath = demoA.path := by
  decide

/-- Claim C10 at the failing input: the baseline holds `/r/a` and the new state holds the same
path with an empty hash. The saved vector has the path twice, as Error and as Deleted, and two
history events are appended for it. -/
theorem compareAndPersist_error_and_deleted :
    (compareAndPersist true (fun _ => 0) [{ demoA with hash := "" }] [demoA]).saved =
        some [{ demoA with hash := "", status := FileStatus.Error },
              { demoA with status := FileStatus.Deleted }] ∧
      ((compareAndPersist true (fun _ => 0) [{ demoA with hash := "" }] [demoA]).history.map
        (fun e => (e.filePath, e.oldStatus, e.newStatus))) =
        [("/r/a", 0, 4), ("/r/a", 3, 3)] := by
  decide

theorem remainingAfter_spec (B S : List FileMetadata) (hhash : ∀ m ∈ S, m.hash ≠ "")
    (kv : String × FileMetadata) (h : kv ∈ remainingAfter (buildOldByPath B) S) :
    kv.2 ∈ B ∧ kv.1 = kv.2.path ∧ kv.2.path ∉ S.map (fun m => m.path) := by
  unfold remainingAfter at h
  obtain ⟨h1, h2⟩ := List.mem_filter.mp h
  obtain ⟨hb, hk⟩ := buildOldByPath_mem B kv h1
  refine ⟨hb, hk, ?_⟩
  intro hin
  obtain ⟨m, hm, e⟩ := List.mem_map.mp hin
  rw [List.all_eq_true] at h2
  have := h2 m hm
  simp only [decide_eq_true_eq] at this
  rcases this with h3 | h3
  · exact hhash m hm h3
  · exact h3 (hk.trans e.symm)

theorem remainingAfter_paths_nodup (B S : List FileMetadata) (hhash : ∀ m ∈ S, m.hash ≠ "") :
    ((remainingAfter (buildOldByPath B) S).map (fun kv => kv.2.path)).Nodup := by
  have h1 : ((remainingAfter (buildOldByPath B) S).map (fun kv => kv.1)).Nodup :=
    List.Nodup.sublist (List.Sublist.map _ (List.filter_sublist _)) (buildOldByPath_keys_nodup B)
  have h2 : (remainingAfter (buildOldByPath B) S).map (fun kv => kv.2.path) =
      (remainingAfter (buildOldByPath B) S).map (fun kv => kv.1) := by
    apply List.map_congr_left
    intro kv hkv
    exact (remainingAfter_spec B S hhash kv hkv).2.1.symm
  rw [h2]
  exact h1

theorem expectedStatus_ok (L : List FileMetadata) (m o : FileMetadata) (hm : m.hash ≠ "")
    (hf : L.find? (fun o => decide (o.path = m.path)) = some o)
    (hsame : o = { m with status := o.status }) : expectedStatus L m = FileStatus.Ok := by
  unfold expectedStatus
  rw [if_neg hm, hf]
  rw [hsame]
  simp

/-- Claim C8, as amended. For a new state `S` with non-empty hashes and pairwise distinct
paths and any baseline `B`, reconciling `S` again against the state saved by the first run
returns `totalFiles = |S|` and `changedCount = newCount = errorCount = 0`, while
`deletedCount` equals the `deletedCount` of the first run: the records saved as Deleted are
reported Deleted again. It is 0 when every baseline path occurs in `S`. -/
theorem compareAndPersist_second_run (clock1 clock2 : Nat → Int) (S B : List FileMetadata)
    (hhash : ∀ m ∈ S, m.hash ≠ "") (hdistinct : (S.map (fun m => m.path)).Nodup) :
    ∃ merged1 : List FileMetadata,
      (compareAndPersist true clock1 S B).saved = some merged1 ∧
      (compareAndPersist true clock2 S merged1).summary =
        ⟨S.length, 0, 0, (compareAndPersist true clock1 S B).summary.deletedCount, 0⟩ ∧
      ((∀ o ∈ B, o.path ∈ S.map (fun m => m.path)) →
        (compareAndPersist true clock1 S B).summary.deletedCount = 0) := by
  obtain ⟨h1, h2⟩ := compareAndPersist_closed clock1 S B hdistinct
  obtain ⟨S1, hS1⟩ : ∃ S1 : List FileMetadata,
      S1 = S.map (fun m => { m with status := expectedStatus B m }) := ⟨_, rfl⟩
  obtain ⟨D1, hD1⟩ : ∃ D1 : List FileMetadata,
      D1 = (remainingAfter (buildOldByPath B) S).map
        (fun kv => { kv.2 with status := FileStatus.Deleted }) := ⟨_, rfl⟩
  rw [← hS1, ← hD1] at h1
  have hS1mem : ∀ o ∈ S1, ∃ m ∈ S, o = { m with status := o.status } := by
    intro o ho
    rw [hS1] at ho
    obtain ⟨m, hm, e⟩ := List.mem_map.mp ho
    exact ⟨m, hm, by rw [← e]⟩
  have hD1mem : ∀ o ∈ D1, o.path ∉ S.map (fun m => m.path) := by
    intro o ho
    rw [hD1] at ho
    obtain ⟨kv, hkv, e⟩ := List.mem_map.mp ho
    have := (remainingAfter_spec B S hhash kv hkv).2.2
    rw [← e]
    exact this
  have hS1path : S1.map (fun o => o.path) = S.map (fun m => m.path) := by
    rw [hS1, List.map_map]
    rfl
  have hD1path : (D1.map (fun o => o.path)).Nodup := by
    rw [hD1, List.map_map]
    exact remainingAfter_paths_nodup B S hhash
  refine ⟨S1 ++ D1, h1, ?_, ?_⟩
  · obtain ⟨_, h4⟩ := compareAndPersist_closed clock2 S (S1 ++ D1) hdistinct
    rw [h4, h2]
    have hok : ∀ m ∈ S, expectedStatus (S1 ++ D1) m = FileStatus.Ok := by
      intro m hm
      cases hf : List.find? (fun o => decide (o.path = m.path)) (S1 ++ D1) with
      | none =>
        exfalso
        have hin : ({ m with status := expectedStatus B m } : FileMetadata) ∈ S1 ++ D1 := by
          rw [hS1]
          exact List.mem_append_left _ (List.mem_map_of_mem _ hm)
        have := List.find?_eq_none.mp hf _ hin
        simp at this
      | some o =>
        have hp : o.path = m.path := by simpa using List.find?_some hf
        have ho := List.mem_of_find?_eq_some hf
        rcases List.mem_append.mp ho with ho | ho
        · obtain ⟨m2, hm2, e⟩ := hS1mem o ho
          have hpath : m2.path = m.path := by rw [← hp, e]
          have : m2 = m := List.inj_on_of_nodup_map hdistinct hm2 hm hpath
          subst this
          exact expectedStatus_ok _ _ _ (hhash _ hm) hf e
        · exfalso
          apply hD1mem o ho
          rw [hp]
          exact List.mem_map_of_mem _ hm
    have hcount : ∀ s, s ≠ FileStatus.Ok →
        S.countP (fun m => decide (expectedStatus (S1 ++ D1) m = s)) = 0 := by
      intro s hs
      rw [List.countP_eq_zero]
      intro m hm
      rw [hok m hm]
      simpa using fun e => hs e.symm
    rw [hcount _ (by decide), hcount _ (by decide), hcount _ (by decide)]
    have hnodup : ((S1 ++ D1).map (fun o => o.path)).Nodup := by
      rw [List.map_append, hS1path, List.nodup_append]
      refine ⟨hdistinct, hD1path, ?_⟩
      intro p hp1 hp2
      obtain ⟨o, ho, e⟩ := List.mem_map.mp hp2
      apply hD1mem o ho
      have : o.path = p := e
      rw [this]
      exact hp1
    rw [buildOldByPath_nodup _ hnodup]
    have hrem : remainingAfter ((S1 ++ D1).map (fun o => (o.path, o))) S =
        D1.map (fun o => (o.path, o)) := by
      unfold remainingAfter
      rw [List.map_append, List.filter_append]
      have e1 : List.filter (fun kv => S.all (fun m => decide (m.hash = "" ∨ kv.1 ≠ m.path)))
          (S1.map (fun o => (o.path, o))) = [] := by
        rw [List.filter_eq_nil_iff]
        intro kv hkv
        obtain ⟨o, ho, e⟩ := List.mem_map.mp hkv
        obtain ⟨m, hm, e2⟩ := hS1mem o ho
        rw [List.all_eq_true]
        intro hall
        have := hall m hm
        simp only [decide_eq_true_eq] at this
        rcases this with h3 | h3
        · exact hhash m hm h3
        · apply h3
          rw [← e, e2]
      have e2 : List.filter (fun kv => S.all (fun m => decide (m.hash = "" ∨ kv.1 ≠ m.path)))
          (D1.map (fun o => (o.path, o))) = D1.map (fun o => (o.path, o)) := by
        rw [List.filter_eq_self]
        intro kv hkv
        obtain ⟨o, ho, e⟩ := List.mem_map.mp hkv
        rw [List.all_eq_true]
        intro m hm
        simp only [decide_eq_true_eq]
        right
        intro hk
        apply hD1mem o ho
        have : o.path = m.path := by rw [← hk, ← e]
        rw [this]
        exact List.mem_map_of_mem _ hm
      rw [e1, e2, List.nil_append]
    rw [hrem, hD1]
    simp
  · intro hall
    rw [h2]
    simp only [List.length_eq_zero]
    rw [List.eq_nil_iff_forall_not_mem]
    intro kv hkv
    obtain ⟨hb, _, hn⟩ := remainingAfter_spec B S hhash kv hkv
    exact hn (hall kv.2 hb)

theorem compareAndPersist_second_run_witness :
    (∀ m ∈ [demoA, demoC], m.hash ≠ "") ∧ ([demoA, demoC].map (fun m => m.path)).Nodup ∧
    ∃ merged1 : List FileMetadata,
      (compareAndPersist true (fun _ => 0) [demoA, demoC] [demoB]).saved = some merged1 ∧
      (compareAndPersist true (fun _ => 1) [demoA, demoC] merged1).summary =
        ⟨[demoA, demoC].length, 0, 0,
          (compareAndPersist true (fun _ => 0) [demoA, demoC] [demoB]).summary.deletedCount, 0⟩ ∧
      ((∀ o ∈ [demoB], o.path ∈ [demoA, demoC].map (fun m => m.path)) →
        (compareAndPersist true (fun _ => 0) [demoA, demoC] [demoB]).summary.deletedCount = 0) :=
  ⟨by decide, by decide, compareAndPersist_second_run _ _ _ _ (by decide) (by decide)⟩

/-- Claim C8 fails when the baseline has a path that the new state lacks: the second run
counts the record saved as Deleted once more. -/
theorem compareAndPersist_second_run_counts_deleted :
    ∃ merged1, (compareAndPersist true (fun _ => 0) [demoA] [demoC]).saved = some merged1 ∧
      (compareAndPersist true (fun _ => 0) [demoA] merged1).summary.deletedCount = 1 :=
  ⟨[{ demoA with status := FileStatus.New }, { demoC with status := FileStatus.Deleted }],
    by decide, by decide⟩

end core

/-! ## Properties of the signed record store -/

theorem foldl_pair_split (key : Bytes) (L : List Nat) (a b : Bytes) :
    L.foldl (fun (p : Bytes × Bytes) i =>
        (p.1.set i (p.1.getD i 0 ^^^ key.getD i 0), p.2.set i (p.2.getD i 0 ^^^ key.getD i 0)))
      (a, b) =
    (L.foldl (fun p i => p.set i (p.getD i 0 ^^^ key.getD i 0)) a,
      L.foldl (fun p i => p.set i (p.getD i 0 ^^^ key.getD i 0)) b) := by
  induction L generalizing a b with
  | nil => rfl
  | cons i rest ih => simp only [List.foldl_cons, ih]

theorem foldl_xor_getElem (key pad : Bytes) (j i : Nat) :
    ((List.range j).foldl (fun p i => p.set i (p.getD i 0 ^^^ key.getD i 0)) pad)[i]? =
      if i < j then pad[i]?.map (fun x => x ^^^ key.getD i 0) else pad[i]? := by
  induction j with
  | zero => simp
  | succ j ih =>
    rw [List.range_succ, List.foldl_append, List.foldl_cons, List.foldl_nil, List.getElem?_set]
    by_cases hij : j = i
    · subst hij
      have hlen : ((List.range j).foldl (fun p i => p.set i (p.getD i 0 ^^^ key.getD i 0)) pad).length
          = pad.length := by
        clear ih
        induction j with
        | zero => simp
        | succ j ih2 =>
          rw [List.range_succ, List.foldl_append, List.foldl_cons, List.foldl_nil, List.length_set, ih2]
      simp only [if_true, hlen, Nat.lt_succ_self]
      have := ih
      simp only [Nat.lt_irrefl, if_false] at this
      by_cases hj : j < pad.length
      · rw [if_pos hj, List.getD_eq_getElem?_getD
          ((List.range j).foldl (fun p i => p.set i (p.getD i 0 ^^^ key.getD i 0)) pad), this,
          List.getElem?_eq_getElem hj]
        rfl
      · rw [if_neg hj, List.getElem?_eq_none (by omega)]
        rfl
    · rw [if_neg hij, ih]
      by_cases h1 : i < j
      · have : i < j + 1 := by omega
        simp [h1, this]
      · have : ¬ i < j + 1 := by omega
        simp [h1, this]

theorem foldl_xor_eq_zipWith (key pad : Bytes) (n : Nat) (hpad : pad.length = n)
    (hkey : key.length = n) :
    (List.range n).foldl (fun p i => p.set i (p.getD i 0 ^^^ key.getD i 0)) pad =
      List.zipWith (fun k p => k ^^^ p) key pad := by
  apply List.ext_getElem?
  intro i
  rw [foldl_xor_getElem, List.getElem?_zipWith]
  by_cases hi : i < n
  · have h1 : i < pad.length := by omega
    have h2 : i < key.length := by omega
    simp [hi, List.getElem?_eq_getElem h1, List.getElem?_eq_getElem h2, List.getD_eq_getElem?_getD,
      Nat.xor_comm]
  · have h1 : pad.length ≤ i := by omega
    have h2 : key.length ≤ i := by omega
    simp [hi, List.getElem?_eq_none h1, List.getElem?_eq_none h2]

theorem leftJustified_length (a : Bytes) (n : Nat) :
    (leftJustified a n 0 true).length = n := by
  unfold leftJustified
  by_cases h : a.length < n
  · rw [if_pos h, List.length_append, List.length_replicate]
    omega
  · rw [if_neg h]
    simp only [if_true, List.length_take]
    omega

theorem zipWith_leftJustified (a pad : Bytes) (n : Nat) (hpad : pad.length = n) :
    List.zipWith (fun k p => k ^^^ p) (leftJustified a n 0 true) pad =
      List.zipWith (fun k p => k ^^^ p) (a ++ List.replicate (n - a.length) 0) pad := by
  unfold leftJustified
  by_cases h : a.length < n
  · rw [if_pos h]
  · rw [if_neg h]
    have h0 : n - a.length = 0 := by omega
    simp only [if_true, h0, List.replicate_zero, List.append_nil]
    apply List.ext_getElem?
    intro i
    rw [List.getElem?_zipWith, List.getElem?_zipWith, List.getElem?_take]
    by_cases hi : i < n
    · rw [if_pos hi]
    · rw [if_neg hi, List.getElem?_eq_none (l := pad) (by omega)]
      cases a[i]? <;> rfl

theorem payload_eq (m : FileMetadata) :
    toUtf8 m.path ++ (124 :: number m.size) ++ (124 :: number m.mtimeSeconds) ++
        (124 :: number m.uid) ++ (124 :: number m.gid) ++ (124 :: number m.mode) ++
        (124 :: toUtf8 m.hash) = signedPayload m := by
  simp [signedPayload, List.intercalate]

/-- Claim C5. For every non-empty key, whatever its length, and every metadata record,
`computeSignature` is the lowercase hexadecimal form of the RFC 2104 keyed hash
(`hmacRfc2104`, over the hash function of the environment with its 64-byte block) of the
payload `path | size | mtime | uid | gid | mode | hash` (`signedPayload`). -/
theorem computeSignature_is_hmac (env : Env) (db : DatabaseManager) (metadata : FileMetadata)
    (hkey : db.hmacKey ≠ []) :
    db.computeSignature env metadata =
      toHex (hmacRfc2104 env.sha256 64 db.hmacKey (signedPayload metadata)) := by
  unfold DatabaseManager.computeSignature hmacRfc2104
  rw [if_neg hkey]
  simp only [foldl_pair_split, payload_eq]
  rw [foldl_xor_eq_zipWith _ _ 64 (List.length_replicate _ _) (leftJustified_length _ _),
    foldl_xor_eq_zipWith _ _ 64 (List.length_replicate _ _) (leftJustified_length _ _),
    zipWith_leftJustified _ _ 64 (List.length_replicate _ _),
    zipWith_leftJustified _ _ 64 (List.length_replicate _ _)]

theorem toHex_ne_empty (b : Bytes) (h : b ≠ []) : toHex b ≠ "" := by
  unfold toHex
  cases b with
  | nil => exact absurd rfl h
  | cons x rest =>
    intro e
    have := congrArg String.data e
    simp at this

theorem computeSignature_ne_empty (env : Env) (db : DatabaseManager) (metadata : FileMetadata)
    (hkey : db.hmacKey ≠ []) (hlen : ∀ x, (env.sha256 x).length = 32) :
    db.computeSignature env metadata ≠ "" := by
  have hne : ∀ x, env.sha256 x ≠ [] := by
    intro x e
    have := hlen x
    rw [e] at this
    simp at this
  unfold DatabaseManager.computeSignature
  rw [if_neg hkey]
  exact toHex_ne_empty _ (hne _)

/-- Claim C6. With an empty key `verifySignature` is true for every record; with a non-empty
key it is true exactly when the stored signature equals `computeSignature` of the metadata of
the record. The hash function is taken to return 32 bytes, as SHA-256 does. -/
theorem verifySignature_spec (env : Env) (db : DatabaseManager) (record : FileRecordEntry)
    (hlen : ∀ x, (env.sha256 x).length = 32) :
    (db.hmacKey = [] → db.verifySignature env record = true) ∧
    (db.hmacKey ≠ [] →
      (db.verifySignature env record = true ↔
        record.signature = db.computeSignature env record.metadata)) := by
  constructor
  · intro h
    unfold DatabaseManager.verifySignature
    rw [if_pos h]
  · intro h
    unfold DatabaseManager.verifySignature
    rw [if_neg h]
    simp only [computeSignature_ne_empty env db record.metadata h hlen, if_false,
      decide_eq_true_eq]
    exact eq_comm

theorem toUInt_natCast (n : Nat) (h : n < 2 ^ 32) : toUInt (n : Int) = n := by
  unfold toUInt
  omega

theorem toULongLong_natCast (n : Nat) (h : n < 2 ^ 64) : toULongLong (n : Int) = n := by
  unfold toULongLong
  omega

theorem toLongLong_id (x : Int) (h1 : -(2 ^ 63 : Int) ≤ x) (h2 : x < 2 ^ 63) :
    toLongLong x = x := by
  unfold toLongLong
  omega

theorem find_upsertRow (files : List FilesRow) (row : FilesRow) :
    (DatabaseManager.upsertRow files row).find? (fun r => decide (r.path = row.path)) =
      some row := by
  unfold DatabaseManager.upsertRow
  by_cases hany : (files.any (fun r => decide (r.path = row.path))) = true
  · rw [if_pos hany]
    induction files with
    | nil => simp at hany
    | cons r rest ih =>
      by_cases hr : r.path = row.path
      · simp [List.find?_cons, hr]
      · have : (rest.any (fun r => decide (r.path = row.path))) = true := by
          simpa [hr] using hany
        simp only [List.map_cons, hr, if_false, List.find?_cons, decide_False]
        exact ih this
  · rw [if_neg hany, List.find?_append]
    have : files.find? (fun r => decide (r.path = row.path)) = none := by
      rw [List.find?_eq_none]
      intro r hr
      intro e
      exact hany (List.any_eq_true.mpr ⟨r, hr, e⟩)
    rw [this]
    simp

theorem computeSignature_congr (env : Env) (db1 db2 : DatabaseManager) (m1 m2 : FileMetadata)
    (hk : db1.hmacKey = db2.hmacKey) (hpath : m1.path = m2.path) (hsize : m1.size = m2.size)
    (hmtime : m1.mtimeSeconds = m2.mtimeSeconds) (huid : m1.uid = m2.uid)
    (hgid : m1.gid = m2.gid) (hmode : m1.mode = m2.mode) (hhash : m1.hash = m2.hash) :
    db1.computeSignature env m1 = db2.computeSignature env m2 := by
  unfold DatabaseManager.computeSignature
  rw [hk, hpath, hsize, hmtime, huid, hgid, hmode, hhash]

theorem upsertFileRecord_ok (env : Env) (db : DatabaseManager) (R : FileRecordEntry)
    (h : env.fails db.ops = false) :
    db.upsertFileRecord env R =
      (true, { db with ops := db.ops + 1, files := (DatabaseManager.upsertRow db.files
        (DatabaseManager.boundRow R (db.computeSignature env R.metadata))) }) := by
  unfold DatabaseManager.upsertFileRecord
  simp [h]

theorem upsertFileRecord_fails (env : Env) (db : DatabaseManager) (R : FileRecordEntry)
    (h : (db.upsertFileRecord env R).1 = true) : env.fails db.ops = false := by
  by_contra hne
  have ht : env.fails db.ops = true := by simpa using hne
  unfold DatabaseManager.upsertFileRecord at h
  rw [if_pos ht] at h
  simp at h

theorem hydrate_boundRow_signature (env : Env) (db d2 : DatabaseManager) (R : FileRecordEntry)
    (sig : String) (htyped : R.metadata.wellTyped) (hd2 : d2.hmacKey = db.hmacKey) :
    d2.computeSignature env (d2.hydrateRecord env (DatabaseManager.boundRow R sig)).metadata =
      db.computeSignature env R.metadata := by
  obtain ⟨hs1, hs2, hm1, hm2, hu, hg, hmo, _, _, _, _⟩ := htyped
  apply computeSignature_congr env d2 db _ _ hd2
  · rfl
  · exact toLongLong_id _ hs1 hs2
  · exact toLongLong_id _ hm1 hm2
  · exact toUInt_natCast _ hu
  · exact toUInt_natCast _ hg
  · exact toUInt_natCast _ hmo
  · rfl

/-- Claim C4. Under a non-empty key, after a successful `upsertFileRecord` of a record `R`
whose numeric fields hold values of their C++ types, the record that `fetchRecord` returns
for the path of `R` has `signatureValid = true`; and when the fetch itself does not fail, that
record is the stored row of `R`, whose signature is the one computed at the upsert and equals
the signature recomputed over the fetched metadata. -/
theorem upsert_then_fetch_signatureValid (env : Env) (db : DatabaseManager)
    (R : FileRecordEntry) (hkey : db.hmacKey ≠ [])
    (hlen : ∀ x, (env.sha256 x).length = 32) (htyped : R.metadata.wellTyped)
    (hok : (db.upsertFileRecord env R).1 = true) :
    (((db.upsertFileRecord env R).2.fetchRecord env R.metadata.path).1.signatureValid = true) ∧
    (env.fails (db.upsertFileRecord env R).2.ops = false →
      ((db.upsertFileRecord env R).2.fetchRecord env R.metadata.path).1.metadata.path =
          R.metadata.path ∧
        ((db.upsertFileRecord env R).2.fetchRecord env R.metadata.path).1.signature =
          db.computeSignature env R.metadata ∧
        ((db.upsertFileRecord env R).2.fetchRecord env R.metadata.path).1.signature =
          (db.upsertFileRecord env R).2.computeSignature env
            ((db.upsertFileRecord env R).2.fetchRecord env R.metadata.path).1.metadata) := by
  rw [upsertFileRecord_ok env db R (upsertFileRecord_fails env db R hok)]
  simp only
  by_cases hf2 : env.fails (db.ops + 1) = true
  · refine ⟨?_, fun h => absurd hf2 (by simp [h])⟩
    unfold DatabaseManager.fetchRecord
    simp [hf2, FileRecordEntry.empty]
  · have hf2 : env.fails (db.ops + 1) = false := by simpa using hf2
    have hfetch := find_upsertRow db.files
      (DatabaseManager.boundRow R (db.computeSignature env R.metadata))
    have hpath : (DatabaseManager.boundRow R (db.computeSignature env R.metadata)).path =
        R.metadata.path := rfl
    rw [hpath] at hfetch
    unfold DatabaseManager.fetchRecord
    simp only [hf2, Bool.false_eq_true, if_false, hfetch]
    have hsig := hydrate_boundRow_signature env db
      { db with ops := db.ops + 1, files := (DatabaseManager.upsertRow db.files
          (DatabaseManager.boundRow R (db.computeSignature env R.metadata))) }
      R (db.computeSignature env R.metadata) htyped rfl
    refine ⟨?_, fun _ => ⟨rfl, rfl, ?_⟩⟩
    · have hv : (DatabaseManager.hydrateRecord env
          { db with ops := db.ops + 1, files := (DatabaseManager.upsertRow db.files
              (DatabaseManager.boundRow R (db.computeSignature env R.metadata))) }
          (DatabaseManager.boundRow R (db.computeSignature env R.metadata))).signatureValid =
          DatabaseManager.verifySignature env
            { db with ops := db.ops + 1, files := (DatabaseManager.upsertRow db.files
                (DatabaseManager.boundRow R (db.computeSignature env R.metadata))) }
            { FileRecordEntry.empty with
              metadata := (DatabaseManager.hydrateRecord env
                { db with ops := db.ops + 1, files := (DatabaseManager.upsertRow db.files
                    (DatabaseManager.boundRow R (db.computeSignature env R.metadata))) }
                (DatabaseManager.boundRow R (db.computeSignature env R.metadata))).metadata
              signature := db.computeSignature env R.metadata } := by
        unfold DatabaseManager.hydrateRecord DatabaseManager.verifySignature
        rfl
      rw [hv]
      unfold DatabaseManager.verifySignature
      simp only [hkey, if_false]
      rw [hsig]
      simp [computeSignature_ne_empty env db R.metadata hkey hlen]
    · exact hsig.symm

theorem computeSignature_is_hmac_witness :
    demoLongKeyDb.hmacKey ≠ [] ∧
    demoLongKeyDb.computeSignature demoEnv demoFile =
      toHex (hmacRfc2104 demoEnv.sha256 64 demoLongKeyDb.hmacKey (signedPayload demoFile)) :=
  ⟨by decide, computeSignature_is_hmac demoEnv demoLongKeyDb demoFile (by decide)⟩

theorem verifySignature_spec_witness :
    (∀ x, (demoEnv.sha256 x).length = 32) ∧
    (demoDb.hmacKey = [] → demoDb.verifySignature demoEnv demoRecord = true) ∧
    (demoDb.hmacKey ≠ [] →
      (demoDb.verifySignature demoEnv demoRecord = true ↔
        demoRecord.signature = demoDb.computeSignature demoEnv demoRecord.metadata)) :=
  ⟨fun _ => rfl, verifySignature_spec demoEnv demoDb demoRecord (fun _ => rfl)⟩

theorem upsert_then_fetch_signatureValid_witness :
    demoDb.hmacKey ≠ [] ∧ (∀ x, (demoEnv.sha256 x).length = 32) ∧
    demoRecord.metadata.wellTyped ∧ (demoDb.upsertFileRecord demoEnv demoRecord).1 = true ∧
    (((demoDb.upsertFileRecord demoEnv demoRecord).2.fetchRecord demoEnv
        demoRecord.metadata.path).1.signatureValid = true) ∧
    (demoEnv.fails (demoDb.upsertFileRecord demoEnv demoRecord).2.ops = false →
      ((demoDb.upsertFileRecord demoEnv demoRecord).2.fetchRecord demoEnv
          demoRecord.metadata.path).1.metadata.path = demoRecord.metadata.path ∧
        ((demoDb.upsertFileRecord demoEnv demoRecord).2.fetchRecord demoEnv
          demoRecord.metadata.path).1.signature =
          demoDb.computeSignature demoEnv demoRecord.metadata ∧
        ((demoDb.upsertFileRecord demoEnv demoRecord).2.fetchRecord demoEnv
          demoRecord.metadata.path).1.signature =
          (demoDb.upsertFileRecord demoEnv demoRecord).2.computeSignature demoEnv
            ((demoDb.upsertFileRecord demoEnv demoRecord).2.fetchRecord demoEnv
              demoRecord.metadata.path).1.metadata) :=
  ⟨by decide, fun _ => rfl, by decide, by decide,
    upsert_then_fetch_signatureValid demoEnv demoDb demoRecord (by decide) (fun _ => rfl)
      (by decide) (by decide)⟩

/-! ## Properties of the scan of `FileMonitor` -/

theorem fetchRecord_none (env : Env) (db : DatabaseManager) (path : String)
    (hnf : ∀ n, env.fails n = false)
    (h : db.files.find? (fun r => decide (r.path = path)) = none) :
    db.fetchRecord env path = (FileRecordEntry.empty, { db with ops := db.ops + 1 }) := by
  unfold DatabaseManager.fetchRecord
  simp [hnf, h]

theorem fetchRecord_some (env : Env) (db : DatabaseManager) (path : String) (row : FilesRow)
    (hnf : ∀ n, env.fails n = false)
    (h : db.files.find? (fun r => decide (r.path = path)) = some row) :
    db.fetchRecord env path = (db.hydrateRecord env row, { db with ops := db.ops + 1 }) := by
  unfold DatabaseManager.fetchRecord
  simp [hnf, h]

theorem insertHistoryRecord_ok (env : Env) (db : DatabaseManager) (filePath : String)
    (oldStatus newStatus : Int) (oldHash newHash comment : String)
    (hnf : ∀ n, env.fails n = false) :
    db.insertHistoryRecord env filePath oldStatus newStatus oldHash newHash comment =
      (true, { db with ops := db.ops + 1, scan_history := db.scan_history ++
        [{ scan_time := toISODate (some (env.clock db.ops)), file_path := filePath,
           old_status := if oldStatus < 0 then none else some oldStatus,
           new_status := newStatus, old_hash := oldHash, new_hash := newHash,
           comment := comment }] }) := by
  unfold DatabaseManager.insertHistoryRecord
  simp [hnf]

theorem upsertRow_append (files : List FilesRow) (row : FilesRow)
    (h : files.find? (fun r => decide (r.path = row.path)) = none) :
    DatabaseManager.upsertRow files row = files ++ [row] := by
  unfold DatabaseManager.upsertRow
  have : (files.any (fun r => decide (r.path = row.path))) = false := by
    rw [List.any_eq_false]
    intro r hr
    exact List.find?_eq_none.mp h r hr
  rw [this]
  simp

theorem classifyRecord_empty (env : Env) (ver : String) (st : ScanLoop) (f : FileMetadata) :
    classifyRecord
        { FileRecordEntry.empty with
          metadata := f, updatedAt := some (env.clock st.db.ops),
          lastChecked := some (env.clock st.db.ops), scannerVersion := ver }
        FileRecordEntry.empty =
      reportedRecord env ver st f "" "New" := by
  rfl

theorem persistRecord_new (env : Env) (disk : Disk) (st : ScanLoop) (seen : List String)
    (db : DatabaseManager) (rec : FileRecordEntry)
    (hnf : ∀ n, env.fails n = false) (hstatus : rec.status = "New")
    (hnone : db.files.find? (fun r => decide (r.path = rec.metadata.path)) = none) :
    persistRecord env disk st seen db rec FileRecordEntry.empty =
      { db := { db with
          ops := db.ops + 2
          files := db.files ++ [DatabaseManager.boundRow rec (db.computeSignature env rec.metadata)]
          scan_history := db.scan_history ++
            [{ scan_time := toISODate (some (env.clock db.ops)), file_path := rec.metadata.path,
               old_status := none, new_status := 2, old_hash := "", new_hash := rec.metadata.hash,
               comment := "Новый файл обнаружен" }] }
        results := st.results ++ [rec]
        seenInodes := seen
        seenPaths := st.seenPaths ++ [disk.absoluteFilePath rec.metadata.path]
        returned := false } := by
  unfold persistRecord
  simp only [FileRecordEntry.empty, FileMetadata.empty, ne_eq, not_true_eq_false, decide_False,
    if_true, true_or]
  rw [insertHistoryRecord_ok _ _ _ _ _ _ _ _ hnf]
  simp only [Bool.true_eq_false, if_false]
  rw [upsertFileRecord_ok _ _ _ (hnf _)]
  simp only [Bool.true_eq_false, if_false]
  rw [upsertRow_append _ _ hnone, hstatus]
  rfl

/-- First scan: a readable file without a row in the store. -/
theorem scanFile_new (env : Env) (disk : Disk) (ver : String) (st : ScanLoop) (f : FileMetadata)
    (hnf : ∀ n, env.fails n = false) (hhash : f.hash ≠ "")
    (hskip : ¬ (f.inode ≠ 0 ∧ inodeKey f ∈ st.seenInodes))
    (hnone : st.db.files.find? (fun r => decide (r.path = f.path)) = none) :
    scanFile env disk ver st f =
      { db := { st.db with
          ops := st.db.ops + 3
          files := st.db.files ++
            [DatabaseManager.boundRow (reportedRecord env ver st f "" "New")
              (st.db.computeSignature env f)]
          scan_history := st.db.scan_history ++
            [{ scan_time := toISODate (some (env.clock (st.db.ops + 1))), file_path := f.path,
               old_status := none, new_status := 2, old_hash := "", new_hash := f.hash,
               comment := "Новый файл обнаружен" }] }
        results := st.results ++ [reportedRecord env ver st f "" "New"]
        seenInodes := inodeKey f :: st.seenInodes
        seenPaths := st.seenPaths ++ [disk.absoluteFilePath f.path]
        returned := false } := by
  unfold scanFile
  simp only
  rw [if_neg hhash, if_neg hskip, fetchRecord_none env st.db f.path hnf hnone]
  simp only
  rw [classifyRecord_empty, persistRecord_new env disk st _ _ _ hnf rfl hnone]
  rfl

theorem hydrateRecord_goodRow (env : Env) (db : DatabaseManager) (f : FileMetadata) (s : String)
    (row : FilesRow) (htyped : f.wellTyped) (hgood : GoodRow env db.hmacKey f s row) :
    (db.hydrateRecord env row).metadata = { f with errorReason := "" } ∧
    (db.hydrateRecord env row).status = s ∧
    ((db.hydrateRecord env row).signatureValid = true ∨
      (db.hydrateRecord env row).signature = "") := by
  obtain ⟨rec, sig, hm, hs, hrow, hsig⟩ := hgood
  obtain ⟨hs1, hs2, hm1, hm2, hu, hg, hmo, hd, hi, hl, hp⟩ := htyped
  subst hrow
  have hmeta : (db.hydrateRecord env (DatabaseManager.boundRow rec sig)).metadata =
      { f with errorReason := "" } := by
    unfold DatabaseManager.hydrateRecord DatabaseManager.boundRow
    simp only [hm]
    rw [toLongLong_id _ hs1 hs2, toLongLong_id _ hm1 hm2, toUInt_natCast _ hu,
      toUInt_natCast _ hg, toUInt_natCast _ hmo, toULongLong_natCast _ hd,
      toULongLong_natCast _ hi, toULongLong_natCast _ hl, toULongLong_natCast _ hp]
  refine ⟨hmeta, ?_, ?_⟩
  · rw [← hs]
    rfl
  · have hsigeq : (db.hydrateRecord env (DatabaseManager.boundRow rec sig)).signature = sig := rfl
    have hv : (db.hydrateRecord env (DatabaseManager.boundRow rec sig)).signatureValid =
        db.verifySignature env
          { (db.hydrateRecord env (DatabaseManager.boundRow rec sig)) with signatureValid := true } := by
      rfl
    rw [hv, hsigeq]
    unfold DatabaseManager.verifySignature
    by_cases hk : db.hmacKey = []
    · left
      rw [if_pos hk]
    · rw [if_neg hk]
      simp only [hmeta, hsigeq]
      have e : db.computeSignature env { f with errorReason := "" } = sig := by
        rw [hsig db rfl]
        exact computeSignature_congr env db db _ _ rfl rfl rfl rfl rfl rfl rfl rfl
      rw [e]
      by_cases h0 : sig = ""
      · right
        exact h0
      · left
        simp [h0]

theorem classifyRecord_unchanged (env : Env) (ver : String) (st : ScanLoop) (f : FileMetadata)
    (old : FileRecordEntry) (hpath : f.path ≠ "")
    (hmeta : old.metadata = { f with errorReason := "" })
    (hvalid : old.signatureValid = true ∨ old.signature = "") :
    classifyRecord
        { FileRecordEntry.empty with
          metadata := f, updatedAt := some (env.clock st.db.ops),
          lastChecked := some (env.clock st.db.ops), scannerVersion := ver }
        old =
      reportedRecord env ver st f f.hash "Ok" := by
  obtain ⟨om, osig, ou, ol, ov, os, op, oe, osv, _, _, _, _, _⟩ := old
  simp only at hmeta hvalid
  subst hmeta
  have hmis : (!osv && decide (osig ≠ "")) = false := by
    rcases hvalid with h | h
    · simp [h]
    · simp [h]
  unfold classifyRecord reportedRecord
  simp [hpath, FileRecordEntry.empty]
  intro h
  rcases hvalid with h2 | h2
  · rw [h2] at h
    exact absurd h (by decide)
  · exact h2

theorem persistRecord_new_to_ok (env : Env) (disk : Disk) (st : ScanLoop) (seen : List String)
    (db : DatabaseManager) (rec old : FileRecordEntry)
    (hnf : ∀ n, env.fails n = false) (hstatus : rec.status = "Ok")
    (hold : old.status = "New") (hpath : old.metadata.path ≠ "")
    (hhash : old.metadata.hash = rec.metadata.hash) :
    persistRecord env disk st seen db rec old =
      { db := { db with
          ops := db.ops + 2
          files := DatabaseManager.upsertRow db.files
            (DatabaseManager.boundRow rec (db.computeSignature env rec.metadata))
          scan_history := db.scan_history ++
            [{ scan_time := toISODate (some (env.clock db.ops)), file_path := rec.metadata.path,
               old_status := some 2, new_status := 0, old_hash := rec.metadata.hash,
               new_hash := rec.metadata.hash, comment := "" }] }
        results := st.results ++ [rec]
        seenInodes := seen
        seenPaths := st.seenPaths ++ [disk.absoluteFilePath rec.metadata.path]
        returned := false } := by
  unfold persistRecord
  simp only [hold, hstatus, hhash, ne_eq, hpath, not_false_eq_true, decide_True,
    Bool.true_eq_false, if_false, String.reduceEq, not_true_eq_false, decide_False, true_or,
    if_true, or_true, reduceCtorEq]
  rw [insertHistoryRecord_ok _ _ _ _ _ _ _ _ hnf]
  simp only [Bool.true_eq_false, if_false]
  rw [upsertFileRecord_ok _ _ _ (hnf _)]
  simp only [Bool.true_eq_false, if_false]
  rfl

/-- Second scan: a readable file whose row was written as `New` by the scan before. -/
theorem scanFile_stored_new (env : Env) (disk : Disk) (ver : String) (st : ScanLoop)
    (f : FileMetadata) (row : FilesRow)
    (hnf : ∀ n, env.fails n = false) (hhash : f.hash ≠ "") (hpath : f.path ≠ "")
    (htyped : f.wellTyped)
    (hskip : ¬ (f.inode ≠ 0 ∧ inodeKey f ∈ st.seenInodes))
    (hfind : st.db.files.find? (fun r => decide (r.path = f.path)) = some row)
    (hgood : GoodRow env st.db.hmacKey f "New" row) :
    scanFile env disk ver st f =
      { db := { st.db with
          ops := st.db.ops + 3
          files := DatabaseManager.upsertRow st.db.files
            (DatabaseManager.boundRow (reportedRecord env ver st f f.hash "Ok")
              (st.db.computeSignature env f))
          scan_history := st.db.scan_history ++
            [{ scan_time := toISODate (some (env.clock (st.db.ops + 1))), file_path := f.path,
               old_status := some 2, new_status := 0, old_hash := f.hash, new_hash := f.hash,
               comment := "" }] }
        results := st.results ++ [reportedRecord env ver st f f.hash "Ok"]
        seenInodes := inodeKey f :: st.seenInodes
        seenPaths := st.seenPaths ++ [disk.absoluteFilePath f.path]
        returned := false } := by
  obtain ⟨hmeta, hstatus, hvalid⟩ := hydrateRecord_goodRow env st.db f "New" row htyped hgood
  unfold scanFile
  simp only
  rw [if_neg hhash, if_neg hskip, fetchRecord_some env st.db f.path row hnf hfind]
  simp only
  rw [classifyRecord_unchanged env ver st f _ hpath hmeta hvalid,
    persistRecord_new_to_ok env disk st _ _ _ _ hnf rfl hstatus (by rw [hmeta]; exact hpath)
      (by rw [hmeta]; rfl)]
  rfl

theorem runLoop_cons_continue {α : Type} (body : ScanLoop → α → ScanLoop) (st : ScanLoop) (x : α)
    (rest : List α) (h : (body st x).returned = false) :
    runLoop body st (x :: rest) = runLoop body (body st x) rest := by
  simp [runLoop, h]

theorem scanFile_skip (env : Env) (disk : Disk) (ver : String) (st : ScanLoop) (f : FileMetadata)
    (hhash : f.hash ≠ "") (hskip : f.inode ≠ 0 ∧ inodeKey f ∈ st.seenInodes) :
    scanFile env disk ver st f = st := by
  unfold scanFile
  simp only
  rw [if_neg hhash, if_pos hskip]

theorem acceptedFiles_sublist (seen : List String) (L : List FileMetadata) :
    List.Sublist (acceptedFiles seen L) L := by
  induction L generalizing seen with
  | nil => exact List.Sublist.slnil
  | cons f rest ih =>
    unfold acceptedFiles
    split
    · exact List.Sublist.cons _ (ih _)
    · exact List.Sublist.cons₂ _ (ih _)

theorem goodRow_path (env : Env) (key : Bytes) (f : FileMetadata) (s : String) (row : FilesRow)
    (h : GoodRow env key f s row) : row.path = f.path := by
  obtain ⟨rec, sig, hm, _, hrow, _⟩ := h
  rw [hrow, ← hm]
  rfl

theorem goodRow_boundRow (env : Env) (db : DatabaseManager) (rec : FileRecordEntry) :
    GoodRow env db.hmacKey rec.metadata rec.status
      (DatabaseManager.boundRow rec (db.computeSignature env rec.metadata)) :=
  ⟨rec, _, rfl, rfl, rfl, fun d hd =>
    computeSignature_congr env db d _ _ hd.symm rfl rfl rfl rfl rfl rfl rfl⟩

/-- The first scan over an empty part of the store. -/
theorem runLoop_scanFile_new (env : Env) (disk : Disk) (ver : String)
    (hnf : ∀ n, env.fails n = false) (L : List FileMetadata) (st : ScanLoop)
    (hhash : ∀ f ∈ L, f.hash ≠ "") (hdistinct : (L.map (fun f => f.path)).Nodup)
    (hfree : ∀ f ∈ L, st.db.files.find? (fun r => decide (r.path = f.path)) = none)
    (hret : st.returned = false) :
    (runLoop (scanFile env disk ver) st L).returned = false ∧
    (runLoop (scanFile env disk ver) st L).db.hmacKey = st.db.hmacKey ∧
    (runLoop (scanFile env disk ver) st L).db.snapshot = st.db.snapshot ∧
    (runLoop (scanFile env disk ver) st L).seenPaths =
      st.seenPaths ++ (acceptedFiles st.seenInodes L).map (fun f => disk.absoluteFilePath f.path) ∧
    (runLoop (scanFile env disk ver) st L).results.map (fun r => (r.metadata, r.status)) =
      st.results.map (fun r => (r.metadata, r.status)) ++
        (acceptedFiles st.seenInodes L).map (fun f => (f, "New")) ∧
    ∃ rows, (runLoop (scanFile env disk ver) st L).db.files = st.db.files ++ rows ∧
      List.Forall₂ (fun f row => GoodRow env st.db.hmacKey f "New" row)
        (acceptedFiles st.seenInodes L) rows := by
  induction L generalizing st with
  | nil =>
    refine ⟨hret, rfl, rfl, ?_, ?_, [], ?_, ?_⟩
    · simp [runLoop, acceptedFiles]
    · simp [runLoop, acceptedFiles]
    · simp [runLoop]
    · simp [acceptedFiles]
  | cons f rest ih =>
    have hf : f.hash ≠ "" := hhash f (List.mem_cons_self _ _)
    rw [List.map_cons, List.nodup_cons] at hdistinct
    have hrest : ∀ g ∈ rest, g.hash ≠ "" := fun g hg => hhash g (List.mem_cons_of_mem _ hg)
    by_cases hskip : f.inode ≠ 0 ∧ inodeKey f ∈ st.seenInodes
    · have hstep := scanFile_skip env disk ver st f hf hskip
      rw [runLoop_cons_continue _ _ _ _ (by rw [hstep]; exact hret), hstep]
      have := ih st hrest hdistinct.2 (fun g hg => hfree g (List.mem_cons_of_mem _ hg)) hret
      simpa [acceptedFiles, hskip] using this
    · have hstep := scanFile_new env disk ver st f hnf hf hskip (hfree f (List.mem_cons_self _ _))
      have hr1 : (scanFile env disk ver st f).returned = false := by rw [hstep]
      have hk1 : (scanFile env disk ver st f).db.hmacKey = st.db.hmacKey := by rw [hstep]
      have hs1 : (scanFile env disk ver st f).db.snapshot = st.db.snapshot := by rw [hstep]
      have hi1 : (scanFile env disk ver st f).seenInodes = inodeKey f :: st.seenInodes := by
        rw [hstep]
      have hp1 : (scanFile env disk ver st f).seenPaths =
          st.seenPaths ++ [disk.absoluteFilePath f.path] := by rw [hstep]
      have hres1 : (scanFile env disk ver st f).results =
          st.results ++ [reportedRecord env ver st f "" "New"] := by rw [hstep]
      have hfiles1 : (scanFile env disk ver st f).db.files =
          st.db.files ++ [DatabaseManager.boundRow (reportedRecord env ver st f "" "New")
              (st.db.computeSignature env f)] := by rw [hstep]
      have hfree2 : ∀ g ∈ rest,
          List.find? (fun r => decide (r.path = g.path))
            (scanFile env disk ver st f).db.files = none := by
        intro g hg
        rw [hfiles1, List.find?_append, hfree g (List.mem_cons_of_mem _ hg)]
        have hne : f.path ≠ g.path := fun e => hdistinct.1 (e ▸ List.mem_map_of_mem _ hg)
        simp [DatabaseManager.boundRow, reportedRecord, hne]
      rw [runLoop_cons_continue _ _ _ _ hr1]
      obtain ⟨h1, h2, h3, h4, h5, rows, h6, h7⟩ :=
        ih (scanFile env disk ver st f) hrest hdistinct.2 hfree2 hr1
      refine ⟨h1, h2.trans hk1, h3.trans hs1, ?_, ?_,
        DatabaseManager.boundRow (reportedRecord env ver st f "" "New")
          (st.db.computeSignature env f) :: rows, ?_, ?_⟩
      · rw [h4, hp1, hi1]
        simp [acceptedFiles, hskip]
      · rw [h5, hres1, hi1]
        simp [acceptedFiles, hskip, reportedRecord]
      · rw [h6, hfiles1]
        simp
      · simp only [acceptedFiles, hskip, if_false]
        rw [hi1, hk1] at h7
        exact List.Forall₂.cons (goodRow_boundRow env st.db (reportedRecord env ver st f "" "New")) h7


theorem find_upsertRow_ne (files : List FilesRow) (row : FilesRow) (p : String)
    (h : row.path ≠ p) :
    (DatabaseManager.upsertRow files row).find? (fun r => decide (r.path = p)) =
      files.find? (fun r => decide (r.path = p)) := by
  have hmap : ∀ l : List FilesRow,
      List.find? (fun r => decide (r.path = p))
        (l.map (fun r => if r.path = row.path then row else r)) =
      List.find? (fun r => decide (r.path = p)) l := by
    intro l
    induction l with
    | nil => rfl
    | cons r rest ih =>
      by_cases hr : r.path = row.path
      · have hrp : r.path ≠ p := by rw [hr]; exact h
        simp only [List.map_cons, hr, if_true, List.find?_cons, h, hrp, decide_False]
        exact ih
      · by_cases hrp : r.path = p
        · have hp : ¬ p = row.path := fun e => h e.symm
          simp only [List.map_cons, hr, if_false, List.find?_cons, hrp, decide_True, hp]
        · simp only [List.map_cons, hr, if_false, List.find?_cons, hrp, decide_False]
          exact ih
  unfold DatabaseManager.upsertRow
  split
  · exact hmap files
  · rw [List.find?_append]
    simp [h]

theorem upsertRow_paths (files : List FilesRow) (row r0 : FilesRow)
    (h : files.find? (fun r => decide (r.path = row.path)) = some r0) :
    (DatabaseManager.upsertRow files row).map (fun r => r.path) = files.map (fun r => r.path) := by
  unfold DatabaseManager.upsertRow
  have hany : (files.any (fun r => decide (r.path = row.path))) = true := by
    rw [List.any_eq_true]
    exact ⟨r0, List.mem_of_find?_eq_some h, by simpa using List.find?_some h⟩
  rw [if_pos hany, List.map_map]
  apply List.map_congr_left
  intro r _
  by_cases hr : r.path = row.path
  · simp [hr]
  · simp [hr]

/-- The second scan over the rows that the first one wrote. -/
theorem runLoop_scanFile_stored (env : Env) (disk : Disk) (ver : String)
    (hnf : ∀ n, env.fails n = false) (L : List FileMetadata) (st : ScanLoop)
    (hfile : ∀ f ∈ L, f.hash ≠ "" ∧ f.path ≠ "" ∧ f.wellTyped)
    (hdistinct : (L.map (fun f => f.path)).Nodup)
    (hrows : ∀ f ∈ acceptedFiles st.seenInodes L, ∃ row,
      st.db.files.find? (fun r => decide (r.path = f.path)) = some row ∧
        GoodRow env st.db.hmacKey f "New" row)
    (hret : st.returned = false) :
    (runLoop (scanFile env disk ver) st L).returned = false ∧
    (runLoop (scanFile env disk ver) st L).db.hmacKey = st.db.hmacKey ∧
    (runLoop (scanFile env disk ver) st L).db.snapshot = st.db.snapshot ∧
    (runLoop (scanFile env disk ver) st L).seenPaths =
      st.seenPaths ++ (acceptedFiles st.seenInodes L).map (fun f => disk.absoluteFilePath f.path) ∧
    (runLoop (scanFile env disk ver) st L).results.map (fun r => (r.metadata, r.status)) =
      st.results.map (fun r => (r.metadata, r.status)) ++
        (acceptedFiles st.seenInodes L).map (fun f => (f, "Ok")) ∧
    (runLoop (scanFile env disk ver) st L).db.files.map (fun r => r.path) =
      st.db.files.map (fun r => r.path) ∧
    ∃ hrows, (runLoop (scanFile env disk ver) st L).db.scan_history =
        st.db.scan_history ++ hrows ∧
      hrows.map HistoryRow.content =
        (acceptedFiles st.seenInodes L).map
          (fun f => (f.path, some 2, 0, f.hash, f.hash, "")) := by
  induction L generalizing st with
  | nil =>
    refine ⟨hret, rfl, rfl, ?_, ?_, rfl, [], ?_, ?_⟩
    · simp [runLoop, acceptedFiles]
    · simp [runLoop, acceptedFiles]
    · simp [runLoop]
    · simp [acceptedFiles]
  | cons f rest ih =>
    obtain ⟨hf, hfp, hft⟩ := hfile f (List.mem_cons_self _ _)
    rw [List.map_cons, List.nodup_cons] at hdistinct
    have hrest : ∀ g ∈ rest, g.hash ≠ "" ∧ g.path ≠ "" ∧ g.wellTyped :=
      fun g hg => hfile g (List.mem_cons_of_mem _ hg)
    by_cases hskip : f.inode ≠ 0 ∧ inodeKey f ∈ st.seenInodes
    · have hstep := scanFile_skip env disk ver st f hf hskip
      rw [runLoop_cons_continue _ _ _ _ (by rw [hstep]; exact hret), hstep]
      have := ih st hrest hdistinct.2
        (fun g hg => hrows g (by simpa [acceptedFiles, hskip] using hg)) hret
      simpa [acceptedFiles, hskip] using this
    · obtain ⟨row, hfind, hgood⟩ := hrows f (by simp [acceptedFiles, hskip])
      have hstep := scanFile_stored_new env disk ver st f row hnf hf hfp hft hskip hfind hgood
      have hr1 : (scanFile env disk ver st f).returned = false := by rw [hstep]
      have hk1 : (scanFile env disk ver st f).db.hmacKey = st.db.hmacKey := by rw [hstep]
      have hs1 : (scanFile env disk ver st f).db.snapshot = st.db.snapshot := by rw [hstep]
      have hi1 : (scanFile env disk ver st f).seenInodes = inodeKey f :: st.seenInodes := by
        rw [hstep]
      have hp1 : (scanFile env disk ver st f).seenPaths =
          st.seenPaths ++ [disk.absoluteFilePath f.path] := by rw [hstep]
      have hres1 : (scanFile env disk ver st f).results =
          st.results ++ [reportedRecord env ver st f f.hash "Ok"] := by rw [hstep]
      have hfiles1 : (scanFile env disk ver st f).db.files =
          DatabaseManager.upsertRow st.db.files
            (DatabaseManager.boundRow (reportedRecord env ver st f f.hash "Ok")
              (st.db.computeSignature env f)) := by rw [hstep]
      have hhist1 : (scanFile env disk ver st f).db.scan_history =
          st.db.scan_history ++
            [{ scan_time := toISODate (some (env.clock (st.db.ops + 1))), file_path := f.path,
               old_status := some 2, new_status := 0, old_hash := f.hash, new_hash := f.hash,
               comment := "" }] := by rw [hstep]
      have hrows2 : ∀ g ∈ acceptedFiles (scanFile env disk ver st f).seenInodes rest, ∃ row,
          (scanFile env disk ver st f).db.files.find? (fun r => decide (r.path = g.path)) =
            some row ∧ GoodRow env (scanFile env disk ver st f).db.hmacKey g "New" row := by
        intro g hg
        rw [hi1] at hg
        have hgrest : g ∈ rest := (acceptedFiles_sublist _ _).subset hg
        have hne : f.path ≠ g.path := fun e => hdistinct.1 (e ▸ List.mem_map_of_mem _ hgrest)
        obtain ⟨row2, h1, h2⟩ := hrows g (by simp [acceptedFiles, hskip, hg])
        refine ⟨row2, ?_, by rw [hk1]; exact h2⟩
        rw [hfiles1, find_upsertRow_ne _ _ _ (by exact hne)]
        exact h1
      rw [runLoop_cons_continue _ _ _ _ hr1]
      obtain ⟨h1, h2, h3, h4, h5, h6, hrows3, h7, h8⟩ :=
        ih (scanFile env disk ver st f) hrest hdistinct.2 hrows2 hr1
      refine ⟨h1, h2.trans hk1, h3.trans hs1, ?_, ?_, ?_,
        { scan_time := toISODate (some (env.clock (st.db.ops + 1))), file_path := f.path,
          old_status := some 2, new_status := 0, old_hash := f.hash, new_hash := f.hash,
          comment := "" } :: hrows3, ?_, ?_⟩
      · rw [h4, hp1, hi1]
        simp [acceptedFiles, hskip]
      · rw [h5, hres1, hi1]
        simp [acceptedFiles, hskip, reportedRecord]
      · rw [h6, hfiles1]
        exact upsertRow_paths _ _ row hfind
      · rw [h7, hhist1]
        simp
      · simp only [acceptedFiles, hskip, if_false, List.map_cons]
        rw [hi1] at h8
        rw [h8]
        rfl

theorem runLoop_checkDeleted_seen (env : Env) (disk : Disk) (base : String) (now : QDateTime)
    (st : ScanLoop) (existing : List FileRecordEntry)
    (h : ∀ e ∈ existing, disk.absoluteFilePath e.metadata.path ∈ st.seenPaths) :
    runLoop (checkDeleted env disk base now) st existing = st := by
  induction existing with
  | nil => rfl
  | cons e rest ih =>
    have hstep : checkDeleted env disk base now st e = st := by
      unfold checkDeleted
      simp only
      rw [if_pos (h e (List.mem_cons_self _ _))]
    unfold runLoop
    rw [hstep]
    split
    · rfl
    · exact ih (fun x hx => h x (List.mem_cons_of_mem _ hx))

theorem hydrateRecord_path (env : Env) (db : DatabaseManager) (row : FilesRow) :
    (db.hydrateRecord env row).metadata.path = row.path := rfl

/-- A scan without failing statement whose traversal loop runs to its end and meets every
path of the baseline. -/
theorem scanDirectory_quiet (env : Env) (disk : Disk) (ver : String) (db : DatabaseManager)
    (dir : String) (scanned : List FileMetadata)
    (hnf : ∀ n, env.fails n = false) (hdir : disk.isDir dir = true) (hsnap : db.snapshot = none)
    (hret : (runLoop (scanFile env disk ver)
      { db := { db with ops := db.ops + 2, snapshot := some (db.files, db.scan_history) },
        results := [], seenInodes := [], seenPaths := [], returned := false } scanned).returned =
        false)
    (hopen : (runLoop (scanFile env disk ver)
      { db := { db with ops := db.ops + 2, snapshot := some (db.files, db.scan_history) },
        results := [], seenInodes := [], seenPaths := [], returned := false }
        scanned).db.snapshot ≠ none)
    (hseen : ∀ row ∈ db.files, disk.absoluteFilePath row.path ∈ (runLoop (scanFile env disk ver)
      { db := { db with ops := db.ops + 2, snapshot := some (db.files, db.scan_history) },
        results := [], seenInodes := [], seenPaths := [], returned := false }
        scanned).seenPaths) :
    scanDirectory env disk ver db dir scanned =
      ((runLoop (scanFile env disk ver)
        { db := { db with ops := db.ops + 2, snapshot := some (db.files, db.scan_history) },
          results := [], seenInodes := [], seenPaths := [], returned := false } scanned).results,
       { (runLoop (scanFile env disk ver)
          { db := { db with ops := db.ops + 2, snapshot := some (db.files, db.scan_history) },
            results := [], seenInodes := [], seenPaths := [], returned := false } scanned).db with
         ops := (runLoop (scanFile env disk ver)
          { db := { db with ops := db.ops + 2, snapshot := some (db.files, db.scan_history) },
            results := [], seenInodes := [], seenPaths := [], returned := false }
            scanned).db.ops + 1
         snapshot := none }) := by
  unfold scanDirectory
  simp only [hdir, Bool.true_eq_false, if_false]
  have hfetch : db.fetchAllRecords env =
      ((List.insertionSort (fun a b : FilesRow => ¬ b.path.data < a.path.data) db.files).map
        (db.hydrateRecord env), { db with ops := db.ops + 1 }) := by
    unfold DatabaseManager.fetchAllRecords
    simp [hnf]
  have hbegin : DatabaseManager.beginTransaction env { db with ops := db.ops + 1 } =
      (true, { db with ops := db.ops + 2, snapshot := some (db.files, db.scan_history) }) := by
    unfold DatabaseManager.beginTransaction
    simp [hnf, hsnap]
  rw [hfetch]
  simp only
  rw [hbegin]
  simp only [Bool.true_eq_false, if_false]
  rw [hret]
  simp only [Bool.false_eq_true, if_false]
  rw [runLoop_checkDeleted_seen]
  · rw [hret]
    simp only [Bool.false_eq_true, if_false]
    have hcommit : ∀ d : DatabaseManager, d.snapshot ≠ none →
        d.commitTransaction env = (true, { d with ops := d.ops + 1, snapshot := none }) := by
      intro d hd
      unfold DatabaseManager.commitTransaction
      have : d.snapshot.isNone = false := by
        cases hs : d.snapshot with
        | none => exact absurd hs hd
        | some _ => rfl
      simp [hnf, this]
    rw [hcommit _ hopen]
    simp only [Bool.true_eq_false, if_false]
  · intro e he
    obtain ⟨row, hrow, e2⟩ := List.mem_map.mp he
    rw [← e2, hydrateRecord_path]
    exact hseen row ((List.perm_insertionSort _ _).subset hrow)

theorem forall2_goodRow_find (env : Env) (key : Bytes) (l : List FileMetadata)
    (rows : List FilesRow)
    (h : List.Forall₂ (fun f row => GoodRow env key f "New" row) l rows)
    (hnd : (l.map (fun f => f.path)).Nodup) :
    ∀ f ∈ l, ∃ row, rows.find? (fun r => decide (r.path = f.path)) = some row ∧
      GoodRow env key f "New" row := by
  induction h with
  | nil => intro f hf; simp at hf
  | @cons f0 row0 l0 rows0 h0 _ ih =>
    rw [List.map_cons, List.nodup_cons] at hnd
    intro f hf
    rcases List.mem_cons.mp hf with e | hmem
    · subst e
      exact ⟨row0, by simp [List.find?_cons, goodRow_path env key f "New" row0 h0], h0⟩
    · obtain ⟨row, h1, h2⟩ := ih hnd.2 f hmem
      refine ⟨row, ?_, h2⟩
      have hne : row0.path ≠ f.path := by
        rw [goodRow_path env key f0 "New" row0 h0]
        exact fun e => hnd.1 (e ▸ List.mem_map_of_mem _ hmem)
      simp only [List.find?_cons, hne, decide_False]
      exact h1

theorem forall2_goodRow_mem (env : Env) (key : Bytes) (l : List FileMetadata)
    (rows : List FilesRow)
    (h : List.Forall₂ (fun f row => GoodRow env key f "New" row) l rows) :
    ∀ row ∈ rows, ∃ f ∈ l, row.path = f.path := by
  induction h with
  | nil => intro row hrow; simp at hrow
  | @cons f0 row0 l0 rows0 h0 _ ih =>
    intro row hrow
    rcases List.mem_cons.mp hrow with e | hmem
    · subst e
      exact ⟨f0, List.mem_cons_self _ _, goodRow_path env key f0 "New" row h0⟩
    · obtain ⟨f, hf, e⟩ := ih row hmem
      exact ⟨f, List.mem_cons_of_mem _ hf, e⟩

theorem acceptedFiles_ne_nil (L : List FileMetadata) (h : L ≠ []) : acceptedFiles [] L ≠ [] := by
  cases L with
  | nil => exact absurd rfl h
  | cons f rest => simp [acceptedFiles]

/-- Claim C9, as amended. When a directory of readable files, with pairwise distinct paths,
is scanned twice over a store without failing statement, the first scan starting from an
empty baseline, the second scan inserts exactly one history record for each file it reports,
in the same order: old status 2 (New), new status 0 (Ok), `old_hash = new_hash` the hash of
the file, an empty comment. It reports each file Ok, reports the same files as the first
scan, and so inserts at least one record unless the traversal found no file. -/
theorem scanDirectory_twice (env : Env) (disk : Disk) (ver : String)
    (db : DatabaseManager) (dir : String) (scanned : List FileMetadata)
    (hnf : ∀ n, env.fails n = false) (hdir : disk.isDir dir = true)
    (hempty : db.files = []) (hsnap : db.snapshot = none)
    (hfile : ∀ f ∈ scanned, f.hash ≠ "" ∧ f.path ≠ "" ∧ f.wellTyped)
    (hdistinct : (scanned.map (fun f => f.path)).Nodup) :
    ∃ rows : List HistoryRow,
      (scanDirectory env disk ver (scanDirectory env disk ver db dir scanned).2 dir
          scanned).2.scan_history =
        (scanDirectory env disk ver db dir scanned).2.scan_history ++ rows ∧
      rows.map HistoryRow.content =
        (scanDirectory env disk ver (scanDirectory env disk ver db dir scanned).2 dir
          scanned).1.map (fun r => (r.metadata.path, some 2, 0, r.metadata.hash, r.metadata.hash, "")) ∧
      (∀ r ∈ (scanDirectory env disk ver (scanDirectory env disk ver db dir scanned).2 dir
          scanned).1, r.status = "Ok") ∧
      (scanDirectory env disk ver (scanDirectory env disk ver db dir scanned).2 dir
          scanned).1.map (fun r => r.metadata) =
        (scanDirectory env disk ver db dir scanned).1.map (fun r => r.metadata) ∧
      (scanned ≠ [] → rows ≠ []) := by
  -- the first scan
  obtain ⟨a1, a2, a3, a4, a5, rows1, a6, a7⟩ := runLoop_scanFile_new env disk ver hnf scanned
    { db := { db with ops := db.ops + 2, snapshot := some (db.files, db.scan_history) },
      results := [], seenInodes := [], seenPaths := [], returned := false }
    (fun f hf => (hfile f hf).1) hdistinct (fun f _ => by simp [hempty]) rfl
  have hfirst := scanDirectory_quiet env disk ver db dir scanned hnf hdir hsnap a1
    (by rw [a3]; simp) (by rw [hempty]; simp)
  have a6 := a6.trans (show _ = rows1 by simp [hempty])
  simp only at a2 a3 a4 a5 a7
  -- the second scan
  have hacc_nodup : ((acceptedFiles [] scanned).map (fun f => f.path)).Nodup :=
    List.Nodup.sublist (List.Sublist.map _ (acceptedFiles_sublist [] scanned)) hdistinct
  rw [hfirst]
  simp only
  obtain ⟨b1, b2, b3, b4, b5, b6, rows, b7, b8⟩ := runLoop_scanFile_stored env disk ver hnf
    scanned
    { db :=
        { ({ (runLoop (scanFile env disk ver)
              { db := { db with ops := db.ops + 2, snapshot := some (db.files, db.scan_history) },
                results := [], seenInodes := [], seenPaths := [], returned := false }
              scanned).db with
              ops := (runLoop (scanFile env disk ver)
                { db := { db with ops := db.ops + 2, snapshot := some (db.files, db.scan_history) },
                  results := [], seenInodes := [], seenPaths := [], returned := false }
                scanned).db.ops + 1
              snapshot := none } : DatabaseManager) with
          ops := (runLoop (scanFile env disk ver)
                { db := { db with ops := db.ops + 2, snapshot := some (db.files, db.scan_history) },
                  results := [], seenInodes := [], seenPaths := [], returned := false }
                scanned).db.ops + 1 + 2
          snapshot := some ((runLoop (scanFile env disk ver)
                { db := { db with ops := db.ops + 2, snapshot := some (db.files, db.scan_history) },
                  results := [], seenInodes := [], seenPaths := [], returned := false }
                scanned).db.files,
              (runLoop (scanFile env disk ver)
                { db := { db with ops := db.ops + 2, snapshot := some (db.files, db.scan_history) },
                  results := [], seenInodes := [], seenPaths := [], returned := false }
                scanned).db.scan_history) },
      results := [], seenInodes := [], seenPaths := [], returned := false }
    hfile hdistinct
    (by
      intro f hf
      simp only [a6, a2]
      exact forall2_goodRow_find env db.hmacKey _ _ a7 hacc_nodup f hf)
    rfl
  have hsecond := scanDirectory_quiet env disk ver
    ({ (runLoop (scanFile env disk ver)
          { db := { db with ops := db.ops + 2, snapshot := some (db.files, db.scan_history) },
            results := [], seenInodes := [], seenPaths := [], returned := false }
          scanned).db with
          ops := (runLoop (scanFile env disk ver)
            { db := { db with ops := db.ops + 2, snapshot := some (db.files, db.scan_history) },
              results := [], seenInodes := [], seenPaths := [], returned := false }
            scanned).db.ops + 1
          snapshot := none } : DatabaseManager)
    dir scanned hnf hdir rfl b1 (by rw [b3]; simp)
    (by
      intro row hrow
      have hrow1 : row ∈ rows1 := by
        simp only [a6] at hrow
        exact hrow
      obtain ⟨f, hf, e⟩ := forall2_goodRow_mem env db.hmacKey _ _ a7 row hrow1
      rw [b4, e]
      simp only [List.nil_append]
      exact List.mem_map_of_mem (fun f => disk.absoluteFilePath f.path) hf)
  rw [hsecond]
  simp only [List.map_nil, List.nil_append] at b5 a5
  refine ⟨rows, b7, ?_, ?_, ?_, ?_⟩
  · rw [b8]
    have := congrArg (List.map (fun p : FileMetadata × String =>
      (p.1.path, (some 2 : Option Int), (0 : Int), p.1.hash, p.1.hash, ""))) b5
    simp only [List.map_map] at this
    exact this.symm
  · intro r hr
    have hmem : (r.metadata, r.status) ∈ List.map (fun r => (r.metadata, r.status))
        (runLoop (scanFile env disk ver) _ scanned).results := List.mem_map_of_mem _ hr
    rw [b5] at hmem
    obtain ⟨f, _, e⟩ := List.mem_map.mp hmem
    exact (congrArg Prod.snd e).symm
  · have h1 := congrArg (List.map Prod.fst) b5
    have h2 := congrArg (List.map Prod.fst) a5
    simp only [List.map_map] at h1 h2
    exact h1.trans h2.symm
  · intro hne hnil
    rw [hnil] at b8
    have := acceptedFiles_ne_nil scanned hne
    simp only [List.map_nil] at b8
    exact this (List.map_eq_nil_iff.mp b8.symm)

theorem classifyRecord_mismatch (record old : FileRecordEntry)
    (hold : old.metadata.path ≠ "") (hsv : old.signatureValid = false)
    (hsig : old.signature ≠ "") :
    (classifyRecord record old).status = "Changed" ∧
      (classifyRecord record old).metadata = record.metadata := by
  unfold classifyRecord
  simp [hold, hsv, hsig]

theorem persistRecord_results (env : Env) (disk : Disk) (st : ScanLoop) (seen : List String)
    (db : DatabaseManager) (rec old : FileRecordEntry) (hnf : ∀ n, env.fails n = false) :
    (persistRecord env disk st seen db rec old).results = st.results ++ [rec] ∧
      (persistRecord env disk st seen db rec old).returned = false := by
  unfold persistRecord
  simp only [insertHistoryRecord_ok _ _ _ _ _ _ _ _ hnf, upsertFileRecord_ok _ _ _ (hnf _)]
  split_ifs <;> simp_all

/-- Claim C3, as amended. In a scan whose store statements do not fail, a readable file that
is not skipped as a hard link of a file met before, and whose fetched baseline row has
`signatureValid = false` and a non-empty stored signature, is reported with the status
Changed, whatever its hash and metadata. -/
theorem scanFile_signature_mismatch (env : Env) (disk : Disk) (ver : String) (st : ScanLoop)
    (f : FileMetadata) (hnf : ∀ n, env.fails n = false) (hhash : f.hash ≠ "")
    (hskip : ¬ (f.inode ≠ 0 ∧ inodeKey f ∈ st.seenInodes))
    (hold : (st.db.fetchRecord env f.path).1.metadata.path ≠ "")
    (hsv : (st.db.fetchRecord env f.path).1.signatureValid = false)
    (hsig : (st.db.fetchRecord env f.path).1.signature ≠ "") :
    ∃ r : FileRecordEntry,
      (scanFile env disk ver st f).results = st.results ++ [r] ∧
        (scanFile env disk ver st f).returned = false ∧
        r.metadata = f ∧ r.status = "Changed" := by
  obtain ⟨h1, h2⟩ := classifyRecord_mismatch
    { FileRecordEntry.empty with
      metadata := f, updatedAt := some (env.clock st.db.ops),
      lastChecked := some (env.clock st.db.ops), scannerVersion := ver }
    (st.db.fetchRecord env f.path).1 hold hsv hsig
  refine ⟨_, ?_, ?_, h2, h1⟩
  · unfold scanFile
    simp only
    rw [if_neg hhash, if_neg hskip]
    exact (persistRecord_results env disk st _ _ _ _ hnf).1
  · unfold scanFile
    simp only
    rw [if_neg hhash, if_neg hskip]
    exact (persistRecord_results env disk st _ _ _ _ hnf).2

theorem scanFile_signature_mismatch_witness :
    (∀ n, demoEnv.fails n = false) ∧ demoFile.hash ≠ "" ∧
    ¬ (demoFile.inode ≠ 0 ∧ inodeKey demoFile ∈ ([] : List String)) ∧
    (demoTampered.fetchRecord demoEnv demoFile.path).1.metadata.path ≠ "" ∧
    (demoTampered.fetchRecord demoEnv demoFile.path).1.signatureValid = false ∧
    (demoTampered.fetchRecord demoEnv demoFile.path).1.signature ≠ "" ∧
    ∃ r : FileRecordEntry,
      (scanFile demoEnv demoDisk "1.0.0" ⟨demoTampered, [], [], [], false⟩ demoFile).results =
          [] ++ [r] ∧
        (scanFile demoEnv demoDisk "1.0.0" ⟨demoTampered, [], [], [], false⟩ demoFile).returned =
          false ∧
        r.metadata = demoFile ∧ r.status = "Changed" :=
  ⟨fun _ => rfl, by decide, by decide, by decide, by decide, by decide,
    scanFile_signature_mismatch demoEnv demoDisk "1.0.0" ⟨demoTampered, [], [], [], false⟩ demoFile
      (fun _ => rfl) (by decide) (by decide) (by decide) (by decide) (by decide)⟩

/-- Claim C3 fails for an empty stored signature: a row written before the key was set has
an empty signature, so under the key its `signatureValid` is false, and yet the unchanged
file is reported Ok. -/
theorem scanDirectory_empty_signature_trusted :
    ((scanDirectory demoEnv demoDisk "1.0.0" { demoDb with hmacKey := [] } "/r"
        [demoFile]).2.setHmacKey [1, 2, 3]).hmacKey ≠ [] ∧
    (((scanDirectory demoEnv demoDisk "1.0.0" { demoDb with hmacKey := [] } "/r"
        [demoFile]).2.setHmacKey [1, 2, 3]).fetchRecord demoEnv "/r/a").1.signatureValid = false ∧
    (scanDirectory demoEnv demoDisk "1.0.0"
        ((scanDirectory demoEnv demoDisk "1.0.0" { demoDb with hmacKey := [] } "/r"
          [demoFile]).2.setHmacKey [1, 2, 3]) "/r" [demoFile]).1.map
      (fun r => (r.metadata.path, r.metadata.hash, r.status)) = [("/r/a", "ab", "Ok")] := by
  decide

/-- Claim C9 fails: after a first scan from an empty baseline, the second scan of the
unchanged file inserts a history record for the transition from New to Ok. -/
theorem scanDirectory_second_scan_writes_history :
    (scanDirectory demoEnv demoDisk "1.0.0" demoDb "/r" [demoFile]).2.scan_history.map
        (fun h => (h.file_path, h.old_status, h.new_status)) = [("/r/a", none, 2)] ∧
    (scanDirectory demoEnv demoDisk "1.0.0"
        (scanDirectory demoEnv demoDisk "1.0.0" demoDb "/r" [demoFile]).2 "/r"
        [demoFile]).2.scan_history.map (fun h => (h.file_path, h.old_status, h.new_status)) =
      [("/r/a", none, 2), ("/r/a", some 2, 0)] := by
  decide

theorem scanDirectory_twice_witness :
    (∀ n, demoEnv.fails n = false) ∧ demoDisk.isDir "/r" = true ∧ demoDb.files = [] ∧
    demoDb.snapshot = none ∧
    (∀ f ∈ [demoFile], f.hash ≠ "" ∧ f.path ≠ "" ∧ f.wellTyped) ∧
    ([demoFile].map (fun f => f.path)).Nodup ∧
    ∃ rows : List HistoryRow,
      (scanDirectory demoEnv demoDisk "1.0.0"
          (scanDirectory demoEnv demoDisk "1.0.0" demoDb "/r" [demoFile]).2 "/r"
          [demoFile]).2.scan_history =
        (scanDirectory demoEnv demoDisk "1.0.0" demoDb "/r" [demoFile]).2.scan_history ++ rows ∧
      rows.map HistoryRow.content =
        (scanDirectory demoEnv demoDisk "1.0.0"
          (scanDirectory demoEnv demoDisk "1.0.0" demoDb "/r" [demoFile]).2 "/r"
          [demoFile]).1.map
            (fun r => (r.metadata.path, some 2, 0, r.metadata.hash, r.metadata.hash, "")) ∧
      (∀ r ∈ (scanDirectory demoEnv demoDisk "1.0.0"
          (scanDirectory demoEnv demoDisk "1.0.0" demoDb "/r" [demoFile]).2 "/r"
          [demoFile]).1, r.status = "Ok") ∧
      (scanDirectory demoEnv demoDisk "1.0.0"
          (scanDirectory demoEnv demoDisk "1.0.0" demoDb "/r" [demoFile]).2 "/r"
          [demoFile]).1.map (fun r => r.metadata) =
        (scanDirectory demoEnv demoDisk "1.0.0" demoDb "/r" [demoFile]).1.map
          (fun r => r.metadata) ∧
      ([demoFile] ≠ [] → rows ≠ []) :=
  ⟨fun _ => rfl, rfl, rfl, rfl, by decide, by decide,
    scanDirectory_twice demoEnv demoDisk "1.0.0" demoDb "/r" [demoFile] (fun _ => rfl) rfl rfl rfl
      (by decide) (by decide)⟩


/-! ## Further properties of the engine and of the exclusion rules -/

namespace core

theorem length_eq_status_counts (L : List FileMetadata)
    (h : ∀ r ∈ L, r.status ≠ FileStatus.Deleted) :
    L.length =
      L.countP (fun r => decide (r.status = FileStatus.Ok)) +
        L.countP (fun r => decide (r.status = FileStatus.Changed)) +
        L.countP (fun r => decide (r.status = FileStatus.New)) +
        L.countP (fun r => decide (r.status = FileStatus.Error)) := by
  induction L with
  | nil => rfl
  | cons r rest ih =>
    have hr := h r (List.mem_cons_self _ _)
    have ih1 := ih (fun x hx => h x (List.mem_cons_of_mem _ hx))
    simp only [List.countP_cons, List.length_cons]
    cases hs : r.status <;> simp_all <;> omega

theorem statusIn_ne_deleted (map : PathMap) (m : FileMetadata) :
    statusIn map m ≠ FileStatus.Deleted := by
  unfold statusIn
  by_cases h : m.hash = ""
  · simp [h]
  · simp only [h, if_false]
    cases map.find m.path with
    | none => simp
    | some kv => by_cases hd : differs m kv.2 <;> simp [hd]

theorem foldl_classify_counts (clock : Nat → Int) (S : List FileMetadata) (st : Reconcile) :
    ∃ cl : List FileMetadata,
      (S.foldl (classifyEntry clock) st).merged = st.merged ++ cl ∧
      List.Forall₂ (fun m r => r = { m with status := r.status }) S cl ∧
      (∀ r ∈ cl, r.status ≠ FileStatus.Deleted) ∧
      (S.foldl (classifyEntry clock) st).summary =
        { totalFiles := st.summary.totalFiles + S.length
          changedCount := st.summary.changedCount +
            cl.countP (fun r => decide (r.status = FileStatus.Changed))
          newCount := st.summary.newCount +
            cl.countP (fun r => decide (r.status = FileStatus.New))
          deletedCount := st.summary.deletedCount
          errorCount := st.summary.errorCount +
            cl.countP (fun r => decide (r.status = FileStatus.Error)) } := by
  induction S generalizing st with
  | nil => exact ⟨[], by simp, List.Forall₂.nil, by simp, by simp⟩
  | cons m rest ih =>
    obtain ⟨cl, h1, h2, h3, h4⟩ := ih (classifyEntry clock st m)
    refine ⟨{ m with status := statusIn st.oldByPath m } :: cl, ?_, ?_, ?_, ?_⟩
    · rw [List.foldl_cons, h1, classifyEntry_merged]; simp
    · exact List.Forall₂.cons rfl h2
    · intro r hr
      rcases List.mem_cons.mp hr with hr | hr
      · rw [hr]; exact statusIn_ne_deleted _ _
      · exact h3 r hr
    · rw [List.foldl_cons, h4, classifyEntry_summary]
      simp only [List.countP_cons, List.length_cons]
      cases hs : statusIn st.oldByPath m <;> simp <;> omega

/-- Claim C14. For every new state and every baseline, the vector that `compareAndPersist`
hands to `saveCurrentState` is the new state, entry by entry with a status written into it
(never Deleted), followed by the Deleted entries; `totalFiles` is the length of the new state
and equals the number of new-state entries classified Ok plus `changedCount`, `newCount` and
`errorCount`, each of which counts the new-state entries of that status; the Deleted entries
are counted in `deletedCount` and nowhere else. -/
theorem compareAndPersist_summary_totals (clock : Nat → Int)
    (newState baseline : List FileMetadata) :
    ∃ classified deleted : List FileMetadata,
      (compareAndPersist true clock newState baseline).saved = some (classified ++ deleted) ∧
      List.Forall₂ (fun m r => r = { m with status := r.status }) newState classified ∧
      (∀ r ∈ classified, r.status ≠ FileStatus.Deleted) ∧
      (∀ d ∈ deleted, d.status = FileStatus.Deleted) ∧
      (compareAndPersist true clock newState baseline).summary.totalFiles = newState.length ∧
      (compareAndPersist true clock newState baseline).summary.totalFiles =
        classified.countP (fun r => decide (r.status = FileStatus.Ok)) +
          (compareAndPersist true clock newState baseline).summary.changedCount +
          (compareAndPersist true clock newState baseline).summary.newCount +
          (compareAndPersist true clock newState baseline).summary.errorCount ∧
      (compareAndPersist true clock newState baseline).summary.changedCount =
        classified.countP (fun r => decide (r.status = FileStatus.Changed)) ∧
      (compareAndPersist true clock newState baseline).summary.newCount =
        classified.countP (fun r => decide (r.status = FileStatus.New)) ∧
      (compareAndPersist true clock newState baseline).summary.errorCount =
        classified.countP (fun r => decide (r.status = FileStatus.Error)) ∧
      (compareAndPersist true clock newState baseline).summary.deletedCount = deleted.length := by
  obtain ⟨cl, h1, h2, h3, h4⟩ := foldl_classify_counts clock newState
    { oldByPath := buildOldByPath baseline, merged := [], summary := ⟨0, 0, 0, 0, 0⟩, history := [] }
  obtain ⟨st1, hst1⟩ : ∃ st1 : Reconcile, st1 = newState.foldl (classifyEntry clock)
      { oldByPath := buildOldByPath baseline, merged := [], summary := ⟨0, 0, 0, 0, 0⟩,
        history := [] } := ⟨_, rfl⟩
  rw [← hst1] at h1 h4
  obtain ⟨d1, d2, _⟩ := foldl_markDeleted clock st1.oldByPath st1
  have hcount := length_eq_status_counts cl h3
  have hlen : cl.length = newState.length := (List.Forall₂.length_eq h2).symm
  have hsaved : (compareAndPersist true clock newState baseline).saved =
      some (cl ++ st1.oldByPath.map (fun kv => { kv.2 with status := FileStatus.Deleted })) := by
    simp only [compareAndPersist, Bool.true_eq_false, if_false]
    rw [← hst1, d1, h1]
    simp
  have hsum : (compareAndPersist true clock newState baseline).summary =
      { totalFiles := newState.length
        changedCount := cl.countP (fun r => decide (r.status = FileStatus.Changed))
        newCount := cl.countP (fun r => decide (r.status = FileStatus.New))
        deletedCount := st1.oldByPath.length
        errorCount := cl.countP (fun r => decide (r.status = FileStatus.Error)) } := by
    simp only [compareAndPersist, Bool.true_eq_false, if_false]
    rw [← hst1, d2, h4]
    simp
  refine ⟨cl, st1.oldByPath.map (fun kv => { kv.2 with status := FileStatus.Deleted }),
    hsaved, h2, h3, ?_, ?_, ?_, ?_, ?_, ?_, ?_⟩
  · intro d hd
    obtain ⟨kv, _, rfl⟩ := List.mem_map.mp hd
    rfl
  all_goals rw [hsum]
  all_goals simp
  omega

theorem rfind_zero (s needle : List Char) :
    rfind s needle 0 = some 0 ↔ needle <+: s := by
  unfold rfind
  by_cases h : needle.length > s.length
  · simp only [h, if_true]
    constructor
    · intro h0; cases h0
    · intro hp
      have := hp.length_le
      omega
  · simp only [h, if_false, Nat.zero_min, Nat.zero_add]
    rw [← List.isPrefixOf_iff_prefix]
    cases hpre : needle.isPrefixOf s <;>
      simp [List.range_succ, List.find?_cons, List.drop_zero, hpre]

theorem find_isSome (s needle : List Char) :
    (find s needle).isSome = true ↔ needle <:+: s := by
  unfold find
  rw [List.find?_isSome]
  constructor
  · rintro ⟨i, _, hi⟩
    have hp : needle <+: s.drop i := List.isPrefixOf_iff_prefix.mp hi
    exact hp.isInfix.trans (List.drop_suffix i s).isInfix
  · rintro ⟨a, b, hab⟩
    refine ⟨a.length, ?_, ?_⟩
    · rw [List.mem_range, ← hab]
      simp only [List.length_append]
      omega
    · rw [List.isPrefixOf_iff_prefix, ← hab]
      simp

theorem compareEq_suffix (s needle : List Char) :
    (decide (s.length ≥ needle.length) &&
      compareEq s (s.length - needle.length) needle.length needle) = true ↔ needle <:+ s := by
  unfold compareEq substr
  rw [Bool.and_eq_true, decide_eq_true_iff, decide_eq_true_iff]
  constructor
  · rintro ⟨_, h2⟩
    have h3 : (s.drop (s.length - needle.length)).take needle.length =
        s.drop (s.length - needle.length) := by
      apply List.take_of_length_le
      rw [List.length_drop]
      omega
    rw [h3] at h2
    rw [← h2]
    exact List.drop_suffix _ _
  · intro hs
    have hl := hs.length_le
    refine ⟨hl, ?_⟩
    rw [← List.suffix_iff_eq_drop.mp hs]
    exact List.take_of_length_le (le_refl _)

theorem sizeSub_of_le (a b : Nat) (hb : b ≤ a) (ha : a < 2 ^ 64) : sizeSub a b = a - b := by
  unfold sizeSub
  have h1 : b % 2 ^ 64 = b := Nat.mod_eq_of_lt (by omega)
  rw [h1]
  omega

theorem getLast_ne_star (s : List Char) (hs : '*' ∉ s) : s.getLast? ≠ some '*' :=
  fun h => hs (List.mem_of_getLast?_eq_some h)

theorem head_ne_star (s : List Char) (hs : '*' ∉ s) : s.head? ≠ some '*' :=
  fun h => hs (List.mem_of_mem_head? h)

theorem glob_trailing_form (norm fn pat : String) (s : List Char) (hs : '*' ∉ s)
    (hp : pat.data = '*' :: s) :
    ruleExcludes norm fn ⟨ExcludeType.Glob, pat⟩ = true ↔ s <:+ fn.data := by
  unfold ruleExcludes
  simp only [hp]
  cases s with
  | nil =>
    simp only [List.getLast?_singleton, List.head?_cons, and_self, if_true]
    have : substr ['*'] 1 (sizeSub 1 2) = [] := rfl
    simp [this, find_isSome]
  | cons c rest =>
    have hl : ('*' :: c :: rest).getLast? ≠ some '*' := by
      rw [List.getLast?_cons_cons]
      exact getLast_ne_star _ hs
    simp only [hl, and_false, if_false, List.head?_cons, if_true, List.drop_succ_cons,
      List.drop_zero]
    simpa using compareEq_suffix fn.data (c :: rest)

theorem glob_leading_form (norm fn pat : String) (s : List Char) (hs : '*' ∉ s) (hne : s ≠ [])
    (hlen : s.length + 2 < 2 ^ 64) (hp : pat.data = s ++ ['*']) :
    ruleExcludes norm fn ⟨ExcludeType.Glob, pat⟩ = true ↔ s <+: fn.data := by
  unfold ruleExcludes
  simp only [hp]
  have hh : (s ++ ['*']).head? ≠ some '*' := by
    cases s with
    | nil => exact absurd rfl hne
    | cons c rest =>
      intro h
      simp only [List.cons_append, List.head?_cons, Option.some.injEq] at h
      exact hs (by simp [h])
  have hl : (s ++ ['*']).getLast? = some '*' := List.getLast?_concat s
  have hsub : substr (s ++ ['*']) 0 (sizeSub (s ++ ['*']).length 1) = s := by
    rw [sizeSub_of_le _ _ (by simp) (by simp; omega)]
    simp [substr]
  simp only [hh, hl, hsub, false_and, if_false, if_true]
  simp [rfind_zero]

theorem glob_inner_form (norm fn pat : String) (s : List Char)
    (hlen : s.length + 2 < 2 ^ 64) (hp : pat.data = '*' :: (s ++ ['*'])) :
    ruleExcludes norm fn ⟨ExcludeType.Glob, pat⟩ = true ↔ s <:+: fn.data := by
  unfold ruleExcludes
  simp only [hp]
  have hl : ('*' :: (s ++ ['*'])).getLast? = some '*' := by
    rw [← List.cons_append]
    exact List.getLast?_concat _
  have hsub : substr ('*' :: (s ++ ['*'])) 1 (sizeSub ('*' :: (s ++ ['*'])).length 2) = s := by
    rw [sizeSub_of_le _ _ (by simp) (by simp; omega)]
    simp [substr]
  simp only [hl, hsub, List.head?_cons, and_self, if_true]
  simp [find_isSome]

theorem glob_exact_form (norm fn pat : String) (hs : '*' ∉ pat.data) (hne : pat.data ≠ []) :
    ruleExcludes norm fn ⟨ExcludeType.Glob, pat⟩ = true ↔ fn = pat := by
  unfold ruleExcludes
  simp [hne, head_ne_star _ hs, getLast_ne_star _ hs]

theorem isExcluded_single (canonical : String → String) (rule : ExcludeRule) (path : String) :
    isExcluded canonical (configOf [rule]) path =
      ruleExcludes (canonical path) (filename path) rule := by
  simp [isExcluded, configOf]


/-- Claim C18 at the failing input, with what the code computes. A single Path rule of
pattern `P` excludes a path exactly when `P` is a prefix of its canonical form, with no test
of the separator: under the rule `/r/a` the sibling `/r/a2` is excluded, although it is not the
pattern and does not start with `/r/a/`. -/
theorem isExcluded_path_rule_sibling :
    (∀ (canonical : String → String) (P path : String),
      isExcluded canonical (configOf [⟨ExcludeType.Path, P⟩]) path = true ↔
        P.data <+: (canonical path).data) ∧
    isExcluded (fun p => p) (configOf [⟨ExcludeType.Path, "/r/a"⟩]) "/r/a2" = true ∧
    "/r/a2" ≠ "/r/a" ∧ ¬ ("/r/a/".data <+: "/r/a2".data) := by
  refine ⟨?_, by decide, by decide, by decide⟩
  intro canonical P path
  rw [isExcluded_single]
  simp [ruleExcludes, rfind_zero]

/-- Claim C19 at the failing input. A Path rule with the empty pattern excludes every path,
while the empty list of rules excludes none; a Glob rule with the empty pattern is skipped,
anywhere in the list. -/
theorem isExcluded_empty_path_rule_excludes_all :
    (∀ (canonical : String → String) (path : String),
      isExcluded canonical (configOf [⟨ExcludeType.Path, ""⟩]) path = true ∧
      isExcluded canonical (configOf []) path = false) ∧
    (∀ (canonical : String → String) (before after : List ExcludeRule) (path : String),
      isExcluded canonical (configOf (before ++ [⟨ExcludeType.Glob, ""⟩] ++ after)) path =
        isExcluded canonical (configOf (before ++ after)) path) := by
  constructor
  · intro canonical path
    constructor
    · rw [isExcluded_single]
      simp [ruleExcludes, rfind_zero]
    · rfl
  · intro canonical before after path
    simp [isExcluded, configOf, ruleExcludes]

/-- Claim C20. For a single Glob rule, a string `s` without `*` (of a length that fits in
`std::size_t`) and a path whose `filename()` is `n`: the pattern `*s` excludes the path iff `n`
ends with `s`; `s*` (`s` non-empty) iff `n` starts with `s`; `*s*` iff `n` contains `s`; `s`
(non-empty) iff `n` equals `s`; the pattern `*` excludes every path; and two paths with the
same `filename()` get the same result from any single Glob rule, whatever their canonical
forms. -/
theorem isExcluded_glob_forms (canonical : String → String) (s path : String)
    (hstar : '*' ∉ s.data) (hlen : s.data.length + 2 < 2 ^ 64) :
    (isExcluded canonical (configOf [⟨ExcludeType.Glob, "*" ++ s⟩]) path = true ↔
      s.data <:+ (filename path).data) ∧
    (s ≠ "" → (isExcluded canonical (configOf [⟨ExcludeType.Glob, s ++ "*"⟩]) path = true ↔
      s.data <+: (filename path).data)) ∧
    (isExcluded canonical (configOf [⟨ExcludeType.Glob, "*" ++ s ++ "*"⟩]) path = true ↔
      s.data <:+: (filename path).data) ∧
    (s ≠ "" → (isExcluded canonical (configOf [⟨ExcludeType.Glob, s⟩]) path = true ↔
      filename path = s)) ∧
    isExcluded canonical (configOf [⟨ExcludeType.Glob, "*"⟩]) path = true ∧
    (∀ (canonical2 : String → String) (rule : ExcludeRule) (path2 : String),
      rule.type = ExcludeType.Glob → filename path2 = filename path →
      isExcluded canonical2 (configOf [rule]) path2 = isExcluded canonical (configOf [rule]) path) := by
  have hne : s ≠ "" → s.data ≠ [] := fun h1 h2 => h1 (String.ext h2)
  refine ⟨?_, ?_, ?_, ?_, ?_, ?_⟩
  · rw [isExcluded_single]
    exact glob_trailing_form _ _ _ s.data hstar (by simp)
  · intro h
    rw [isExcluded_single]
    exact glob_leading_form _ _ _ s.data hstar (hne h) hlen (by simp)
  · rw [isExcluded_single]
    exact glob_inner_form _ _ _ s.data hlen (by simp)
  · intro h
    rw [isExcluded_single]
    exact glob_exact_form _ _ _ hstar (hne h)
  · rw [isExcluded_single]
    exact (glob_trailing_form _ _ "*" [] (by simp) rfl).mpr List.nil_suffix
  · intro canonical2 rule path2 hty hfn
    rw [isExcluded_single, isExcluded_single, hfn]
    unfold ruleExcludes
    rw [hty]

theorem isExcluded_glob_forms_witness :
    '*' ∉ "log".data ∧ "log".data.length + 2 < 2 ^ 64 ∧
    ((isExcluded (fun p => p) (configOf [⟨ExcludeType.Glob, "*" ++ "log"⟩]) "/v/a.log" = true ↔
      "log".data <:+ (filename "/v/a.log").data) ∧
    ("log" ≠ "" →
      (isExcluded (fun p => p) (configOf [⟨ExcludeType.Glob, "log" ++ "*"⟩]) "/v/a.log" = true ↔
        "log".data <+: (filename "/v/a.log").data)) ∧
    (isExcluded (fun p => p) (configOf [⟨ExcludeType.Glob, "*" ++ "log" ++ "*"⟩]) "/v/a.log" = true ↔
      "log".data <:+: (filename "/v/a.log").data) ∧
    ("log" ≠ "" →
      (isExcluded (fun p => p) (configOf [⟨ExcludeType.Glob, "log"⟩]) "/v/a.log" = true ↔
        filename "/v/a.log" = "log")) ∧
    isExcluded (fun p => p) (configOf [⟨ExcludeType.Glob, "*"⟩]) "/v/a.log" = true ∧
    (∀ (canonical2 : String → String) (rule : ExcludeRule) (path2 : String),
      rule.type = ExcludeType.Glob → filename path2 = filename "/v/a.log" →
      isExcluded canonical2 (configOf [rule]) path2 =
        isExcluded (fun p => p) (configOf [rule]) "/v/a.log")) :=
  ⟨by decide, by decide, isExcluded_glob_forms (fun p => p) "log" "/v/a.log" (by decide) (by decide)⟩

end core

/-! ## Further properties of the store and of the worker -/

/-- Claim C13, as amended. For every record `R` whose numeric fields hold values of their C++
types, when neither statement fails, `upsertFileRecord(R)` succeeds and the following
`fetchRecord(R.metadata.path)` returns: the metadata of `R` with an empty `errorReason`, the
status and the scanner version of `R`, `updatedAt` and `lastChecked` of `R` cut to the whole
second, the signature computed at the upsert, `previousHash` equal to the hash of `R`, an empty
`errorReason` and all five change flags false. -/
theorem upsert_then_fetch_fields (env : Env) (db : DatabaseManager) (R : FileRecordEntry)
    (htyped : R.metadata.wellTyped)
    (hup : env.fails db.ops = false) (hfetch : env.fails (db.ops + 1) = false) :
    (db.upsertFileRecord env R).1 = true ∧
    ((db.upsertFileRecord env R).2.fetchRecord env R.metadata.path).1 =
      { metadata := { R.metadata with errorReason := "" }
        signature := db.computeSignature env R.metadata
        updatedAt := R.updatedAt.map (fun ms => ms / 1000 * 1000)
        lastChecked := R.lastChecked.map (fun ms => ms / 1000 * 1000)
        scannerVersion := R.scannerVersion
        status := R.status
        previousHash := R.metadata.hash
        errorReason := ""
        signatureValid :=
          ((db.upsertFileRecord env R).2.fetchRecord env R.metadata.path).1.signatureValid
        metadataChanged := false
        permissionsChanged := false
        ownerChanged := false
        mtimeChanged := false
        inodeChanged := false } := by
  rw [upsertFileRecord_ok env db R hup]
  refine ⟨rfl, ?_⟩
  have hfind := find_upsertRow db.files
    (DatabaseManager.boundRow R (db.computeSignature env R.metadata))
  have hpath : (DatabaseManager.boundRow R (db.computeSignature env R.metadata)).path =
      R.metadata.path := rfl
  rw [hpath] at hfind
  obtain ⟨hs1, hs2, hm1, hm2, hu, hg, hmo, hdev, hino, hhl, hperm⟩ := htyped
  simp only [DatabaseManager.fetchRecord, hfetch, hfind, Bool.false_eq_true, if_false]
  simp only [DatabaseManager.hydrateRecord, DatabaseManager.boundRow, FileRecordEntry.empty,
    toISODate, fromISODate, toLongLong_id _ hs1 hs2, toLongLong_id _ hm1 hm2,
    toUInt_natCast _ hu, toUInt_natCast _ hg, toUInt_natCast _ hmo,
    toULongLong_natCast _ hdev, toULongLong_natCast _ hino, toULongLong_natCast _ hhl,
    toULongLong_natCast _ hperm, Option.map_map]
  rfl

theorem upsert_then_fetch_fields_witness :
    demoFlagged.metadata.wellTyped ∧ demoEnv.fails demoDb.ops = false ∧
    demoEnv.fails (demoDb.ops + 1) = false ∧
    (demoDb.upsertFileRecord demoEnv demoFlagged).1 = true ∧
    ((demoDb.upsertFileRecord demoEnv demoFlagged).2.fetchRecord demoEnv
        demoFlagged.metadata.path).1 =
      { metadata := { demoFlagged.metadata with errorReason := "" }
        signature := demoDb.computeSignature demoEnv demoFlagged.metadata
        updatedAt := demoFlagged.updatedAt.map (fun ms => ms / 1000 * 1000)
        lastChecked := demoFlagged.lastChecked.map (fun ms => ms / 1000 * 1000)
        scannerVersion := demoFlagged.scannerVersion
        status := demoFlagged.status
        previousHash := demoFlagged.metadata.hash
        errorReason := ""
        signatureValid :=
          ((demoDb.upsertFileRecord demoEnv demoFlagged).2.fetchRecord demoEnv
            demoFlagged.metadata.path).1.signatureValid
        metadataChanged := false
        permissionsChanged := false
        ownerChanged := false
        mtimeChanged := false
        inodeChanged := false } :=
  ⟨by decide, rfl, rfl, upsert_then_fetch_fields demoEnv demoDb demoFlagged (by decide) rfl rfl⟩

/-- Claim C13 at a counterexample: a record with `previousHash`, `errorReason`, a change flag
and a time with milliseconds is upserted into an empty store and fetched back; these four
fields of the fetched record differ from those of the record. -/
theorem upsert_then_fetch_loses_fields :
    (demoDb.upsertFileRecord demoEnv demoFlagged).1 = true ∧
    ((demoDb.upsertFileRecord demoEnv demoFlagged).2.fetchRecord demoEnv
        demoFlagged.metadata.path).1.previousHash ≠ demoFlagged.previousHash ∧
    ((demoDb.upsertFileRecord demoEnv demoFlagged).2.fetchRecord demoEnv
        demoFlagged.metadata.path).1.errorReason ≠ demoFlagged.errorReason ∧
    ((demoDb.upsertFileRecord demoEnv demoFlagged).2.fetchRecord demoEnv
        demoFlagged.metadata.path).1.metadataChanged ≠ demoFlagged.metadataChanged ∧
    ((demoDb.upsertFileRecord demoEnv demoFlagged).2.fetchRecord demoEnv
        demoFlagged.metadata.path).1.updatedAt ≠ demoFlagged.updatedAt := by
  decide

theorem foldl_reportRecord {σ : Type} (L : List FileRecordEntry) (st : ScanRun σ)
    (h0 : 0 ≤ st.processedFiles) (h1 : st.processedFiles + L.length ≤ st.totalFiles)
    (hev : ∀ e ∈ st.emitted, e.isTerminal = false ∧ e.progressInRange = true) :
    (L.foldl reportRecord st).processedFiles = st.processedFiles + L.length ∧
    (L.foldl reportRecord st).totalFiles = st.totalFiles ∧
    (L.foldl reportRecord st).aggregated = st.aggregated ∧
    (L.foldl reportRecord st).monitor = st.monitor ∧
    ∀ e ∈ (L.foldl reportRecord st).emitted, e.isTerminal = false ∧ e.progressInRange = true := by
  induction L generalizing st with
  | nil => exact ⟨by simp, rfl, rfl, rfl, hev⟩
  | cons r rest ih =>
    rw [List.foldl_cons]
    simp only [List.length_cons, Nat.cast_add, Nat.cast_one] at h1
    have hstep := ih (reportRecord st r) (by simp only [reportRecord]; omega)
      (by simp only [reportRecord]; omega)
      (by
        intro e he
        simp only [reportRecord, List.mem_append, List.mem_cons, List.mem_singleton,
          List.not_mem_nil, or_false] at he
        rcases he with he | he | he
        · exact hev e he
        · subst he
          refine ⟨rfl, ?_⟩
          simp only [Signal.progressInRange, Bool.and_eq_true, decide_eq_true_iff]
          omega
        · subst he
          exact ⟨rfl, rfl⟩)
    obtain ⟨a1, a2, a3, a4, a5⟩ := hstep
    refine ⟨?_, ?_, ?_, ?_, a5⟩
    · rw [a1]; simp only [reportRecord, List.length_cons, Nat.cast_add, Nat.cast_one]; omega
    · rw [a2]; rfl
    · rw [a3]; rfl
    · rw [a4]; rfl

theorem scanDirectories_inRange {σ : Type}
    (scan : σ → String → Except Thrown (List FileRecordEntry × σ))
    (dirs : List String) (st : ScanRun σ) (h : st.inRange) :
    (scanDirectories scan st dirs).1.inRange := by
  induction dirs generalizing st with
  | nil => exact h
  | cons dir rest ih =>
    obtain ⟨h0, h1, hev⟩ := h
    unfold scanDirectories
    cases hs : scan st.monitor dir with
    | error thrown => exact ⟨h0, h1, hev⟩
    | ok out =>
      obtain ⟨results, monitor⟩ := out
      simp only
      obtain ⟨a1, a2, a3, a4, a5⟩ := foldl_reportRecord results
        { st with
          monitor := monitor, totalFiles := st.totalFiles + results.length
          emitted := st.emitted ++
            [Signal.progressChanged st.processedFiles (st.totalFiles + results.length)] }
        h0 (by simp only; omega)
        (by
          intro e he
          simp only [List.mem_append, List.mem_singleton] at he
          rcases he with he | he
          · exact hev e he
          · subst he
            refine ⟨rfl, ?_⟩
            simp only [Signal.progressInRange, Bool.and_eq_true, decide_eq_true_iff]
            omega)
      apply ih
      refine ⟨?_, ?_, a5⟩
      · show 0 ≤ (List.foldl reportRecord _ results).processedFiles
        rw [a1]; simp only; omega
      · show (List.foldl reportRecord _ results).processedFiles ≤
          (List.foldl reportRecord _ results).totalFiles
        rw [a1, a2]
        simp only
        omega

/-- Claim C17. For every list of directories and every behaviour of `scanDirectory`
(returning or throwing, at any directory), the signals that `startScan` emits are a sequence
`before` followed by one last signal; the last one is `scanFinished` or `scanError`, no signal
of `before` is one of these two, and every `progressChanged(current, total)` of `before` has
`0 ≤ current ≤ total`. -/
theorem startScan_one_terminal_event {σ : Type}
    (scan : σ → String → Except Thrown (List FileRecordEntry × σ)) (monitor : σ)
    (directories : List String) :
    ∃ (before : List Signal) (last : Signal),
      startScan scan monitor directories = before ++ [last] ∧
      ((∃ results, last = Signal.scanFinished results) ∨
        (∃ message, last = Signal.scanError message)) ∧
      (∀ e ∈ before, (∀ results, e ≠ Signal.scanFinished results) ∧
        (∀ message, e ≠ Signal.scanError message)) ∧
      (∀ current total, Signal.progressChanged current total ∈ before →
        0 ≤ current ∧ current ≤ total) := by
  have hinv := scanDirectories_inRange scan directories
    { monitor := monitor, aggregated := [], totalFiles := 0, processedFiles := 0, emitted := [] }
    ⟨le_refl _, le_refl _, by simp⟩
  obtain ⟨h0, h1, hev⟩ := hinv
  have hgood : ∀ (L : List Signal),
      (∀ e ∈ L, e.isTerminal = false ∧ e.progressInRange = true) →
      (∀ e ∈ L, (∀ results, e ≠ Signal.scanFinished results) ∧
        (∀ message, e ≠ Signal.scanError message)) ∧
      (∀ current total, Signal.progressChanged current total ∈ L →
        0 ≤ current ∧ current ≤ total) := by
    intro L hL
    constructor
    · intro e he
      have := (hL e he).1
      constructor
      · intro results hr; subst hr; simp [Signal.isTerminal] at this
      · intro message hr; subst hr; simp [Signal.isTerminal] at this
    · intro current total he
      have := (hL _ he).2
      simpa [Signal.progressInRange] using this
  obtain ⟨run, hrun⟩ : ∃ run : ScanRun σ × Option Thrown, run = scanDirectories scan
      { monitor := monitor, aggregated := [], totalFiles := 0, processedFiles := 0, emitted := [] }
      directories := ⟨_, rfl⟩
  rw [← hrun] at h0 h1 hev
  obtain ⟨st, thrown⟩ := run
  simp only at h0 h1 hev
  cases thrown with
  | none =>
    have hstart : startScan scan monitor directories =
        st.emitted ++
          [Signal.progressChanged st.processedFiles st.totalFiles,
            Signal.scanFinished st.aggregated] := by
      unfold startScan
      rw [← hrun]
    rw [hstart]
    refine ⟨st.emitted ++ [Signal.progressChanged st.processedFiles st.totalFiles],
      Signal.scanFinished st.aggregated, by simp, Or.inl ⟨_, rfl⟩, ?_⟩
    apply hgood
    intro e he
    simp only [List.mem_append, List.mem_singleton] at he
    rcases he with he | he
    · exact hev e he
    · subst he
      refine ⟨rfl, ?_⟩
      simp only [Signal.progressInRange, Bool.and_eq_true, decide_eq_true_iff]
      exact ⟨h0, h1⟩
  | some thrown =>
    cases thrown with
    | stdException what =>
      have hstart : startScan scan monitor directories =
          st.emitted ++ [Signal.scanError what] := by
        unfold startScan
        rw [← hrun]
      rw [hstart]
      exact ⟨st.emitted, Signal.scanError what, rfl, Or.inr ⟨_, rfl⟩, hgood _ hev⟩
    | other =>
      have hstart : startScan scan monitor directories =
          st.emitted ++ [Signal.scanError "Неизвестная ошибка при сканировании"] := by
        unfold startScan
        rw [← hrun]
      rw [hstart]
      exact ⟨st.emitted, Signal.scanError "Неизвестная ошибка при сканировании", rfl,
        Or.inr ⟨_, rfl⟩, hgood _ hev⟩


theorem scanDirectories_monitorScan (env : Env) (disk : Disk) (ver : String)
    (scanned : String → List FileMetadata) (dirs : List String) (st : ScanRun DatabaseManager) :
    (scanDirectories (monitorScan env disk ver scanned) st dirs).2 = none := by
  induction dirs generalizing st with
  | nil => rfl
  | cons dir rest ih =>
    unfold scanDirectories
    simp only [monitorScan]
    exact ih _

theorem startScan_no_throw {σ : Type}
    (scan : σ → String → Except Thrown (List FileRecordEntry × σ)) (monitor : σ)
    (dirs : List String)
    (h : (scanDirectories scan
      { monitor := monitor, aggregated := [], totalFiles := 0, processedFiles := 0, emitted := [] }
      dirs).2 = none) :
    startScan scan monitor dirs =
      (scanDirectories scan
        { monitor := monitor, aggregated := [], totalFiles := 0, processedFiles := 0,
          emitted := [] } dirs).1.emitted ++
        [Signal.progressChanged
          (scanDirectories scan
            { monitor := monitor, aggregated := [], totalFiles := 0, processedFiles := 0,
              emitted := [] } dirs).1.processedFiles
          (scanDirectories scan
            { monitor := monitor, aggregated := [], totalFiles := 0, processedFiles := 0,
              emitted := [] } dirs).1.totalFiles,
          Signal.scanFinished
            (scanDirectories scan
              { monitor := monitor, aggregated := [], totalFiles := 0, processedFiles := 0,
                emitted := [] } dirs).1.aggregated] := by
  unfold startScan
  simp only [h]

/-- Claim C16, as amended. Over `FileMonitor::scanDirectory`, whatever statement of the
store fails, `startScan` ends with `scanFinished` and emits no `scanError`; for one directory
`scanFinished` carries exactly the records that `scanDirectory` returned; and when
`beginTransaction` fails these are the single record of status `Error` whose `errorReason` is
the last error of the store. -/
theorem startScan_store_failure_scanFinished (env : Env) (disk : Disk) (ver : String)
    (scanned : String → List FileMetadata) (db : DatabaseManager) :
    (∀ dirs : List String, ∃ (before : List Signal) (results : List FileRecordEntry),
      startScan (monitorScan env disk ver scanned) db dirs =
        before ++ [Signal.scanFinished results] ∧
      ∀ e ∈ before, ∀ message, e ≠ Signal.scanError message) ∧
    (∀ dir : String, ∃ before : List Signal,
      startScan (monitorScan env disk ver scanned) db [dir] =
        before ++ [Signal.scanFinished (scanDirectory env disk ver db dir (scanned dir)).1]) ∧
    (∀ dir : String, disk.isDir dir = true →
      ((db.fetchAllRecords env).2.beginTransaction env).1 = false →
      (scanDirectory env disk ver db dir (scanned dir)).1 =
        [{ FileRecordEntry.empty with
            status := "Error"
            errorReason := ((db.fetchAllRecords env).2.beginTransaction env).2.lastError }]) := by
  refine ⟨?_, ?_, ?_⟩
  · intro dirs
    obtain ⟨_, _, hev⟩ := scanDirectories_inRange (monitorScan env disk ver scanned) dirs
      { monitor := db, aggregated := [], totalFiles := 0, processedFiles := 0, emitted := [] }
      ⟨le_refl _, le_refl _, by simp⟩
    rw [startScan_no_throw _ _ _ (scanDirectories_monitorScan env disk ver scanned dirs _)]
    generalize scanDirectories (monitorScan env disk ver scanned)
      { monitor := db, aggregated := [], totalFiles := 0, processedFiles := 0, emitted := [] }
      dirs = run at hev
    refine ⟨run.1.emitted ++ [Signal.progressChanged run.1.processedFiles run.1.totalFiles],
      run.1.aggregated, by simp, ?_⟩
    intro e he message hm
    simp only [List.mem_append, List.mem_singleton] at he
    rcases he with he | he
    · have := (hev e he).1
      rw [hm] at this
      simp [Signal.isTerminal] at this
    · rw [hm] at he
      cases he
  · intro dir
    rw [startScan_no_throw _ _ _ (scanDirectories_monitorScan env disk ver scanned [dir] _)]
    have hagg : (scanDirectories (monitorScan env disk ver scanned)
        { monitor := db, aggregated := [], totalFiles := 0, processedFiles := 0, emitted := [] }
        [dir]).1.aggregated = (scanDirectory env disk ver db dir (scanned dir)).1 := by
      simp only [scanDirectories, monitorScan]
      obtain ⟨_, _, a3, _, _⟩ := foldl_reportRecord
        (scanDirectory env disk ver db dir (scanned dir)).1
        { monitor := (scanDirectory env disk ver db dir (scanned dir)).2, aggregated := []
          totalFiles := 0 + ((scanDirectory env disk ver db dir (scanned dir)).1.length : Int)
          processedFiles := 0
          emitted := [] ++ [Signal.progressChanged 0
            (0 + ((scanDirectory env disk ver db dir (scanned dir)).1.length : Int))] }
        (le_refl _) (by simp only; omega)
        (by
          intro e he
          simp only [List.nil_append, List.mem_singleton] at he
          subst he
          refine ⟨rfl, ?_⟩
          simp only [Signal.progressInRange, Bool.and_eq_true, decide_eq_true_iff]
          omega)
      rw [a3]
      simp
    rw [hagg]
    generalize scanDirectories (monitorScan env disk ver scanned)
      { monitor := db, aggregated := [], totalFiles := 0, processedFiles := 0, emitted := [] }
      [dir] = run
    exact ⟨run.1.emitted ++ [Signal.progressChanged run.1.processedFiles run.1.totalFiles],
      by simp⟩
  · intro dir hdir hbegin
    unfold scanDirectory
    simp [hdir, hbegin]

/-- Claim C16 at a counterexample: the store is locked when the scan of `/r` begins its
transaction; `beginTransaction` returns false and the last signal is `scanFinished` with the
record of the failure, not `scanError`. -/
theorem startScan_begin_fails_scanFinished :
    ((demoDb.fetchAllRecords demoLockedEnv).2.beginTransaction demoLockedEnv).1 = false ∧
    startScan (monitorScan demoLockedEnv demoDisk "1" (fun _ => [])) demoDb ["/r"] =
      [Signal.progressChanged 0 1, Signal.progressChanged 1 1, Signal.fileProcessed "",
        Signal.progressChanged 1 1,
        Signal.scanFinished
          [{ FileRecordEntry.empty with status := "Error", errorReason := "database is locked" }]] := by
  decide

/-! ## The history kept by the storage adapter -/

theorem foldl_upsert_history (env : Env) (files : List core.FileMetadata) (db : DatabaseManager) :
    (files.foldl
      (fun d m => (d.upsertFileRecord env (QtStorageAdapter.buildRecord (env.clock d.ops) m)).2)
      db).scan_history = db.scan_history := by
  induction files generalizing db with
  | nil => rfl
  | cons m rest ih =>
    rw [List.foldl_cons, ih]
    unfold DatabaseManager.upsertFileRecord
    by_cases h : env.fails db.ops = true <;> simp [h]

/-- Claim C12 at the failing input, for every state of the store and every reconciliation.
When no statement fails, after `compareAndPersist` has run over the adapter the table
`scan_history` is empty and `loadHistory` returns nothing under any limit: the events stored
before the call and those appended during it are deleted by the `saveCurrentState` that ends
the call, through `clearAllRecords`. -/
theorem compareAndPersist_clears_history (env : Env) (db : DatabaseManager)
    (clock : Nat → Int) (newState oldState : List core.FileMetadata)
    (hnf : ∀ n, env.fails n = false) :
    (QtStorageAdapter.persist env db
      (core.compareAndPersist true clock newState oldState)).scan_history = [] ∧
    ∀ limit : Int,
      (QtStorageAdapter.loadHistory env
        (QtStorageAdapter.persist env db (core.compareAndPersist true clock newState oldState))
        limit).1 = [] := by
  have h1 : (QtStorageAdapter.persist env db
      (core.compareAndPersist true clock newState oldState)).scan_history = [] := by
    simp only [QtStorageAdapter.persist, core.compareAndPersist, Bool.true_eq_false, if_false,
      QtStorageAdapter.saveCurrentState]
    rw [foldl_upsert_history]
    simp [DatabaseManager.clearAllRecords, hnf]
  refine ⟨h1, ?_⟩
  intro limit
  simp [QtStorageAdapter.loadHistory, DatabaseManager.fetchHistory, hnf, h1]

theorem compareAndPersist_clears_history_witness :
    (∀ n, demoEnv.fails n = false) ∧
    demoHistoryDb.scan_history ≠ [] ∧
    (core.compareAndPersist true (fun _ => 0) [{ core.demoA with hash := "h2" }]
      [core.demoA]).history ≠ [] ∧
    (QtStorageAdapter.persist demoEnv demoHistoryDb
      (core.compareAndPersist true (fun _ => 0) [{ core.demoA with hash := "h2" }]
        [core.demoA])).scan_history = [] ∧
    ∀ limit : Int,
      (QtStorageAdapter.loadHistory demoEnv
        (QtStorageAdapter.persist demoEnv demoHistoryDb
          (core.compareAndPersist true (fun _ => 0) [{ core.demoA with hash := "h2" }]
            [core.demoA]))
        limit).1 = [] :=
  ⟨fun _ => rfl, by decide, by decide,
    compareAndPersist_clears_history demoEnv demoHistoryDb (fun _ => 0)
      [{ core.demoA with hash := "h2" }] [core.demoA] (fun _ => rfl)⟩

/-! ## The transaction of the scan -/

theorem written_skip {σ γ : Type} (saved : σ → Option γ) (pre : List StoreCall) (c0 : γ)
    (store : σ) (body : List StoreCall) (hsaved : saved store = some c0)
    (hbody : ∀ x ∈ body, x.continues = true) :
    Written saved pre c0 (true, store, pre ++ body) :=
  ⟨hsaved, Or.inl ⟨rfl, body, rfl, hbody⟩⟩

theorem written_insert {σ γ : Type} (S : Store σ) (content : σ → γ) (saved : σ → Option γ)
    (htx : Transactional S content saved) (pre : List StoreCall) (c0 : γ)
    (store : σ) (body : List StoreCall) (hsaved : saved store = some c0)
    (hbody : ∀ x ∈ body, x.continues = true) (p : String) (o n : Int) (oh nh c : String) :
    Written saved pre c0 (tracedInsert S store (pre ++ body) p o n oh nh c) := by
  refine ⟨by simp only [tracedInsert]; rw [htx.insert_saved]; exact hsaved, ?_⟩
  cases hr : (S.insertHistoryRecord store p o n oh nh c).1 with
  | true =>
    refine Or.inl ⟨by simp [tracedInsert, hr], body ++ [StoreCall.insertHistoryRecord p true],
      by simp [tracedInsert, hr], ?_⟩
    intro x hx
    rcases List.mem_append.mp hx with hx | hx
    · exact hbody x hx
    · rw [List.mem_singleton.mp hx]; rfl
  | false =>
    exact Or.inr ⟨by simp [tracedInsert, hr], body, StoreCall.insertHistoryRecord p false,
      by simp [tracedInsert, hr], hbody, rfl⟩

theorem written_upsert {σ γ : Type} (S : Store σ) (content : σ → γ) (saved : σ → Option γ)
    (htx : Transactional S content saved) (pre : List StoreCall) (c0 : γ)
    (store : σ) (body : List StoreCall) (hsaved : saved store = some c0)
    (hbody : ∀ x ∈ body, x.continues = true) (record : FileRecordEntry) :
    Written saved pre c0 (tracedUpsert S store (pre ++ body) record) := by
  refine ⟨by simp only [tracedUpsert]; rw [htx.upsert_saved]; exact hsaved, ?_⟩
  cases hr : (S.upsertFileRecord store record).1 with
  | true =>
    refine Or.inl ⟨by simp [tracedUpsert, hr],
      body ++ [StoreCall.upsertFileRecord record.metadata.path true],
      by simp [tracedUpsert, hr], ?_⟩
    intro x hx
    rcases List.mem_append.mp hx with hx | hx
    · exact hbody x hx
    · rw [List.mem_singleton.mp hx]; rfl
  | false =>
    exact Or.inr ⟨by simp [tracedUpsert, hr], body,
      StoreCall.upsertFileRecord record.metadata.path false,
      by simp [tracedUpsert, hr], hbody, rfl⟩

theorem abortScan_aborted {σ γ : Type} (S : Store σ) (content : σ → γ) (saved : σ → Option γ)
    (htx : Transactional S content saved) (pre : List StoreCall) (c0 : γ)
    (st : TracedLoop σ) (r : Bool × σ × List StoreCall) (record : FileRecordEntry)
    (hw : Written saved pre c0 r) (hr : r.1 = false) :
    Aborted content pre c0 (abortScan S st r.2.1 r.2.2 record) := by
  obtain ⟨hsaved, h | h⟩ := hw
  · rw [hr] at h; cases h.1
  · obtain ⟨_, body, c, hcalls, hbody, hc⟩ := h
    refine ⟨rfl, htx.rollback_restores _ c0 hsaved, body, c, ?_, hbody, hc⟩
    simp [abortScan, hcalls]

theorem written_insertHistoryFor {σ γ : Type} (S : Store σ) (content : σ → γ)
    (saved : σ → Option γ) (htx : Transactional S content saved) (pre : List StoreCall) (c0 : γ)
    (store : σ) (body : List StoreCall) (hsaved : saved store = some c0)
    (hbody : ∀ x ∈ body, x.continues = true) (record oldRecord : FileRecordEntry) :
    Written saved pre c0 (insertHistoryFor S store (pre ++ body) record oldRecord) := by
  unfold insertHistoryFor
  simp only
  by_cases h1 : decide (oldRecord.metadata.path ≠ "") = false
  · rw [if_pos h1]
    exact written_insert S content saved htx pre c0 store body hsaved hbody _ _ _ _ _ _
  · rw [if_neg h1]
    by_cases h2 : decide ((if oldRecord.status = "" then "Ok" else oldRecord.status) ≠
        record.status) = true ∨ decide (oldRecord.metadata.hash ≠ record.metadata.hash) = true
    · rw [if_pos h2]
      exact written_insert S content saved htx pre c0 store body hsaved hbody _ _ _ _ _ _
    · rw [if_neg h2]
      exact written_skip saved pre c0 store body hsaved hbody

theorem written_upsertFor {σ γ : Type} (S : Store σ) (content : σ → γ)
    (saved : σ → Option γ) (htx : Transactional S content saved) (pre : List StoreCall) (c0 : γ)
    (store : σ) (body : List StoreCall) (hsaved : saved store = some c0)
    (hbody : ∀ x ∈ body, x.continues = true) (record oldRecord : FileRecordEntry) :
    Written saved pre c0 (upsertFor S store (pre ++ body) record oldRecord) := by
  unfold upsertFor
  simp only
  generalize (if oldRecord.status = "" then "Ok" else oldRecord.status) = oldStatus
  split
  · exact written_upsert S content saved htx pre c0 store body hsaved hbody _
  · exact written_skip saved pre c0 store body hsaved hbody

theorem written_insertHistoryForDeleted {σ γ : Type} (S : Store σ) (content : σ → γ)
    (saved : σ → Option γ) (htx : Transactional S content saved) (pre : List StoreCall) (c0 : γ)
    (store : σ) (body : List StoreCall) (hsaved : saved store = some c0)
    (hbody : ∀ x ∈ body, x.continues = true) (existing deleted : FileRecordEntry) :
    Written saved pre c0 (insertHistoryForDeleted S store (pre ++ body) existing deleted) := by
  unfold insertHistoryForDeleted
  simp only
  generalize (if existing.status = "" then "Ok" else existing.status) = oldStatus
  split
  · exact written_insert S content saved htx pre c0 store body hsaved hbody _ _ _ _ _ _
  · exact written_skip saved pre c0 store body hsaved hbody

theorem persistRecordTraced_inv {σ γ : Type} (S : Store σ) (content : σ → γ)
    (saved : σ → Option γ) (htx : Transactional S content saved) (disk : Disk)
    (pre : List StoreCall) (c0 : γ) (st : TracedLoop σ) (seenInodes : List String) (store : σ)
    (body : List StoreCall) (record oldRecord : FileRecordEntry)
    (hsaved : saved store = some c0) (hbody : ∀ x ∈ body, x.continues = true) :
    Running saved pre c0
        (persistRecordTraced S disk st seenInodes store (pre ++ body) record oldRecord) ∨
      Aborted content pre c0
        (persistRecordTraced S disk st seenInodes store (pre ++ body) record oldRecord) := by
  unfold persistRecordTraced
  simp only
  have hins := written_insertHistoryFor S content saved htx pre c0 store body hsaved hbody
    record oldRecord
  generalize insertHistoryFor S store (pre ++ body) record oldRecord = inserted at hins ⊢
  by_cases hi : inserted.1 = false
  · rw [if_pos hi]
    exact Or.inr (abortScan_aborted S content saved htx pre c0 _ inserted record hins hi)
  · rw [if_neg hi]
    obtain ⟨hsaved1, h | h⟩ := hins
    swap
    · exact absurd h.1 hi
    obtain ⟨_, body1, hcalls1, hbody1⟩ := h
    rw [hcalls1]
    have hups := written_upsertFor S content saved htx pre c0 inserted.2.1 body1 hsaved1 hbody1
      record oldRecord
    generalize upsertFor S inserted.2.1 (pre ++ body1) record oldRecord = upserted at hups ⊢
    by_cases hu : upserted.1 = false
    · rw [if_pos hu]
      exact Or.inr (abortScan_aborted S content saved htx pre c0 _ upserted record hups hu)
    · rw [if_neg hu]
      obtain ⟨hsaved2, h | h⟩ := hups
      swap
      · exact absurd h.1 hu
      obtain ⟨_, body2, hcalls2, hbody2⟩ := h
      exact Or.inl ⟨rfl, hsaved2, body2, hcalls2, hbody2⟩

theorem scanFileTraced_inv {σ γ : Type} (S : Store σ) (content : σ → γ)
    (saved : σ → Option γ) (htx : Transactional S content saved) (disk : Disk) (ver : String)
    (pre : List StoreCall) (c0 : γ) (st : TracedLoop σ) (metadata : FileMetadata)
    (h : Running saved pre c0 st) :
    Running saved pre c0 (scanFileTraced S disk ver st metadata) ∨
      Aborted content pre c0 (scanFileTraced S disk ver st metadata) := by
  obtain ⟨hret, hsaved, body, hcalls, hbody⟩ := h
  unfold scanFileTraced
  simp only
  split
  · exact Or.inl ⟨hret, hsaved, body, hcalls, hbody⟩
  · split
    · exact Or.inl ⟨hret, hsaved, body, hcalls, hbody⟩
    · rw [hcalls, List.append_assoc]
      apply persistRecordTraced_inv S content saved htx
      · rw [htx.fetchRecord_saved]; exact hsaved
      · intro x hx
        rcases List.mem_append.mp hx with hx | hx
        · exact hbody x hx
        · rw [List.mem_singleton.mp hx]; rfl

theorem checkDeletedTraced_inv {σ γ : Type} (S : Store σ) (content : σ → γ)
    (saved : σ → Option γ) (htx : Transactional S content saved) (disk : Disk)
    (baseWithSep : String) (now : QDateTime)
    (pre : List StoreCall) (c0 : γ) (st : TracedLoop σ) (existing : FileRecordEntry)
    (h : Running saved pre c0 st) :
    Running saved pre c0 (checkDeletedTraced S disk baseWithSep now st existing) ∨
      Aborted content pre c0 (checkDeletedTraced S disk baseWithSep now st existing) := by
  have h0 := h
  obtain ⟨hret, hsaved, body, hcalls, hbody⟩ := h
  unfold checkDeletedTraced
  simp only
  split
  · exact Or.inl h0
  · split
    · exact Or.inl h0
    · split
      · exact Or.inl h0
      · rw [hcalls]
        have hins := written_insertHistoryForDeleted S content saved htx pre c0 st.store body
          hsaved hbody existing (buildDeletedRecord existing now)
        generalize insertHistoryForDeleted S st.store (pre ++ body) existing
          (buildDeletedRecord existing now) = inserted at hins ⊢
        by_cases hi : inserted.1 = false
        · rw [if_pos hi]
          exact Or.inr (abortScan_aborted S content saved htx pre c0 _ inserted _ hins hi)
        · rw [if_neg hi]
          obtain ⟨hsaved1, h | h⟩ := hins
          swap
          · exact absurd h.1 hi
          obtain ⟨_, body1, hcalls1, hbody1⟩ := h
          rw [hcalls1]
          have hups := written_upsert S content saved htx pre c0 inserted.2.1 body1 hsaved1
            hbody1 (buildDeletedRecord existing now)
          generalize tracedUpsert S inserted.2.1 (pre ++ body1)
            (buildDeletedRecord existing now) = upserted at hups ⊢
          by_cases hu : upserted.1 = false
          · rw [if_pos hu]
            exact Or.inr (abortScan_aborted S content saved htx pre c0 _ upserted _ hups hu)
          · rw [if_neg hu]
            obtain ⟨hsaved2, h | h⟩ := hups
            swap
            · exact absurd h.1 hu
            obtain ⟨_, body2, hcalls2, hbody2⟩ := h
            exact Or.inl ⟨hret, hsaved2, body2, hcalls2, hbody2⟩

theorem runLoopTraced_inv {σ γ α : Type} (content : σ → γ) (saved : σ → Option γ)
    (pre : List StoreCall) (c0 : γ) (body : TracedLoop σ → α → TracedLoop σ)
    (hstep : ∀ st x, Running saved pre c0 st →
      Running saved pre c0 (body st x) ∨ Aborted content pre c0 (body st x))
    (items : List α) (st : TracedLoop σ) (h : Running saved pre c0 st) :
    Running saved pre c0 (runLoopTraced body st items) ∨
      Aborted content pre c0 (runLoopTraced body st items) := by
  induction items generalizing st with
  | nil => exact Or.inl h
  | cons x rest ih =>
    unfold runLoopTraced
    rcases hstep st x h with h1 | h1
    · rw [if_neg (by rw [h1.1]; simp)]
      exact ih _ h1
    · rw [if_pos h1.1]
      exact Or.inr h1


theorem databaseStore_transactional (env : Env) :
    Transactional (databaseStore env) (fun d => (d.files, d.scan_history))
      (fun d => d.snapshot) where
  fetchAll_content := by
    intro s
    simp only [databaseStore, DatabaseManager.fetchAllRecords, DatabaseManager.failed]
    split <;> rfl
  begin_saves := by
    intro s h
    simp only [databaseStore, DatabaseManager.beginTransaction, DatabaseManager.failed] at h ⊢
    split at h
    · cases h
    · rw [if_neg (by assumption)]
  fetchRecord_saved := by
    intro s p
    simp only [databaseStore, DatabaseManager.fetchRecord, DatabaseManager.failed]
    split
    · rfl
    · split <;> rfl
  insert_saved := by
    intro s p o n oh nh c
    simp only [databaseStore, DatabaseManager.insertHistoryRecord, DatabaseManager.failed]
    split <;> rfl
  upsert_saved := by
    intro s r
    simp only [databaseStore, DatabaseManager.upsertFileRecord]
    split <;> rfl
  commit_saved := by
    intro s h
    simp only [databaseStore, DatabaseManager.commitTransaction, DatabaseManager.failed] at h ⊢
    split at h
    · rw [if_pos (by assumption)]
    · cases h
  rollback_restores := by
    intro s c h
    simp only [databaseStore, DatabaseManager.rollbackTransaction] at h ⊢
    rw [h]

/-- Claim C15. Over every store that is transactional (a successful `beginTransaction` saves
the content, the calls made inside the transaction keep what is saved, a rollback restores
it), when `beginTransaction` has succeeded the calls that `scanDirectory` makes on the store
are: `fetchAllRecords`, `beginTransaction`, calls that are reads or successful writes, and then
either one successful `commitTransaction`, or one failed `insertHistoryRecord`,
`upsertFileRecord` or `commitTransaction` followed by `rollbackTransaction` and nothing else;
in the second case the content of the store is the one from before the scan. -/
theorem scanDirectoryTraced_transaction {σ γ : Type} (S : Store σ) (content : σ → γ)
    (saved : σ → Option γ) (htx : Transactional S content saved) (disk : Disk) (ver : String)
    (store : σ) (dir : String) (scanned : List FileMetadata)
    (hdir : disk.isDir dir = true)
    (hbegin : (S.beginTransaction (S.fetchAllRecords store).2).1 = true) :
    ∃ body : List StoreCall, (∀ c ∈ body, c.continues = true) ∧
      ((scanDirectoryTraced S disk ver store dir scanned).calls =
          [StoreCall.fetchAllRecords, StoreCall.beginTransaction true] ++ body ++
            [StoreCall.commitTransaction true] ∨
        ∃ c : StoreCall, c.failedWrite = true ∧
          (scanDirectoryTraced S disk ver store dir scanned).calls =
            [StoreCall.fetchAllRecords, StoreCall.beginTransaction true] ++ body ++
              [c, StoreCall.rollbackTransaction] ∧
          content (scanDirectoryTraced S disk ver store dir scanned).store = content store) := by
  have hstart : Running saved [StoreCall.fetchAllRecords, StoreCall.beginTransaction true]
      (content store)
      { store := (S.beginTransaction (S.fetchAllRecords store).2).2
        calls := [StoreCall.fetchAllRecords, StoreCall.beginTransaction true]
        results := [], seenInodes := [], seenPaths := [], returned := false } := by
    refine ⟨rfl, ?_, [], by simp, by simp⟩
    show saved (S.beginTransaction (S.fetchAllRecords store).2).2 = some (content store)
    rw [htx.begin_saves _ hbegin, htx.fetchAll_content]
  have hfinish : ∀ st : TracedLoop σ,
      Aborted content [StoreCall.fetchAllRecords, StoreCall.beginTransaction true]
        (content store) st →
      ∃ body : List StoreCall, (∀ c ∈ body, c.continues = true) ∧
        (st.calls = [StoreCall.fetchAllRecords, StoreCall.beginTransaction true] ++ body ++
            [StoreCall.commitTransaction true] ∨
          ∃ c : StoreCall, c.failedWrite = true ∧
            st.calls = [StoreCall.fetchAllRecords, StoreCall.beginTransaction true] ++ body ++
              [c, StoreCall.rollbackTransaction] ∧
            content st.store = content store) := by
    rintro st ⟨_, hc, body, c, hcalls, hbody, hfw⟩
    exact ⟨body, hbody, Or.inr ⟨c, hfw, hcalls, hc⟩⟩
  unfold scanDirectoryTraced
  simp only [hdir, hbegin, Bool.true_eq_false, if_false]
  have h1 := runLoopTraced_inv content saved _ (content store)
    (scanFileTraced S disk ver)
    (fun st x h => scanFileTraced_inv S content saved htx disk ver _ _ st x h) scanned _ hstart
  generalize runLoopTraced (scanFileTraced S disk ver)
    { store := (S.beginTransaction (S.fetchAllRecords store).2).2
      calls := [StoreCall.fetchAllRecords, StoreCall.beginTransaction true]
      results := [], seenInodes := [], seenPaths := [], returned := false } scanned = st1 at h1 ⊢
  rcases h1 with h1 | h1
  swap
  · rw [if_pos h1.1]
    exact hfinish st1 h1
  rw [if_neg (by rw [h1.1]; simp)]
  have h2 := runLoopTraced_inv content saved _ (content store)
    (checkDeletedTraced S disk
      (if endsWith (disk.absolutePath dir) "/" = true then disk.absolutePath dir
        else disk.absolutePath dir ++ "/")
      (some (S.currentDateTimeUtc st1.store)))
    (fun st x h => checkDeletedTraced_inv S content saved htx disk _ _ _ _ st x h)
    (S.fetchAllRecords store).1 st1 h1
  generalize runLoopTraced (checkDeletedTraced S disk
      (if endsWith (disk.absolutePath dir) "/" = true then disk.absolutePath dir
        else disk.absolutePath dir ++ "/")
      (some (S.currentDateTimeUtc st1.store))) st1 (S.fetchAllRecords store).1 = st2 at h2 ⊢
  rcases h2 with h2 | h2
  swap
  · rw [if_pos h2.1]
    exact hfinish st2 h2
  rw [if_neg (by rw [h2.1]; simp)]
  obtain ⟨_, hsaved, body, hcalls, hbody⟩ := h2
  refine ⟨body, hbody, ?_⟩
  by_cases hcommit : (S.commitTransaction st2.store).1 = false
  · rw [if_pos hcommit]
    refine Or.inr ⟨StoreCall.commitTransaction false, rfl, ?_, ?_⟩
    · simp [hcalls, hcommit]
    · exact htx.rollback_restores _ _ (by rw [htx.commit_saved _ hcommit]; exact hsaved)
  · rw [if_neg hcommit]
    have hc : (S.commitTransaction st2.store).1 = true := by simpa using hcommit
    exact Or.inl (by simp [hcalls, hc])

theorem scanDirectoryTraced_transaction_witness :
    Transactional (databaseStore demoFailingEnv) (fun d => (d.files, d.scan_history))
      (fun d => d.snapshot) ∧
    demoDisk.isDir "/r" = true ∧
    ((databaseStore demoFailingEnv).beginTransaction
      ((databaseStore demoFailingEnv).fetchAllRecords demoDb).2).1 = true ∧
    ∃ body : List StoreCall, (∀ c ∈ body, c.continues = true) ∧
      ((scanDirectoryTraced (databaseStore demoFailingEnv) demoDisk "1" demoDb "/r"
            [demoFile]).calls =
          [StoreCall.fetchAllRecords, StoreCall.beginTransaction true] ++ body ++
            [StoreCall.commitTransaction true] ∨
        ∃ c : StoreCall, c.failedWrite = true ∧
          (scanDirectoryTraced (databaseStore demoFailingEnv) demoDisk "1" demoDb "/r"
              [demoFile]).calls =
            [StoreCall.fetchAllRecords, StoreCall.beginTransaction true] ++ body ++
              [c, StoreCall.rollbackTransaction] ∧
          (fun d : DatabaseManager => (d.files, d.scan_history))
              (scanDirectoryTraced (databaseStore demoFailingEnv) demoDisk "1" demoDb "/r"
                [demoFile]).store =
            (fun d : DatabaseManager => (d.files, d.scan_history)) demoDb) :=
  ⟨databaseStore_transactional demoFailingEnv, rfl, by decide,
    scanDirectoryTraced_transaction (databaseStore demoFailingEnv) _ _
      (databaseStore_transactional demoFailingEnv) demoDisk "1" demoDb "/r" [demoFile] rfl
      (by decide)⟩

theorem persistRecordTraced_toScanLoop (env : Env) (disk : Disk)
    (st : TracedLoop DatabaseManager) (seenInodes : List String) (db : DatabaseManager)
    (calls : List StoreCall) (record oldRecord : FileRecordEntry) :
    (persistRecordTraced (databaseStore env) disk st seenInodes db calls record
      oldRecord).toScanLoop =
      persistRecord env disk st.toScanLoop seenInodes db record oldRecord := by
  unfold persistRecordTraced persistRecord insertHistoryFor upsertFor tracedInsert tracedUpsert
  simp only [databaseStore, TracedLoop.toScanLoop, abortScan]
  generalize (if oldRecord.status = "" then "Ok" else oldRecord.status) = oldStatus
  by_cases h1 : decide (oldRecord.metadata.path ≠ "") = false
  · simp only [h1, if_true, true_or]
    generalize DatabaseManager.insertHistoryRecord env db record.metadata.path (-1)
      (statusCode record.status) oldRecord.metadata.hash record.metadata.hash
      "Новый файл обнаружен" = ri
    obtain ⟨b, d⟩ := ri
    cases b
    · simp
    · simp only [Bool.true_eq_false, if_false]
      generalize DatabaseManager.upsertFileRecord env d record = ru
      obtain ⟨b2, d2⟩ := ru
      cases b2 <;> simp
  · simp only [h1, if_false, false_or]
    by_cases h2 : decide (oldStatus ≠ record.status) = true ∨
        decide (oldRecord.metadata.hash ≠ record.metadata.hash) = true
    · have h3 : decide (oldStatus ≠ record.status) = true ∨
          decide (oldRecord.metadata.hash ≠ record.metadata.hash) = true ∨
            record.metadataChanged = true :=
        h2.elim Or.inl (fun h => Or.inr (Or.inl h))
      simp only [h2, h3, if_true]
      generalize DatabaseManager.insertHistoryRecord env db record.metadata.path
        (statusCode oldStatus) (statusCode record.status) oldRecord.metadata.hash
        record.metadata.hash "" = ri
      obtain ⟨b, d⟩ := ri
      cases b
      · simp
      · simp only [Bool.true_eq_false, if_false]
        generalize DatabaseManager.upsertFileRecord env d record = ru
        obtain ⟨b2, d2⟩ := ru
        cases b2 <;> simp
    · simp only [h2, if_false]
      have h3 : (decide (oldStatus ≠ record.status) = true ∨
          decide (oldRecord.metadata.hash ≠ record.metadata.hash) = true ∨
            record.metadataChanged = true) ↔ record.metadataChanged = true := by
        constructor
        · rintro (h | h | h)
          · exact absurd (Or.inl h) h2
          · exact absurd (Or.inr h) h2
          · exact h
        · exact fun h => Or.inr (Or.inr h)
      simp only [h3]
      by_cases h4 : record.metadataChanged = true
      · simp only [h4, if_true, Bool.true_eq_false, if_false]
        generalize DatabaseManager.upsertFileRecord env db record = ru
        obtain ⟨b2, d2⟩ := ru
        cases b2 <;> simp
      · simp [h4]

theorem scanFileTraced_toScanLoop (env : Env) (disk : Disk) (ver : String)
    (st : TracedLoop DatabaseManager) (metadata : FileMetadata) :
    (scanFileTraced (databaseStore env) disk ver st metadata).toScanLoop =
      scanFile env disk ver st.toScanLoop metadata := by
  unfold scanFileTraced scanFile
  simp only
  by_cases h1 : metadata.hash = ""
  · rw [if_pos h1, if_pos h1]
    rfl
  · rw [if_neg h1, if_neg h1]
    by_cases h2 : metadata.inode ≠ 0 ∧ inodeKey metadata ∈ st.seenInodes
    · rw [if_pos h2,
        if_pos (show metadata.inode ≠ 0 ∧ inodeKey metadata ∈ st.toScanLoop.seenInodes from h2)]
    · rw [if_neg h2,
        if_neg (show ¬ (metadata.inode ≠ 0 ∧ inodeKey metadata ∈ st.toScanLoop.seenInodes)
          from h2)]
      exact persistRecordTraced_toScanLoop env disk st _ _ _ _ _

theorem checkDeletedTraced_toScanLoop (env : Env) (disk : Disk) (baseWithSep : String)
    (now : QDateTime) (st : TracedLoop DatabaseManager) (existing : FileRecordEntry) :
    (checkDeletedTraced (databaseStore env) disk baseWithSep now st existing).toScanLoop =
      checkDeleted env disk baseWithSep now st.toScanLoop existing := by
  unfold checkDeletedTraced checkDeleted insertHistoryForDeleted tracedInsert tracedUpsert
  simp only [databaseStore, abortScan]
  generalize (if existing.status = "" then "Ok" else existing.status) = oldStatus
  by_cases g1 : disk.absoluteFilePath existing.metadata.path ∈ st.seenPaths
  · rw [if_pos g1,
      if_pos (show disk.absoluteFilePath existing.metadata.path ∈ st.toScanLoop.seenPaths
        from g1)]
  rw [if_neg g1,
    if_neg (show ¬ disk.absoluteFilePath existing.metadata.path ∈ st.toScanLoop.seenPaths
      from g1)]
  by_cases g2 : isPathInDirectory (disk.absoluteFilePath existing.metadata.path) baseWithSep
      = false
  · rw [if_pos g2, if_pos g2]
  rw [if_neg g2, if_neg g2]
  by_cases g3 : disk.fileExists (disk.absoluteFilePath existing.metadata.path) = true
  · rw [if_pos g3, if_pos g3]
  rw [if_neg g3, if_neg g3]
  simp only [TracedLoop.toScanLoop]
  by_cases h1 : decide (statusCode oldStatus ≠
      statusCode (buildDeletedRecord existing now).status) = true
  · simp only [h1, if_true]
    generalize DatabaseManager.insertHistoryRecord env st.store
      (buildDeletedRecord existing now).metadata.path (statusCode oldStatus)
      (statusCode (buildDeletedRecord existing now).status) existing.metadata.hash
      (buildDeletedRecord existing now).metadata.hash "Файл удалён" = ri
    obtain ⟨b, d⟩ := ri
    cases b
    · simp
    · simp only [Bool.true_eq_false, if_false]
      generalize DatabaseManager.upsertFileRecord env d (buildDeletedRecord existing now)
        = ru
      obtain ⟨b2, d2⟩ := ru
      cases b2 <;> simp
  · simp only [h1, if_false, Bool.true_eq_false]
    cases hu : (DatabaseManager.upsertFileRecord env st.store
      (buildDeletedRecord existing now)).1 <;> simp [hu]

theorem runLoopTraced_toScanLoop {α : Type}
    (bodyT : TracedLoop DatabaseManager → α → TracedLoop DatabaseManager)
    (body : ScanLoop → α → ScanLoop)
    (h : ∀ st x, (bodyT st x).toScanLoop = body st.toScanLoop x)
    (items : List α) (st : TracedLoop DatabaseManager) :
    (runLoopTraced bodyT st items).toScanLoop = runLoop body st.toScanLoop items := by
  induction items generalizing st with
  | nil => rfl
  | cons x rest ih =>
    unfold runLoopTraced runLoop
    have hr : (bodyT st x).returned = (body st.toScanLoop x).returned := by
      rw [← h]; rfl
    rw [← hr]
    split
    · exact h st x
    · rw [ih, h]

theorem scanDirectoryTraced_eq (env : Env) (disk : Disk) (ver : String) (db : DatabaseManager)
    (dir : String) (scanned : List FileMetadata) :
    ((scanDirectoryTraced (databaseStore env) disk ver db dir scanned).results,
      (scanDirectoryTraced (databaseStore env) disk ver db dir scanned).store) =
      scanDirectory env disk ver db dir scanned := by
  unfold scanDirectoryTraced scanDirectory
  simp only
  by_cases hdir : disk.isDir dir = false
  · rw [if_pos hdir, if_pos hdir]
  rw [if_neg hdir, if_neg hdir]
  by_cases hb : ((db.fetchAllRecords env).2.beginTransaction env).1 = false
  · rw [if_pos hb,
      if_pos (show ((databaseStore env).beginTransaction
        ((databaseStore env).fetchAllRecords db).2).1 = false from hb)]
    rfl
  rw [if_neg hb,
    if_neg (show ¬ ((databaseStore env).beginTransaction
      ((databaseStore env).fetchAllRecords db).2).1 = false from hb)]
  have e1 : (runLoopTraced (scanFileTraced (databaseStore env) disk ver)
      { store := ((databaseStore env).beginTransaction
          ((databaseStore env).fetchAllRecords db).2).2
        calls := [StoreCall.fetchAllRecords,
          StoreCall.beginTransaction ((databaseStore env).beginTransaction
            ((databaseStore env).fetchAllRecords db).2).1]
        results := [], seenInodes := [], seenPaths := [], returned := false }
      scanned).toScanLoop =
      runLoop (scanFile env disk ver)
        { db := ((db.fetchAllRecords env).2.beginTransaction env).2, results := [],
          seenInodes := [], seenPaths := [], returned := false } scanned :=
    runLoopTraced_toScanLoop _ _ (scanFileTraced_toScanLoop env disk ver) scanned _
  rw [← e1]
  generalize runLoopTraced (scanFileTraced (databaseStore env) disk ver)
      { store := ((databaseStore env).beginTransaction
          ((databaseStore env).fetchAllRecords db).2).2
        calls := [StoreCall.fetchAllRecords,
          StoreCall.beginTransaction ((databaseStore env).beginTransaction
            ((databaseStore env).fetchAllRecords db).2).1]
        results := [], seenInodes := [], seenPaths := [], returned := false }
      scanned = st1
  by_cases hr1 : st1.returned = true
  · rw [if_pos hr1, if_pos (show st1.toScanLoop.returned = true from hr1)]
    rfl
  rw [if_neg hr1, if_neg (show ¬ st1.toScanLoop.returned = true from hr1)]
  have e2 : (runLoopTraced (checkDeletedTraced (databaseStore env) disk
      (if endsWith (disk.absolutePath dir) "/" = true then disk.absolutePath dir
        else disk.absolutePath dir ++ "/")
      (some ((databaseStore env).currentDateTimeUtc st1.store))) st1
      ((databaseStore env).fetchAllRecords db).1).toScanLoop =
      runLoop (checkDeleted env disk
        (if endsWith (disk.absolutePath dir) "/" = true then disk.absolutePath dir
          else disk.absolutePath dir ++ "/")
        (some (env.clock st1.toScanLoop.db.ops))) st1.toScanLoop (db.fetchAllRecords env).1 :=
    runLoopTraced_toScanLoop _ _ (checkDeletedTraced_toScanLoop env disk _ _) _ _
  rw [← e2]
  generalize runLoopTraced (checkDeletedTraced (databaseStore env) disk
      (if endsWith (disk.absolutePath dir) "/" = true then disk.absolutePath dir
        else disk.absolutePath dir ++ "/")
      (some ((databaseStore env).currentDateTimeUtc st1.store))) st1
      ((databaseStore env).fetchAllRecords db).1 = st2
  by_cases hr2 : st2.returned = true
  · rw [if_pos hr2, if_pos (show st2.toScanLoop.returned = true from hr2)]
    rfl
  rw [if_neg hr2, if_neg (show ¬ st2.toScanLoop.returned = true from hr2)]
  by_cases hc : (st2.store.commitTransaction env).1 = false
  · rw [if_pos (show ((databaseStore env).commitTransaction st2.store).1 = false from hc),
      if_pos (show (st2.toScanLoop.db.commitTransaction env).1 = false from hc)]
    rfl
  · rw [if_neg (show ¬ ((databaseStore env).commitTransaction st2.store).1 = false from hc),
      if_neg (show ¬ (st2.toScanLoop.db.commitTransaction env).1 = false from hc)]
    rfl

/-! ## The records that the scan reports as deleted -/

theorem statusCode_nonneg (s : String) : 0 ≤ statusCode s := by
  unfold statusCode
  split_ifs <;> decide

theorem checkDeleted_skipped (env : Env) (disk : Disk) (base : String) (now : QDateTime)
    (st : ScanLoop) (o : FileRecordEntry)
    (hg : reportedDeleted disk base st.seenPaths o = false) :
    checkDeleted env disk base now st o = st := by
  unfold checkDeleted
  simp only
  unfold reportedDeleted at hg
  by_cases g1 : disk.absoluteFilePath o.metadata.path ∈ st.seenPaths
  · rw [if_pos g1]
  rw [if_neg g1]
  by_cases g2 : isPathInDirectory (disk.absoluteFilePath o.metadata.path) base = false
  · rw [if_pos g2]
  rw [if_neg g2]
  by_cases g3 : disk.fileExists (disk.absoluteFilePath o.metadata.path) = true
  · rw [if_pos g3]
  simp [g1, g2, g3] at hg

theorem checkDeleted_reported (env : Env) (disk : Disk) (base : String) (now : QDateTime)
    (st : ScanLoop) (o : FileRecordEntry) (hnf : ∀ n, env.fails n = false)
    (hg : reportedDeleted disk base st.seenPaths o = true) :
    (checkDeleted env disk base now st o).returned = st.returned ∧
    (checkDeleted env disk base now st o).seenPaths = st.seenPaths ∧
    (checkDeleted env disk base now st o).db.snapshot = st.db.snapshot ∧
    (checkDeleted env disk base now st o).db.hmacKey = st.db.hmacKey ∧
    (checkDeleted env disk base now st o).results = st.results ++ [buildDeletedRecord o now] ∧
    (checkDeleted env disk base now st o).db.scan_history.map HistoryRow.content =
      st.db.scan_history.map HistoryRow.content ++
        (if oldStatusCode o ≠ 3 then [deletedHistory o] else []) ∧
    (checkDeleted env disk base now st o).db.files =
      DatabaseManager.upsertRow st.db.files
        (DatabaseManager.boundRow (buildDeletedRecord o now)
          (st.db.computeSignature env o.metadata)) := by
  unfold reportedDeleted at hg
  simp only [Bool.and_eq_true, Bool.not_eq_true', decide_eq_false_iff_not] at hg
  obtain ⟨⟨g1, g2⟩, g3⟩ := hg
  unfold checkDeleted
  simp only
  rw [if_neg g1, if_neg (by rw [g2]; simp), if_neg (by rw [g3]; simp)]
  simp only [insertHistoryRecord_ok _ _ _ _ _ _ _ _ hnf, upsertFileRecord_ok _ _ _ (hnf _)]
  have hcode : statusCode (buildDeletedRecord o now).status = 3 := by
    simp [buildDeletedRecord, statusCode]
  rw [hcode]
  by_cases ht : oldStatusCode o ≠ 3
  · have ht2 : statusCode (if o.status = "" then "Ok" else o.status) ≠ 3 := ht
    have hnn : ¬ statusCode (if o.status = "" then "Ok" else o.status) < 0 :=
      not_lt.mpr (statusCode_nonneg _)
    simp [ht, ht2, hnn, HistoryRow.content, deletedHistory, oldStatusCode, buildDeletedRecord,
      DatabaseManager.computeSignature]
  · have ht2 : ¬ statusCode (if o.status = "" then "Ok" else o.status) ≠ 3 := ht
    simp [ht, ht2, buildDeletedRecord]


theorem computeSignature_key (env : Env) (d1 d2 : DatabaseManager) (m : FileMetadata)
    (h : d1.hmacKey = d2.hmacKey) : d1.computeSignature env m = d2.computeSignature env m :=
  computeSignature_congr env d1 d2 m m h rfl rfl rfl rfl rfl rfl rfl

theorem runLoop_checkDeleted (env : Env) (disk : Disk) (base : String) (now : QDateTime)
    (hnf : ∀ n, env.fails n = false) (L : List FileRecordEntry) (st : ScanLoop)
    (hret : st.returned = false) :
    (runLoop (checkDeleted env disk base now) st L).returned = false ∧
    (runLoop (checkDeleted env disk base now) st L).db.snapshot = st.db.snapshot ∧
    (runLoop (checkDeleted env disk base now) st L).results =
      st.results ++ (L.filter (reportedDeleted disk base st.seenPaths)).map
        (fun o => buildDeletedRecord o now) ∧
    (runLoop (checkDeleted env disk base now) st L).db.scan_history.map HistoryRow.content =
      st.db.scan_history.map HistoryRow.content ++
        ((L.filter (reportedDeleted disk base st.seenPaths)).filter
          (fun o => decide (oldStatusCode o ≠ 3))).map deletedHistory ∧
    (runLoop (checkDeleted env disk base now) st L).db.files =
      (L.filter (reportedDeleted disk base st.seenPaths)).foldl
        (fun fs o => DatabaseManager.upsertRow fs
          (DatabaseManager.boundRow (buildDeletedRecord o now)
            (st.db.computeSignature env o.metadata)))
        st.db.files := by
  induction L generalizing st with
  | nil => simp [runLoop, hret]
  | cons o rest ih =>
    by_cases hg : reportedDeleted disk base st.seenPaths o = true
    · obtain ⟨a1, a2, a3, a4, a5, a6, a7⟩ := checkDeleted_reported env disk base now st o hnf hg
      rw [runLoop_cons_continue _ _ _ _ (by rw [a1]; exact hret)]
      obtain ⟨b1, b2, b3, b4, b5⟩ := ih (checkDeleted env disk base now st o)
        (by rw [a1]; exact hret)
      rw [a2] at b3 b4 b5
      have hsig : ∀ m, (checkDeleted env disk base now st o).db.computeSignature env m =
          st.db.computeSignature env m :=
        fun m => computeSignature_key env _ _ m a4
      refine ⟨b1, by rw [b2, a3], ?_, ?_, ?_⟩
      · rw [b3, a5]
        simp [List.filter_cons, hg]
      · rw [b4, a6]
        by_cases ht : oldStatusCode o ≠ 3
        · simp [List.filter_cons, hg, ht]
        · simp [List.filter_cons, hg, ht]
      · rw [b5, a7]
        simp only [List.filter_cons, hg, if_true, List.foldl_cons, hsig]
    · have hg2 : reportedDeleted disk base st.seenPaths o = false := by simpa using hg
      have hstep := checkDeleted_skipped env disk base now st o hg2
      rw [runLoop_cons_continue _ _ _ _ (by rw [hstep]; exact hret), hstep]
      obtain ⟨b1, b2, b3, b4, b5⟩ := ih st hret
      refine ⟨b1, b2, ?_, ?_, ?_⟩
      · rw [b3]; simp [List.filter_cons, hg2]
      · rw [b4]; simp [List.filter_cons, hg2]
      · rw [b5]; simp [List.filter_cons, hg2]

theorem foldl_upsertRow_find_ne (R : List FileRecordEntry) (row : FileRecordEntry → FilesRow)
    (hrow : ∀ o, (row o).path = o.metadata.path) (p : String)
    (hp : p ∉ R.map (fun o => o.metadata.path)) (fs : List FilesRow) :
    (R.foldl (fun fs o => DatabaseManager.upsertRow fs (row o)) fs).find?
        (fun r => decide (r.path = p)) =
      fs.find? (fun r => decide (r.path = p)) := by
  induction R generalizing fs with
  | nil => rfl
  | cons x rest ih =>
    simp only [List.map_cons, List.mem_cons, not_or] at hp
    rw [List.foldl_cons, ih hp.2, find_upsertRow_ne _ _ _ (by rw [hrow]; exact fun h => hp.1 h.symm)]

theorem foldl_upsertRow_find (R : List FileRecordEntry) (row : FileRecordEntry → FilesRow)
    (hrow : ∀ o, (row o).path = o.metadata.path)
    (hnodup : (R.map (fun o => o.metadata.path)).Nodup) (fs : List FilesRow)
    (o : FileRecordEntry) (ho : o ∈ R) :
    (R.foldl (fun fs o => DatabaseManager.upsertRow fs (row o)) fs).find?
        (fun r => decide (r.path = o.metadata.path)) = some (row o) := by
  induction R generalizing fs with
  | nil => cases ho
  | cons x rest ih =>
    simp only [List.map_cons, List.nodup_cons] at hnodup
    rw [List.foldl_cons]
    rcases List.mem_cons.mp ho with h | h
    · subst h
      rw [foldl_upsertRow_find_ne rest row hrow _ hnodup.1]
      have := find_upsertRow fs (row o)
      rw [hrow] at this
      exact this
    · exact ih hnodup.2 _ h

theorem persistRecord_keeps (env : Env) (disk : Disk) (st : ScanLoop) (seen : List String)
    (db : DatabaseManager) (record old : FileRecordEntry) (hnf : ∀ n, env.fails n = false) :
    (persistRecord env disk st seen db record old).db.snapshot = db.snapshot ∧
    (persistRecord env disk st seen db record old).db.hmacKey = db.hmacKey := by
  unfold persistRecord
  simp only [insertHistoryRecord_ok _ _ _ _ _ _ _ _ hnf, upsertFileRecord_ok _ _ _ (hnf _)]
  generalize (if old.status = "" then "Ok" else old.status) = oldStatus
  by_cases h1 : decide (old.metadata.path ≠ "") = false
  · simp [h1]
  · simp only [h1, if_false, false_or]
    by_cases h2 : decide (oldStatus ≠ record.status) = true ∨
        decide (old.metadata.hash ≠ record.metadata.hash) = true
    · have h3 : decide (oldStatus ≠ record.status) = true ∨
          decide (old.metadata.hash ≠ record.metadata.hash) = true ∨
            record.metadataChanged = true :=
        h2.elim Or.inl (fun h => Or.inr (Or.inl h))
      simp only [h2, h3, if_true, Bool.true_eq_false, if_false]
      exact ⟨rfl, rfl⟩
    · have h3 : (decide (oldStatus ≠ record.status) = true ∨
          decide (old.metadata.hash ≠ record.metadata.hash) = true ∨
            record.metadataChanged = true) ↔ record.metadataChanged = true := by
        constructor
        · rintro (h | h | h)
          · exact absurd (Or.inl h) h2
          · exact absurd (Or.inr h) h2
          · exact h
        · exact fun h => Or.inr (Or.inr h)
      simp only [h2, if_false, h3]
      by_cases h4 : record.metadataChanged = true <;> simp [h4]

theorem scanFile_keeps (env : Env) (disk : Disk) (ver : String) (st : ScanLoop)
    (m : FileMetadata) (hnf : ∀ n, env.fails n = false) (hret : st.returned = false) :
    (scanFile env disk ver st m).returned = false ∧
    (scanFile env disk ver st m).db.snapshot = st.db.snapshot ∧
    (scanFile env disk ver st m).db.hmacKey = st.db.hmacKey := by
  unfold scanFile
  simp only
  split
  · exact ⟨hret, rfl, rfl⟩
  · split
    · exact ⟨hret, rfl, rfl⟩
    · have hf : ∀ p, (st.db.fetchRecord env p).2 = { st.db with ops := st.db.ops + 1 } := by
        intro p
        unfold DatabaseManager.fetchRecord
        simp only [hnf, Bool.false_eq_true, if_false]
        split <;> rfl
      rw [hf]
      exact ⟨(persistRecord_results env disk st _ _ _ _ hnf).2,
        (persistRecord_keeps env disk st _ _ _ _ hnf).1,
        (persistRecord_keeps env disk st _ _ _ _ hnf).2⟩

theorem runLoop_scanFile_keeps (env : Env) (disk : Disk) (ver : String)
    (hnf : ∀ n, env.fails n = false) (L : List FileMetadata) (st : ScanLoop)
    (hret : st.returned = false) :
    (runLoop (scanFile env disk ver) st L).returned = false ∧
    (runLoop (scanFile env disk ver) st L).db.snapshot = st.db.snapshot ∧
    (runLoop (scanFile env disk ver) st L).db.hmacKey = st.db.hmacKey := by
  induction L generalizing st with
  | nil => exact ⟨hret, rfl, rfl⟩
  | cons m rest ih =>
    obtain ⟨a1, a2, a3⟩ := scanFile_keeps env disk ver st m hnf hret
    rw [runLoop_cons_continue _ _ _ _ a1]
    obtain ⟨b1, b2, b3⟩ := ih _ a1
    exact ⟨b1, by rw [b2, a2], by rw [b3, a3]⟩

/-- Claim C11, as amended. In a scan without failing statement, over a store whose rows have
pairwise distinct paths and with no transaction open: after the traversal (state `st1`), the
baseline records reported as deleted are those that the traversal has not seen, that lie under
the directory and that are absent from the disk. The scan returns, after the records of the
traversal, each of them with status `Deleted` and `lastChecked = updatedAt =` the time read
after the traversal, its hash kept; the store ends with the row of that record for its path
(status `Deleted`, the hash of the baseline record, the times to the second); and the history
rows added after the traversal are, in order, one for each reported record whose old status
code is not 3, with that old status code, new status 3, and both `old_hash` and `new_hash`
equal to the hash of the baseline record. -/
theorem scanDirectory_reports_deleted (env : Env) (disk : Disk) (ver : String)
    (db : DatabaseManager) (dir : String) (scanned : List FileMetadata)
    (hnf : ∀ n, env.fails n = false) (hdir : disk.isDir dir = true) (hsnap : db.snapshot = none)
    (hkey : (db.files.map (fun r => r.path)).Nodup) :
    ∃ (st1 : ScanLoop) (reported : List FileRecordEntry),
      st1 = runLoop (scanFile env disk ver)
        { db := { db with ops := db.ops + 2, snapshot := some (db.files, db.scan_history) },
          results := [], seenInodes := [], seenPaths := [], returned := false } scanned ∧
      reported = (db.fetchAllRecords env).1.filter
        (reportedDeleted disk
          (if endsWith (disk.absolutePath dir) "/" = true then disk.absolutePath dir
            else disk.absolutePath dir ++ "/") st1.seenPaths) ∧
      (scanDirectory env disk ver db dir scanned).1 =
        st1.results ++
          reported.map (fun o => buildDeletedRecord o (some (env.clock st1.db.ops))) ∧
      (∀ o ∈ reported,
        (scanDirectory env disk ver db dir scanned).2.files.find?
            (fun r => decide (r.path = o.metadata.path)) =
          some (DatabaseManager.boundRow (buildDeletedRecord o (some (env.clock st1.db.ops)))
            (db.computeSignature env o.metadata))) ∧
      (scanDirectory env disk ver db dir scanned).2.scan_history.map HistoryRow.content =
        st1.db.scan_history.map HistoryRow.content ++
          (reported.filter (fun o => decide (oldStatusCode o ≠ 3))).map deletedHistory := by
  have hfetch : db.fetchAllRecords env =
      ((List.insertionSort (fun a b : FilesRow => ¬ b.path.data < a.path.data) db.files).map
        (db.hydrateRecord env), { db with ops := db.ops + 1 }) := by
    unfold DatabaseManager.fetchAllRecords
    simp [hnf]
  have hbegin : DatabaseManager.beginTransaction env { db with ops := db.ops + 1 } =
      (true, { db with ops := db.ops + 2, snapshot := some (db.files, db.scan_history) }) := by
    unfold DatabaseManager.beginTransaction
    simp [hnf, hsnap]
  obtain ⟨st1, hst1⟩ : ∃ st1 : ScanLoop, st1 = runLoop (scanFile env disk ver)
      { db := { db with ops := db.ops + 2, snapshot := some (db.files, db.scan_history) },
        results := [], seenInodes := [], seenPaths := [], returned := false } scanned :=
    ⟨_, rfl⟩
  obtain ⟨r1, s1, k1⟩ := runLoop_scanFile_keeps env disk ver hnf scanned
    { db := { db with ops := db.ops + 2, snapshot := some (db.files, db.scan_history) },
      results := [], seenInodes := [], seenPaths := [], returned := false } rfl
  rw [← hst1] at r1 s1 k1
  simp only at s1 k1
  obtain ⟨base, hbase⟩ : ∃ base : String, base =
      (if endsWith (disk.absolutePath dir) "/" = true then disk.absolutePath dir
        else disk.absolutePath dir ++ "/") := ⟨_, rfl⟩
  obtain ⟨existing, hexisting⟩ : ∃ existing : List FileRecordEntry, existing =
      (List.insertionSort (fun a b : FilesRow => ¬ b.path.data < a.path.data) db.files).map
        (db.hydrateRecord env) := ⟨_, rfl⟩
  obtain ⟨b1, b2, b3, b4, b5⟩ := runLoop_checkDeleted env disk base
    (some (env.clock st1.db.ops)) hnf existing st1 r1
  obtain ⟨st2, hst2⟩ : ∃ st2 : ScanLoop, st2 =
      runLoop (checkDeleted env disk base (some (env.clock st1.db.ops))) st1 existing :=
    ⟨_, rfl⟩
  rw [← hst2] at b1 b2 b3 b4 b5
  have hcommit : st2.db.commitTransaction env =
      (true, { st2.db with ops := st2.db.ops + 1, snapshot := none }) := by
    unfold DatabaseManager.commitTransaction
    rw [b2, s1]
    simp [hnf]
  have hscan : scanDirectory env disk ver db dir scanned =
      (st2.results, { st2.db with ops := st2.db.ops + 1, snapshot := none }) := by
    unfold scanDirectory
    simp only [hdir, Bool.true_eq_false, if_false]
    rw [hfetch]
    simp only
    rw [hbegin]
    simp only [Bool.true_eq_false, if_false]
    rw [← hst1, ← hbase, ← hexisting, r1]
    simp only [Bool.false_eq_true, if_false]
    rw [← hst2, b1]
    simp only [Bool.false_eq_true, if_false]
    rw [hcommit]
    simp only [Bool.true_eq_false, if_false]
  refine ⟨st1, existing.filter (reportedDeleted disk base st1.seenPaths), hst1, ?_, ?_, ?_, ?_⟩
  · rw [hfetch, hbase, hexisting]
  · rw [hscan]
    exact b3
  · intro o ho
    rw [hscan]
    simp only
    rw [b5]
    have hsig : st1.db.computeSignature env o.metadata = db.computeSignature env o.metadata :=
      computeSignature_key env _ _ _ k1
    rw [← hsig]
    apply foldl_upsertRow_find _
      (fun o => DatabaseManager.boundRow (buildDeletedRecord o (some (env.clock st1.db.ops)))
        (st1.db.computeSignature env o.metadata)) (fun _ => rfl) _ _ o ho
    have hperm : (existing.map (fun o => o.metadata.path)).Perm
        (db.files.map (fun r => r.path)) := by
      rw [hexisting, List.map_map]
      exact (List.perm_insertionSort _ _).map _
    exact ((hperm.nodup_iff).mpr hkey).sublist ((List.filter_sublist _).map _)
  · rw [hscan]
    exact b4

theorem scanDirectory_reports_deleted_witness :
    (∀ n, demoEnv.fails n = false) ∧ demoEmptyDisk.isDir "/r" = true ∧
    demoStoredDb.snapshot = none ∧ (demoStoredDb.files.map (fun r => r.path)).Nodup ∧
    ∃ (st1 : ScanLoop) (reported : List FileRecordEntry),
      st1 = runLoop (scanFile demoEnv demoEmptyDisk "1")
        { db := { demoStoredDb with
                  ops := demoStoredDb.ops + 2
                  snapshot := some (demoStoredDb.files, demoStoredDb.scan_history) },
          results := [], seenInodes := [], seenPaths := [], returned := false } [] ∧
      reported = (demoStoredDb.fetchAllRecords demoEnv).1.filter
        (reportedDeleted demoEmptyDisk
          (if endsWith (demoEmptyDisk.absolutePath "/r") "/" = true then
            demoEmptyDisk.absolutePath "/r"
            else demoEmptyDisk.absolutePath "/r" ++ "/") st1.seenPaths) ∧
      (scanDirectory demoEnv demoEmptyDisk "1" demoStoredDb "/r" []).1 =
        st1.results ++
          reported.map (fun o => buildDeletedRecord o (some (demoEnv.clock st1.db.ops))) ∧
      (∀ o ∈ reported,
        (scanDirectory demoEnv demoEmptyDisk "1" demoStoredDb "/r" []).2.files.find?
            (fun r => decide (r.path = o.metadata.path)) =
          some (DatabaseManager.boundRow
            (buildDeletedRecord o (some (demoEnv.clock st1.db.ops)))
            (demoStoredDb.computeSignature demoEnv o.metadata))) ∧
      (scanDirectory demoEnv demoEmptyDisk "1" demoStoredDb "/r" []).2.scan_history.map
          HistoryRow.content =
        st1.db.scan_history.map HistoryRow.content ++
          (reported.filter (fun o => decide (oldStatusCode o ≠ 3))).map deletedHistory :=
  ⟨fun _ => rfl, rfl, by decide, by decide,
    scanDirectory_reports_deleted demoEnv demoEmptyDisk "1" demoStoredDb "/r" []
      (fun _ => rfl) rfl (by decide) (by decide)⟩

/-- Claim C11 at a counterexample: the store holds `/r/a` with hash `ab` and status `Ok`,
and the file is gone. The scan reports it `Deleted` and writes a history row whose `new_hash`
is `ab`, not empty; a second scan reports it `Deleted` again and writes no history row. -/
theorem scanDirectory_deleted_history_keeps_hash :
    ((scanDirectory demoEnv demoEmptyDisk "1" demoStoredDb "/r" []).1.map
      (fun r => (r.metadata.path, r.status, r.metadata.hash))) = [("/r/a", "Deleted", "ab")] ∧
    ((scanDirectory demoEnv demoEmptyDisk "1" demoStoredDb "/r" []).2.scan_history.map
      (fun h => (h.old_status, h.new_status, h.new_hash))) = [(some 0, 3, "ab")] ∧
    ((scanDirectory demoEnv demoEmptyDisk "1"
        (scanDirectory demoEnv demoEmptyDisk "1" demoStoredDb "/r" []).2 "/r" []).1.map
      (fun r => (r.metadata.path, r.status, r.metadata.hash))) = [("/r/a", "Deleted", "ab")] ∧
    ((scanDirectory demoEnv demoEmptyDisk "1"
        (scanDirectory demoEnv demoEmptyDisk "1" demoStoredDb "/r" []).2 "/r"
        []).2.scan_history.map
      (fun h => (h.old_status, h.new_status, h.new_hash))) = [(some 0, 3, "ab")] := by
  decide


/-! ## The traversal and the result of the engine -/

namespace core

/-- Claim C21 at the failing input. Over `demoFs`, where the root `/r` holds the directory
`skip` and that directory holds the regular file `a.txt`, with the single rule Glob `skip` :
`isExcluded` holds of the directory `/r/skip`, which is an entry below the root, and yet the
recursive scan emits the file `/r/skip/a.txt` beneath it. The loop of `scan` passes regular
files only to `isExcluded`, never a directory. -/
theorem scan_emits_file_under_excluded_directory :
    isExcluded demoFs.weakly_canonical (demoConfig [⟨ExcludeType.Glob, "skip"⟩]) "/r/skip" = true ∧
    (⟨"/r/skip", true, false, false⟩ : DirectoryEntry) ∈ demoFs.entries "/r" ∧
    (⟨"/r/skip/a.txt", false, true, false⟩ : DirectoryEntry) ∈ demoFs.entries "/r/skip" ∧
    (scan demoFs (demoConfig [⟨ExcludeType.Glob, "skip"⟩]) 5).map
      (fun files => files.map (fun m => m.path)) = some ["/r/skip/a.txt"] := by
  decide

theorem foldl_markDeleted_history (clock : Nat → Int) (L : PathMap) (st : Reconcile) :
    (L.foldl (markDeleted clock) st).history.map
        (fun e => (e.filePath, e.oldStatus, e.newStatus, e.oldHash, e.newHash)) =
      st.history.map (fun e => (e.filePath, e.oldStatus, e.newStatus, e.oldHash, e.newHash)) ++
        L.map (fun kv => (kv.2.path, (3 : Int), (3 : Int), kv.2.hash, "")) := by
  induction L generalizing st with
  | nil => simp
  | cons kv rest ih =>
    rw [List.foldl_cons, ih]
    simp [markDeleted, FileStatus.code]

/-- Claim C26 at the failing input. For every clock, scanned state and baseline, the events
that `compareAndPersist` appends for the baseline records left in the map after the first loop
carry, in order, the path of the record, old status 3, new status 3, the hash of the record as
old hash and an empty new hash: the old status is read after the status of the record was set
to `Deleted`, so it is the code 3 whatever the baseline status was. For the baseline `demoA`,
whose status `Ok` has the code 0, and an empty scan, the event is `("/r/a", 3, 3)`. -/
theorem compareAndPersist_deleted_event_old_status :
    (∀ (clock : Nat → Int) (newState baseline : List FileMetadata),
      ∃ first : List HistoryEvent,
        first = (newState.foldl (classifyEntry clock)
          { oldByPath := buildOldByPath baseline, merged := [], summary := ⟨0, 0, 0, 0, 0⟩,
            history := [] }).history ∧
        (compareAndPersist true clock newState baseline).history.map
            (fun e => (e.filePath, e.oldStatus, e.newStatus, e.oldHash, e.newHash)) =
          first.map (fun e => (e.filePath, e.oldStatus, e.newStatus, e.oldHash, e.newHash)) ++
            (remainingAfter (buildOldByPath baseline) newState).map
              (fun kv => (kv.2.path, (3 : Int), (3 : Int), kv.2.hash, ""))) ∧
    demoA.status.code = 0 ∧
    (compareAndPersist true (fun _ => 0) [] [demoA]).history.map
        (fun e => (e.filePath, e.oldStatus, e.newStatus)) = [("/r/a", 3, 3)] := by
  refine ⟨?_, by decide, by decide⟩
  intro clock newState baseline
  refine ⟨_, rfl, ?_⟩
  simp only [compareAndPersist, Bool.true_eq_false, if_false]
  rw [foldl_markDeleted_history, foldl_classify_oldByPath]
  rfl

/-- Claim C27 at the failing input. `compareAndPersist` is given no scan root: for a
baseline with pairwise distinct paths, every baseline record whose path is not among the
scanned paths, wherever it lies, is saved with the status `Deleted` and is counted in
`deletedCount`. -/
theorem compareAndPersist_deletes_outside_roots (clock : Nat → Int)
    (newState baseline : List FileMetadata) (o : FileMetadata)
    (hkey : (baseline.map (fun b => b.path)).Nodup) (ho : o ∈ baseline)
    (habsent : o.path ∉ newState.map (fun m => m.path)) :
    (∃ merged, (compareAndPersist true clock newState baseline).saved = some merged ∧
      { o with status := FileStatus.Deleted } ∈ merged) ∧
    1 ≤ (compareAndPersist true clock newState baseline).summary.deletedCount := by
  have hrem : (o.path, o) ∈ (newState.foldl (classifyEntry clock)
      { oldByPath := buildOldByPath baseline, merged := [], summary := ⟨0, 0, 0, 0, 0⟩,
        history := [] }).oldByPath := by
    rw [foldl_classify_oldByPath, buildOldByPath_nodup baseline hkey]
    apply List.mem_filter.mpr
    refine ⟨List.mem_map.mpr ⟨o, ho, rfl⟩, ?_⟩
    rw [List.all_eq_true]
    intro m hm
    simp only [decide_eq_true_iff]
    right
    intro h
    exact habsent (List.mem_map.mpr ⟨m, hm, h.symm⟩)
  obtain ⟨st1, hst1⟩ : ∃ st1 : Reconcile, st1 = newState.foldl (classifyEntry clock)
      { oldByPath := buildOldByPath baseline, merged := [], summary := ⟨0, 0, 0, 0, 0⟩,
        history := [] } := ⟨_, rfl⟩
  rw [← hst1] at hrem
  obtain ⟨d1, d2, _⟩ := foldl_markDeleted clock st1.oldByPath st1
  constructor
  · refine ⟨st1.merged ++
        st1.oldByPath.map (fun kv => { kv.2 with status := FileStatus.Deleted }), ?_, ?_⟩
    · simp only [compareAndPersist, Bool.true_eq_false, if_false]
      rw [← hst1, d1]
    · apply List.mem_append_right
      exact List.mem_map.mpr ⟨(o.path, o), hrem, rfl⟩
  · simp only [compareAndPersist, Bool.true_eq_false, if_false]
    rw [← hst1, d2]
    have : 0 < st1.oldByPath.length := List.length_pos_of_mem hrem
    simp only
    omega

theorem compareAndPersist_deletes_outside_roots_witness :
    ([demoOutside].map (fun b => b.path)).Nodup ∧ demoOutside ∈ [demoOutside] ∧
    (∀ dir ∈ (demoConfig []).directories, ¬ dir.data <+: demoOutside.path.data) ∧
    scan demoFs (demoConfig []) 5 = some [buildMetadata demoFs ⟨"/r/skip/a.txt", false, true, false⟩] ∧
    demoOutside.path ∉
      [buildMetadata demoFs ⟨"/r/skip/a.txt", false, true, false⟩].map (fun m => m.path) ∧
    (∃ merged, (compareAndPersist true (fun _ => 0)
        [buildMetadata demoFs ⟨"/r/skip/a.txt", false, true, false⟩] [demoOutside]).saved =
          some merged ∧
      { demoOutside with status := FileStatus.Deleted } ∈ merged) ∧
    1 ≤ (compareAndPersist true (fun _ => 0)
      [buildMetadata demoFs ⟨"/r/skip/a.txt", false, true, false⟩]
      [demoOutside]).summary.deletedCount :=
  ⟨by decide, by decide, by decide, by decide, by decide,
    compareAndPersist_deletes_outside_roots (fun _ => 0) _ [demoOutside] demoOutside
      (by decide) (by decide) (by decide)⟩

theorem buildMetadata_status (fs : FileSystem) (entry : DirectoryEntry) :
    (buildMetadata fs entry).status = FileStatus.Ok := by
  unfold buildMetadata
  simp only
  cases fs.stat entry.path with
  | none => rfl
  | some st =>
    obtain ⟨ino, owner, group⟩ := st
    cases owner <;> cases group <;> rfl

theorem iterate_status (fs : FileSystem) (config : Config) (fuel : Nat) (st st2 : Iteration)
    (h : iterate fs config fuel st = some st2)
    (hst : ∀ m ∈ st.files, m.status = FileStatus.Ok) :
    ∀ m ∈ st2.files, m.status = FileStatus.Ok := by
  induction fuel generalizing st with
  | zero =>
    unfold iterate at h
    split at h
    · cases h; exact hst
    · cases h
    · cases h
  | succ n ih =>
    unfold iterate at h
    split at h
    · cases h; exact hst
    · cases h
    · simp only at h
      split_ifs at h
      all_goals first
        | exact ih _ h hst
        | (apply ih _ h
           intro m hm
           rcases List.mem_append.mp hm with hm | hm
           · exact hst m hm
           · rw [List.mem_singleton.mp hm]; exact buildMetadata_status fs _)

theorem listFlat_status (fs : FileSystem) (config : Config) (entries : List DirectoryEntry)
    (files : List FileMetadata) (hst : ∀ m ∈ files, m.status = FileStatus.Ok) :
    ∀ m ∈ listFlat fs config files entries, m.status = FileStatus.Ok := by
  unfold listFlat
  induction entries generalizing files with
  | nil => exact hst
  | cons e rest ih =>
    rw [List.foldl_cons]
    apply ih
    split_ifs
    · exact hst
    · exact hst
    · intro m hm
      rcases List.mem_append.mp hm with hm | hm
      · exact hst m hm
      · rw [List.mem_singleton.mp hm]; exact buildMetadata_status fs _

theorem scan_status (fs : FileSystem) (config : Config) (fuel : Nat)
    (files : List FileMetadata) (h : scan fs config fuel = some files) :
    ∀ m ∈ files, m.status = FileStatus.Ok := by
  unfold scan at h
  have key : ∀ (dirs : List String) (acc : Option (List FileMetadata)),
      (∀ fs0, acc = some fs0 → ∀ m ∈ fs0, m.status = FileStatus.Ok) →
      ∀ out, dirs.foldl
        (fun (acc : Option (List FileMetadata)) dir =>
          match acc with
          | none => none
          | some files =>
            if fs.pathExists dir = false ∨ fs.is_directory dir = false then some files
            else if config.recursive = true then
              match iterate fs config fuel
                { pending := [fs.entries dir], visited := [], files := files } with
              | some st => some st.files
              | none => none
            else some (listFlat fs config files (fs.entries dir))) acc = some out →
      ∀ m ∈ out, m.status = FileStatus.Ok := by
    intro dirs
    induction dirs with
    | nil =>
      intro acc hacc out hout
      exact hacc out hout
    | cons d rest ih =>
      intro acc hacc out hout
      rw [List.foldl_cons] at hout
      refine ih _ ?_ out hout
      intro fs0 hfs0
      cases acc with
      | none => simp at hfs0
      | some files0 =>
        simp only at hfs0
        have h0 := hacc files0 rfl
        split_ifs at hfs0
        · cases hfs0; exact h0
        · split at hfs0
          · cases hfs0
            exact iterate_status fs config fuel _ _ (by assumption) h0
          · cases hfs0
        · cases hfs0
          exact listFlat_status fs config _ _ h0
  exact key _ _ (by intro fs0 h0; cases h0; simp) files h

/-- Claim C29 at the failing input. For `runScan` over a scanner output `scanned` :
`result.files` is `scanned` itself, not the merged state of the reconciliation, and
`overallStatus` is that of the summary; and every file that `scan` emits has the status `Ok`.
Over `demoFs` with an empty baseline the result has the overall status `Changed` while its
only file has the status `Ok` ; the status `New` is found in the saved state only. -/
theorem runScan_files_without_statuses :
    (∀ (clock : Nat → Int) (scanned oldState : List FileMetadata),
      (runScan true true clock scanned oldState).1.files = scanned ∧
      (runScan true true clock scanned oldState).1.overallStatus =
        (compareAndPersist true clock scanned oldState).summary.overallStatus) ∧
    (∀ (fs : FileSystem) (config : Config) (fuel : Nat) (scanned : List FileMetadata),
      scan fs config fuel = some scanned → ∀ m ∈ scanned, m.status = FileStatus.Ok) ∧
    (∃ scanned, scan demoFs (demoConfig []) 5 = some scanned ∧
      (runScan true true (fun _ => 0) scanned []).1.overallStatus = FileStatus.Changed ∧
      (runScan true true (fun _ => 0) scanned []).1.files.map (fun m => (m.path, m.status)) =
        [("/r/skip/a.txt", FileStatus.Ok)] ∧
      (runScan true true (fun _ => 0) scanned []).2.saved.map
          (fun l => l.map (fun m => (m.path, m.status))) =
        some [("/r/skip/a.txt", FileStatus.New)]) := by
  refine ⟨fun _ _ _ => ⟨rfl, rfl⟩, scan_status, ?_⟩
  exact ⟨[buildMetadata demoFs ⟨"/r/skip/a.txt", false, true, false⟩], by decide, by decide,
    by decide, by decide⟩

end core

/-! ## The round trip through the storage adapter -/

theorem from_to_time_t_ne (t : Int) (x : Int)
    (h : t % QtStorageAdapter.ticksPerSecond ≠ 0) : QtStorageAdapter.from_time_t x ≠ t := by
  unfold QtStorageAdapter.from_time_t
  intro e
  apply h
  rw [← e]
  exact Int.mul_emod_left _ _

theorem loadCurrentState_after_save (env : Env) (db : DatabaseManager) (m : core.FileMetadata)
    (hnf : ∀ n, env.fails n = false) :
    ∃ o : core.FileMetadata,
      (QtStorageAdapter.loadCurrentState env (QtStorageAdapter.saveCurrentState env db [m])).1 =
        [o] ∧
      o.path = m.path ∧ o.hash = m.hash ∧ o.owner = m.owner ∧ o.group = m.group ∧
      o.mtime = QtStorageAdapter.from_time_t (toLongLong (QtStorageAdapter.to_time_t m.mtime)) := by
  simp [QtStorageAdapter.loadCurrentState, QtStorageAdapter.saveCurrentState,
    DatabaseManager.clearAllRecords, DatabaseManager.upsertFileRecord,
    DatabaseManager.fetchAllRecords, hnf, DatabaseManager.upsertRow,
    QtStorageAdapter.toCoreMetadata, DatabaseManager.hydrateRecord, DatabaseManager.boundRow,
    QtStorageAdapter.buildRecord, FileRecordEntry.empty, FileMetadata.empty]

/-- Claim C28 at the failing input. For a record `m` with a non-empty hash whose
modification time is not a whole number of seconds, in a run without failing statement: the
baseline loaded after `saveCurrentState([m])` holds for the path of `m` a modification time
other than that of `m` (the time is stored in whole seconds), and
`compareAndPersist([m], loadCurrentState())` classifies `m` as `Changed`, with
`changedCount = 1`. -/
theorem saveCurrentState_drops_subsecond (env : Env) (db : DatabaseManager)
    (clock : Nat → Int) (m : core.FileMetadata)
    (hnf : ∀ n, env.fails n = false) (hhash : m.hash ≠ "")
    (hsub : m.mtime % QtStorageAdapter.ticksPerSecond ≠ 0) :
    (∀ o ∈ (QtStorageAdapter.loadCurrentState env
        (QtStorageAdapter.saveCurrentState env db [m])).1, o.path = m.path ∧ o.mtime ≠ m.mtime) ∧
    (core.compareAndPersist true clock [m]
      (QtStorageAdapter.loadCurrentState env
        (QtStorageAdapter.saveCurrentState env db [m])).1).saved =
      some [{ m with status := core.FileStatus.Changed }] ∧
    (core.compareAndPersist true clock [m]
      (QtStorageAdapter.loadCurrentState env
        (QtStorageAdapter.saveCurrentState env db [m])).1).summary.changedCount = 1 := by
  obtain ⟨o, hload, hpath, _, _, _, hmtime⟩ := loadCurrentState_after_save env db m hnf
  have hne : o.mtime ≠ m.mtime := by
    rw [hmtime]
    exact from_to_time_t_ne _ _ hsub
  rw [hload]
  have hexp : core.expectedStatus [o] m = core.FileStatus.Changed := by
    unfold core.expectedStatus
    have hne2 : m.mtime ≠ o.mtime := fun h => hne h.symm
    simp [hhash, hpath, hne2]
  have hrem : core.remainingAfter (core.buildOldByPath [o]) [m] = [] := by
    simp [core.remainingAfter, core.buildOldByPath, core.PathMap.emplace, hhash, hpath]
  obtain ⟨c1, c2⟩ := core.compareAndPersist_closed clock [m] [o] (by simp)
  refine ⟨?_, ?_, ?_⟩
  · intro x hx
    rw [List.mem_singleton.mp hx]
    exact ⟨hpath, hne⟩
  · rw [c1, hrem]
    simp [hexp]
  · rw [c2]
    simp [hexp]

theorem saveCurrentState_drops_subsecond_witness :
    (∀ n, demoEnv.fails n = false) ∧ demoHalfSecond.hash ≠ "" ∧
    demoHalfSecond.mtime % QtStorageAdapter.ticksPerSecond ≠ 0 ∧
    (∀ o ∈ (QtStorageAdapter.loadCurrentState demoEnv
        (QtStorageAdapter.saveCurrentState demoEnv demoDb [demoHalfSecond])).1,
      o.path = demoHalfSecond.path ∧ o.mtime ≠ demoHalfSecond.mtime) ∧
    (core.compareAndPersist true (fun _ => 0) [demoHalfSecond]
      (QtStorageAdapter.loadCurrentState demoEnv
        (QtStorageAdapter.saveCurrentState demoEnv demoDb [demoHalfSecond])).1).saved =
      some [{ demoHalfSecond with status := core.FileStatus.Changed }] ∧
    (core.compareAndPersist true (fun _ => 0) [demoHalfSecond]
      (QtStorageAdapter.loadCurrentState demoEnv
        (QtStorageAdapter.saveCurrentState demoEnv demoDb [demoHalfSecond])).1).summary.changedCount
      = 1 :=
  ⟨fun _ => rfl, by decide, by decide,
    saveCurrentState_drops_subsecond demoEnv demoDb (fun _ => 0) demoHalfSecond (fun _ => rfl)
      (by decide) (by decide)⟩

/-! ## The classification of a file against its baseline row -/

theorem classifyRecord_status (record old : FileRecordEntry) (hold : old.metadata.path ≠ "") :
    (classifyRecord record old).status =
        (if changedAgainst record.metadata old then "Changed" else "Ok") ∧
      (classifyRecord record old).metadata = record.metadata := by
  unfold classifyRecord changedAgainst
  refine ⟨?_, rfl⟩
  simp only [hold, ne_eq, not_false_eq_true, decide_True, Bool.true_and, Bool.true_eq_false,
    if_false]
  by_cases h0 : old.signatureValid = false ∧ old.signature ≠ ""
  · simp [h0]
  · by_cases h1 : record.metadata.hash = old.metadata.hash
    · by_cases h2 : record.metadata.permissions = old.metadata.permissions
      · by_cases h3 : record.metadata.mode = old.metadata.mode
        · by_cases h4 : record.metadata.owner = old.metadata.owner
          · by_cases h5 : record.metadata.groupName = old.metadata.groupName
            · by_cases h6 : record.metadata.uid = old.metadata.uid
              · by_cases h7 : record.metadata.gid = old.metadata.gid
                · by_cases h8 : record.metadata.mtimeSeconds = old.metadata.mtimeSeconds
                  · by_cases h9 : record.metadata.inode = old.metadata.inode
                    · simp_all
                    · have h9' : ¬ old.metadata.inode = record.metadata.inode :=
                        fun h => h9 h.symm
                      simp_all
                  · have h8' : ¬ old.metadata.mtimeSeconds = record.metadata.mtimeSeconds :=
                      fun h => h8 h.symm
                    simp_all
                · have h7' : ¬ old.metadata.gid = record.metadata.gid := fun h => h7 h.symm
                  simp_all
              · have h6' : ¬ old.metadata.uid = record.metadata.uid := fun h => h6 h.symm
                simp_all
            · have h5' : ¬ old.metadata.groupName = record.metadata.groupName :=
                fun h => h5 h.symm
              simp_all
          · have h4' : ¬ old.metadata.owner = record.metadata.owner := fun h => h4 h.symm
            simp_all
        · have h3' : ¬ old.metadata.mode = record.metadata.mode := fun h => h3 h.symm
          simp_all
      · have h2' : ¬ old.metadata.permissions = record.metadata.permissions :=
          fun h => h2 h.symm
        simp_all
    · have h1' : ¬ old.metadata.hash = record.metadata.hash := fun h => h1 h.symm
      simp_all

/-- Claim C24, as amended. In a scan without failing statement, for a readable file `f`
(non-empty hash) that is not skipped as a hard link of a file met before and that has a
baseline row `o` (the record fetched for its path has a non-empty path): the record reported
for `f` has the status `Changed` if and only if `changedAgainst f o`, that is, `o` has
`signatureValid = false` with a non-empty signature, or `f` and `o` differ in hash,
permissions, mode, owner, group name, uid, gid, modification time in seconds or inode;
otherwise the status is `Ok`. The size is not compared. -/
theorem scanFile_changed_iff (env : Env) (disk : Disk) (ver : String) (st : ScanLoop)
    (f : FileMetadata) (hnf : ∀ n, env.fails n = false) (hhash : f.hash ≠ "")
    (hskip : ¬ (f.inode ≠ 0 ∧ inodeKey f ∈ st.seenInodes))
    (hold : (st.db.fetchRecord env f.path).1.metadata.path ≠ "") :
    ∃ r : FileRecordEntry,
      (scanFile env disk ver st f).results = st.results ++ [r] ∧ r.metadata = f ∧
      (r.status = "Changed" ↔ changedAgainst f (st.db.fetchRecord env f.path).1) ∧
      (¬ changedAgainst f (st.db.fetchRecord env f.path).1 → r.status = "Ok") := by
  obtain ⟨h1, h2⟩ := classifyRecord_status
    { FileRecordEntry.empty with
      metadata := f, updatedAt := some (env.clock st.db.ops),
      lastChecked := some (env.clock st.db.ops), scannerVersion := ver }
    (st.db.fetchRecord env f.path).1 hold
  refine ⟨_, ?_, h2, ?_, ?_⟩
  · unfold scanFile
    simp only
    rw [if_neg hhash, if_neg hskip]
    exact (persistRecord_results env disk st _ _ _ _ hnf).1
  · rw [h1]
    by_cases hc : changedAgainst f (st.db.fetchRecord env f.path).1
    · simp [hc]
    · simp [hc]
  · intro hc
    rw [h1]
    simp [hc]

theorem scanFile_changed_iff_witness :
    (∀ n, demoEnv.fails n = false) ∧ ({ demoFile with mode := 33189 } : FileMetadata).hash ≠ "" ∧
    ¬ (({ demoFile with mode := 33189 } : FileMetadata).inode ≠ 0 ∧
      inodeKey { demoFile with mode := 33189 } ∈ ([] : List String)) ∧
    (demoStoredDb.fetchRecord demoEnv
      ({ demoFile with mode := 33189 } : FileMetadata).path).1.metadata.path ≠ "" ∧
    ∃ r : FileRecordEntry,
      (scanFile demoEnv demoDisk "1.0.0" ⟨demoStoredDb, [], [], [], false⟩
        { demoFile with mode := 33189 }).results = [] ++ [r] ∧
      r.metadata = { demoFile with mode := 33189 } ∧
      (r.status = "Changed" ↔ changedAgainst { demoFile with mode := 33189 }
        (demoStoredDb.fetchRecord demoEnv
          ({ demoFile with mode := 33189 } : FileMetadata).path).1) ∧
      (¬ changedAgainst { demoFile with mode := 33189 }
        (demoStoredDb.fetchRecord demoEnv
          ({ demoFile with mode := 33189 } : FileMetadata).path).1 → r.status = "Ok") :=
  ⟨fun _ => rfl, by decide, by decide, by decide,
    scanFile_changed_iff demoEnv demoDisk "1.0.0" ⟨demoStoredDb, [], [], [], false⟩
      { demoFile with mode := 33189 } (fun _ => rfl) (by decide) (by decide) (by decide)⟩

/-- Claim C24 at two counterexamples, over a store that holds the valid row of `demoFile`.
The same file with the size 6 instead of 5 is reported `Ok` : the size differs and the status
is not `Changed`. The same file with the mode 33189 instead of 33188 is reported `Changed`
while none of the fields that the claim lists differs. -/
theorem scanFile_compares_mode_not_size :
    (demoStoredDb.fetchRecord demoEnv demoFile.path).1.metadata = demoFile ∧
    (demoStoredDb.fetchRecord demoEnv demoFile.path).1.signatureValid = true ∧
    (scanFile demoEnv demoDisk "1.0.0" ⟨demoStoredDb, [], [], [], false⟩
      { demoFile with size := 6 }).results.map (fun r => (r.metadata.size, r.status)) =
      [(6, "Ok")] ∧
    (scanFile demoEnv demoDisk "1.0.0" ⟨demoStoredDb, [], [], [], false⟩
      { demoFile with mode := 33189 }).results.map (fun r => (r.metadata.mode, r.status)) =
      [(33189, "Changed")] := by
  decide


theorem scanDirectory_unfailing (env : Env) (disk : Disk) (ver : String)
    (db : DatabaseManager) (dir : String) (scanned : List FileMetadata)
    (hnf : ∀ n, env.fails n = false) (hdir : disk.isDir dir = true)
    (hsnap : db.snapshot = none) :
    ∃ (st1 st2 : ScanLoop),
      st1 = runLoop (scanFile env disk ver)
        { db := { db with ops := db.ops + 2, snapshot := some (db.files, db.scan_history) },
          results := [], seenInodes := [], seenPaths := [], returned := false } scanned ∧
      st2 = runLoop (checkDeleted env disk
          (if endsWith (disk.absolutePath dir) "/" = true then disk.absolutePath dir
            else disk.absolutePath dir ++ "/")
          (some (env.clock st1.db.ops))) st1
        ((List.insertionSort (fun a b : FilesRow => ¬ b.path.data < a.path.data) db.files).map
          (db.hydrateRecord env)) ∧
      st1.returned = false ∧ st2.returned = false ∧
      scanDirectory env disk ver db dir scanned =
        (st2.results, { st2.db with ops := st2.db.ops + 1, snapshot := none }) := by
  have hfetch : db.fetchAllRecords env =
      ((List.insertionSort (fun a b : FilesRow => ¬ b.path.data < a.path.data) db.files).map
        (db.hydrateRecord env), { db with ops := db.ops + 1 }) := by
    unfold DatabaseManager.fetchAllRecords
    simp [hnf]
  have hbegin : DatabaseManager.beginTransaction env { db with ops := db.ops + 1 } =
      (true, { db with ops := db.ops + 2, snapshot := some (db.files, db.scan_history) }) := by
    unfold DatabaseManager.beginTransaction
    simp [hnf, hsnap]
  obtain ⟨st1, hst1⟩ : ∃ st1 : ScanLoop, st1 = runLoop (scanFile env disk ver)
      { db := { db with ops := db.ops + 2, snapshot := some (db.files, db.scan_history) },
        results := [], seenInodes := [], seenPaths := [], returned := false } scanned :=
    ⟨_, rfl⟩
  obtain ⟨r1, s1, _⟩ := runLoop_scanFile_keeps env disk ver hnf scanned
    { db := { db with ops := db.ops + 2, snapshot := some (db.files, db.scan_history) },
      results := [], seenInodes := [], seenPaths := [], returned := false } rfl
  rw [← hst1] at r1 s1
  simp only at s1
  obtain ⟨base, hbase⟩ : ∃ base : String, base =
      (if endsWith (disk.absolutePath dir) "/" = true then disk.absolutePath dir
        else disk.absolutePath dir ++ "/") := ⟨_, rfl⟩
  obtain ⟨existing, hexisting⟩ : ∃ existing : List FileRecordEntry, existing =
      (List.insertionSort (fun a b : FilesRow => ¬ b.path.data < a.path.data) db.files).map
        (db.hydrateRecord env) := ⟨_, rfl⟩
  obtain ⟨b1, b2, _, _, _⟩ := runLoop_checkDeleted env disk base
    (some (env.clock st1.db.ops)) hnf existing st1 r1
  obtain ⟨st2, hst2⟩ : ∃ st2 : ScanLoop, st2 =
      runLoop (checkDeleted env disk base (some (env.clock st1.db.ops))) st1 existing :=
    ⟨_, rfl⟩
  rw [← hst2] at b1 b2
  have hcommit : st2.db.commitTransaction env =
      (true, { st2.db with ops := st2.db.ops + 1, snapshot := none }) := by
    unfold DatabaseManager.commitTransaction
    rw [b2, s1]
    simp [hnf]
  refine ⟨st1, st2, hst1, ?_, r1, b1, ?_⟩
  · rw [hst2, hbase, hexisting]
  · unfold scanDirectory
    simp only [hdir, Bool.true_eq_false, if_false]
    rw [hfetch]
    simp only
    rw [hbegin]
    simp only [Bool.true_eq_false, if_false]
    rw [← hst1, ← hbase, ← hexisting, r1]
    simp only [Bool.false_eq_true, if_false]
    rw [← hst2, b1]
    simp only [Bool.false_eq_true, if_false]
    rw [hcommit]
    simp only [Bool.true_eq_false, if_false]

theorem persistRecord_null_rows (env : Env) (disk : Disk) (st : ScanLoop) (seen : List String)
    (db : DatabaseManager) (record old : FileRecordEntry) (hnf : ∀ n, env.fails n = false)
    (hold : old.metadata.path ≠ "") :
    ((persistRecord env disk st seen db record old).db.scan_history.map
        HistoryRow.content).filter oldStatusIsNull =
      (db.scan_history.map HistoryRow.content).filter oldStatusIsNull := by
  unfold persistRecord
  simp only [insertHistoryRecord_ok _ _ _ _ _ _ _ _ hnf, upsertFileRecord_ok _ _ _ (hnf _)]
  generalize (if old.status = "" then "Ok" else old.status) = oldStatus
  have hnn : ¬ statusCode oldStatus < 0 := not_lt.mpr (statusCode_nonneg _)
  have h1 : ¬ decide (old.metadata.path ≠ "") = false := by simp [hold]
  simp only [h1, if_false, false_or]
  by_cases h2 : decide (oldStatus ≠ record.status) = true ∨
      decide (old.metadata.hash ≠ record.metadata.hash) = true
  · have h3 : decide (oldStatus ≠ record.status) = true ∨
        decide (old.metadata.hash ≠ record.metadata.hash) = true ∨
          record.metadataChanged = true :=
      h2.elim Or.inl (fun h => Or.inr (Or.inl h))
    simp only [h2, h3, if_true, Bool.true_eq_false, if_false, hnn]
    simp [HistoryRow.content, oldStatusIsNull]
  · have h3 : (decide (oldStatus ≠ record.status) = true ∨
        decide (old.metadata.hash ≠ record.metadata.hash) = true ∨
          record.metadataChanged = true) ↔ record.metadataChanged = true := by
      constructor
      · rintro (h | h | h)
        · exact absurd (Or.inl h) h2
        · exact absurd (Or.inr h) h2
        · exact h
      · exact fun h => Or.inr (Or.inr h)
    simp only [h2, if_false, h3]
    by_cases h4 : record.metadataChanged = true <;> simp [h4]

theorem scanFile_null_rows (env : Env) (disk : Disk) (ver : String) (st : ScanLoop)
    (f : FileMetadata) (hnf : ∀ n, env.fails n = false) (hpath : f.path ≠ "") :
    ∃ added : List FileRecordEntry,
      (scanFile env disk ver st f).results = st.results ++ added ∧
      (∀ r ∈ added, r.status = "New" → r.previousHash = "") ∧
      ((scanFile env disk ver st f).db.scan_history.map HistoryRow.content).filter
          oldStatusIsNull =
        (st.db.scan_history.map HistoryRow.content).filter oldStatusIsNull ++
          (added.filter isNewRecord).map newFileHistory := by
  by_cases hhash : f.hash = ""
  · have herr : ∃ r : FileRecordEntry, (scanFile env disk ver st f).results = st.results ++ [r] ∧
        r.status = "Error" ∧ (scanFile env disk ver st f).db = st.db := by
      unfold scanFile
      simp only
      rw [if_pos hhash]
      exact ⟨_, rfl, rfl, rfl⟩
    obtain ⟨r, e1, e2, e3⟩ := herr
    refine ⟨[r], e1, ?_, ?_⟩
    · intro x hx hs
      rw [List.mem_singleton.mp hx, e2] at hs
      simp at hs
    · rw [e3]
      simp [isNewRecord, e2]
  by_cases hskip : f.inode ≠ 0 ∧ inodeKey f ∈ st.seenInodes
  · rw [scanFile_skip env disk ver st f hhash hskip]
    exact ⟨[], by simp, by simp, by simp⟩
  cases hfind : st.db.files.find? (fun r => decide (r.path = f.path)) with
  | none =>
    rw [scanFile_new env disk ver st f hnf hhash hskip hfind]
    refine ⟨[reportedRecord env ver st f "" "New"], rfl, ?_, ?_⟩
    · intro r hr _
      rw [List.mem_singleton.mp hr]
      rfl
    · simp [HistoryRow.content, oldStatusIsNull, isNewRecord, newFileHistory, reportedRecord]
  | some row =>
    have hrow : row.path = f.path := by simpa using List.find?_some hfind
    have hold : (st.db.hydrateRecord env row).metadata.path ≠ "" := by
      rw [hydrateRecord_path, hrow]
      exact hpath
    obtain ⟨c1, c2⟩ := classifyRecord_status
      { FileRecordEntry.empty with
        metadata := f, updatedAt := some (env.clock st.db.ops),
        lastChecked := some (env.clock st.db.ops), scannerVersion := ver }
      (st.db.hydrateRecord env row) hold
    have hscan : scanFile env disk ver st f =
        persistRecord env disk st (inodeKey f :: st.seenInodes)
          { st.db with ops := st.db.ops + 1 }
          (classifyRecord
            { FileRecordEntry.empty with
              metadata := f, updatedAt := some (env.clock st.db.ops),
              lastChecked := some (env.clock st.db.ops), scannerVersion := ver }
            (st.db.hydrateRecord env row))
          (st.db.hydrateRecord env row) := by
      unfold scanFile
      simp only
      rw [if_neg hhash, if_neg hskip, fetchRecord_some env st.db f.path row hnf hfind]
    rw [hscan]
    refine ⟨_, (persistRecord_results env disk st _ _ _ _ hnf).1, ?_, ?_⟩
    · intro r hr hs
      rw [List.mem_singleton.mp hr, c1] at hs
      split_ifs at hs <;> simp at hs
    · rw [persistRecord_null_rows env disk st _ _ _ _ hnf hold]
      have hnot : isNewRecord (classifyRecord
          { FileRecordEntry.empty with
            metadata := f, updatedAt := some (env.clock st.db.ops),
            lastChecked := some (env.clock st.db.ops), scannerVersion := ver }
          (st.db.hydrateRecord env row)) = false := by
        unfold isNewRecord
        rw [c1]
        split_ifs <;> simp
      simp [hnot]

theorem runLoop_scanFile_null_rows (env : Env) (disk : Disk) (ver : String)
    (hnf : ∀ n, env.fails n = false) (L : List FileMetadata)
    (hpath : ∀ f ∈ L, f.path ≠ "") (st : ScanLoop) (hret : st.returned = false) :
    ∃ added : List FileRecordEntry,
      (runLoop (scanFile env disk ver) st L).results = st.results ++ added ∧
      (∀ r ∈ added, r.status = "New" → r.previousHash = "") ∧
      ((runLoop (scanFile env disk ver) st L).db.scan_history.map HistoryRow.content).filter
          oldStatusIsNull =
        (st.db.scan_history.map HistoryRow.content).filter oldStatusIsNull ++
          (added.filter isNewRecord).map newFileHistory := by
  induction L generalizing st with
  | nil => exact ⟨[], by simp [runLoop], by simp, by simp [runLoop]⟩
  | cons f rest ih =>
    obtain ⟨k1, _, _⟩ := scanFile_keeps env disk ver st f hnf hret
    obtain ⟨a, a1, a2, a3⟩ := scanFile_null_rows env disk ver st f hnf
      (hpath f (List.mem_cons_self _ _))
    obtain ⟨b, b1, b2, b3⟩ := ih (fun x hx => hpath x (List.mem_cons_of_mem _ hx))
      (scanFile env disk ver st f) k1
    rw [runLoop_cons_continue _ _ _ _ k1]
    refine ⟨a ++ b, ?_, ?_, ?_⟩
    · rw [b1, a1, List.append_assoc]
    · intro r hr
      rcases List.mem_append.mp hr with h | h
      · exact a2 r h
      · exact b2 r h
    · rw [b3, a3]
      simp [List.filter_append, List.append_assoc]

/-- Claim C25. In a scan without failing statement, with no transaction open, over scanned
files of non-empty path: the history rows of the store whose old status is NULL are, after the
scan, those present before it followed by one row for each returned record of status `New`,
in order, with the path of the record, new status 2, an empty old hash, the hash of the file
as new hash and the comment of a new file (`newFileHistory`), so that a row with a NULL old
status is written for a file if and only if the file is classified `New` ; every returned
record of status `New` has an empty `previousHash` ; and an old status passed as -1 to
`insertHistoryRecord` is read back as -1 by `fetchHistory`. -/
theorem scanDirectory_null_old_status_iff_new (env : Env) (disk : Disk) (ver : String)
    (db : DatabaseManager) (dir : String) (scanned : List FileMetadata)
    (hnf : ∀ n, env.fails n = false) (hdir : disk.isDir dir = true)
    (hsnap : db.snapshot = none) (hpath : ∀ f ∈ scanned, f.path ≠ "") :
    (((scanDirectory env disk ver db dir scanned).2.scan_history.map HistoryRow.content).filter
        oldStatusIsNull =
      (db.scan_history.map HistoryRow.content).filter oldStatusIsNull ++
        ((scanDirectory env disk ver db dir scanned).1.filter isNewRecord).map
          newFileHistory) ∧
    (∀ r ∈ (scanDirectory env disk ver db dir scanned).1,
      r.status = "New" → r.previousHash = "") ∧
    (∀ (d : DatabaseManager) (p oh nh c : String) (n : Int),
      ((d.insertHistoryRecord env p (-1) n oh nh c).2.fetchHistory env 1).1.map
        (fun h => (h.filePath, h.oldStatus, h.newStatus, h.oldHash, h.newHash)) =
        [(p, -1, n, oh, nh)]) := by
  obtain ⟨st1, st2, hst1, hst2, r1, _, hscan⟩ :=
    scanDirectory_unfailing env disk ver db dir scanned hnf hdir hsnap
  obtain ⟨added, a1, a2, a3⟩ := runLoop_scanFile_null_rows env disk ver hnf scanned hpath
    { db := { db with ops := db.ops + 2, snapshot := some (db.files, db.scan_history) },
      results := [], seenInodes := [], seenPaths := [], returned := false } rfl
  rw [← hst1] at a1 a3
  simp only [List.nil_append] at a1 a3
  obtain ⟨_, _, b3, b4, _⟩ := runLoop_checkDeleted env disk
    (if endsWith (disk.absolutePath dir) "/" = true then disk.absolutePath dir
      else disk.absolutePath dir ++ "/")
    (some (env.clock st1.db.ops)) hnf
    ((List.insertionSort (fun a b : FilesRow => ¬ b.path.data < a.path.data) db.files).map
      (db.hydrateRecord env)) st1 r1
  rw [← hst2] at b3 b4
  rw [hscan]
  refine ⟨?_, ?_, ?_⟩
  · simp only
    rw [b4, b3, a1, List.filter_append, a3]
    simp [List.filter_append, List.filter_map, List.filter_filter, isNewRecord,
      buildDeletedRecord, oldStatusIsNull, deletedHistory, Function.comp_def]
  · intro r hr hs
    simp only at hr
    rw [b3, a1] at hr
    rcases List.mem_append.mp hr with h | h
    · exact a2 r h hs
    · obtain ⟨o, _, ho⟩ := List.mem_map.mp h
      rw [← ho] at hs
      simp [buildDeletedRecord] at hs
  · intro d p oh nh c n
    simp [insertHistoryRecord_ok _ _ _ _ _ _ _ _ hnf, DatabaseManager.fetchHistory, hnf,
      fromISODate, toISODate]

theorem scanDirectory_null_old_status_iff_new_witness :
    (∀ n, demoEnv.fails n = false) ∧ demoDisk.isDir "/r" = true ∧ demoDb.snapshot = none ∧
    (∀ f ∈ [demoFile], f.path ≠ "") ∧
    (((scanDirectory demoEnv demoDisk "1.0.0" demoDb "/r" [demoFile]).2.scan_history.map
        HistoryRow.content).filter oldStatusIsNull =
      (demoDb.scan_history.map HistoryRow.content).filter oldStatusIsNull ++
        ((scanDirectory demoEnv demoDisk "1.0.0" demoDb "/r" [demoFile]).1.filter
          isNewRecord).map newFileHistory) ∧
    (∀ r ∈ (scanDirectory demoEnv demoDisk "1.0.0" demoDb "/r" [demoFile]).1,
      r.status = "New" → r.previousHash = "") ∧
    (∀ (d : DatabaseManager) (p oh nh c : String) (n : Int),
      ((d.insertHistoryRecord demoEnv p (-1) n oh nh c).2.fetchHistory demoEnv 1).1.map
        (fun h => (h.filePath, h.oldStatus, h.newStatus, h.oldHash, h.newHash)) =
        [(p, -1, n, oh, nh)]) :=
  ⟨fun _ => rfl, rfl, rfl, by decide,
    scanDirectory_null_old_status_iff_new demoEnv demoDisk "1.0.0" demoDb "/r" [demoFile]
      (fun _ => rfl) rfl rfl (by decide)⟩



theorem utf8EncodeChar_append_inj (a b : Nat) (ha : a < 0x110000) (hb : b < 0x110000)
    (x y : Bytes) (h : utf8EncodeChar a ++ x = utf8EncodeChar b ++ y) : a = b ∧ x = y := by
  unfold utf8EncodeChar at h
  split_ifs at h <;>
    simp only [List.cons_append, List.nil_append, List.cons.injEq] at h <;>
    first
      | (exfalso; omega)
      | exact ⟨by omega, by tauto⟩

theorem utf8EncodeChar_mem (a : Nat) (v : Nat) (hv : v < 0x80) (h : v ∈ utf8EncodeChar a) :
    a = v := by
  unfold utf8EncodeChar at h
  split_ifs at h <;> simp only [List.mem_cons, List.mem_singleton, List.not_mem_nil, or_false] at h <;>
    omega

theorem char_toNat_lt (c : Char) : c.toNat < 0x110000 := by
  have := c.valid
  unfold Char.toNat
  rcases this with h | h
  · have : c.val.toNat < 0xD800 := h
    omega
  · exact h.2

theorem char_toNat_inj (c d : Char) (h : c.toNat = d.toNat) : c = d := by
  apply Char.ext
  apply UInt32.ext
  exact h

theorem toUtf8_data_inj (s t : List Char)
    (h : s.flatMap (fun c => utf8EncodeChar c.toNat) = t.flatMap (fun c => utf8EncodeChar c.toNat)) :
    s = t := by
  induction s generalizing t with
  | nil =>
    cases t with
    | nil => rfl
    | cons d rest =>
      exfalso
      simp only [List.flatMap_nil, List.flatMap_cons] at h
      unfold utf8EncodeChar at h
      split_ifs at h <;> simp at h
  | cons c rest ih =>
    cases t with
    | nil =>
      exfalso
      simp only [List.flatMap_nil, List.flatMap_cons] at h
      unfold utf8EncodeChar at h
      split_ifs at h <;> simp at h
    | cons d rest2 =>
      simp only [List.flatMap_cons] at h
      obtain ⟨h1, h2⟩ := utf8EncodeChar_append_inj _ _ (char_toNat_lt c) (char_toNat_lt d) _ _ h
      rw [char_toNat_inj c d h1, ih rest2 h2]

theorem toUtf8_inj (s t : String) (h : toUtf8 s = toUtf8 t) : s = t := by
  unfold toUtf8 at h
  exact String.ext (toUtf8_data_inj _ _ h)

theorem toUtf8_no_bar (s : String) (h : '|' ∉ s.data) : 124 ∉ toUtf8 s := by
  unfold toUtf8
  intro hm
  obtain ⟨c, hc, hv⟩ := List.mem_flatMap.mp hm
  have := utf8EncodeChar_mem c.toNat 124 (by norm_num) hv
  have hcb : c = '|' := char_toNat_inj c '|' (by rw [this]; rfl)
  exact h (hcb ▸ hc)

theorem digitChar_toNat (k : Nat) (h : k < 10) : (Nat.digitChar k).toNat = 48 + k := by
  interval_cases k <;> rfl

theorem foldl_digits_append (a b : Bytes) (init : Nat) :
    (a ++ b).foldl (fun acc b => acc * 10 + (b - 48)) init =
      b.foldl (fun acc b => acc * 10 + (b - 48)) (a.foldl (fun acc b => acc * 10 + (b - 48)) init) := by
  rw [List.foldl_append]

theorem toDigitsCore_append (fuel n : Nat) (ds : List Char) :
    Nat.toDigitsCore 10 fuel n ds = Nat.toDigitsCore 10 fuel n [] ++ ds := by
  induction fuel generalizing n ds with
  | zero => simp [Nat.toDigitsCore]
  | succ f ih =>
    simp only [Nat.toDigitsCore]
    split
    · simp
    · rw [ih (n / 10) (Nat.digitChar (n % 10) :: ds), ih (n / 10) [Nat.digitChar (n % 10)]]
      simp

theorem toDigitsCore_value (fuel n : Nat) (h : n < fuel) :
    digitsValue ((Nat.toDigitsCore 10 fuel n []).map Char.toNat) = n ∧
      ∀ b ∈ (Nat.toDigitsCore 10 fuel n []).map Char.toNat, 48 ≤ b ∧ b ≤ 57 := by
  induction fuel generalizing n with
  | zero => omega
  | succ f ih =>
    have hd : (Nat.digitChar (n % 10)).toNat = 48 + n % 10 :=
      digitChar_toNat _ (Nat.mod_lt _ (by norm_num))
    simp only [Nat.toDigitsCore]
    split
    · rename_i h0
      refine ⟨?_, ?_⟩
      · simp only [List.map_cons, List.map_nil, digitsValue, List.foldl_cons, List.foldl_nil, hd]
        omega
      · intro b hb
        simp only [List.map_cons, List.map_nil, List.mem_singleton] at hb
        omega
    · rename_i h0
      have hlt : n / 10 < f := by omega
      obtain ⟨h1, h2⟩ := ih (n / 10) hlt
      rw [toDigitsCore_append]
      refine ⟨?_, ?_⟩
      · unfold digitsValue at h1 ⊢
        rw [List.map_append, List.foldl_append, h1]
        simp only [List.map_cons, List.map_nil, List.foldl_cons, List.foldl_nil, hd]
        omega
      · intro b hb
        rw [List.map_append, List.mem_append] at hb
        rcases hb with hb | hb
        · exact h2 b hb
        · simp only [List.map_cons, List.map_nil, List.mem_singleton] at hb
          omega

theorem toDigits_value (n : Nat) :
    digitsValue ((Nat.toDigits 10 n).map Char.toNat) = n ∧
      ∀ b ∈ (Nat.toDigits 10 n).map Char.toNat, 48 ≤ b ∧ b ≤ 57 :=
  toDigitsCore_value (n + 1) n (Nat.lt_succ_self n)

theorem toDigits_ne_nil (n : Nat) : (Nat.toDigits 10 n).map Char.toNat ≠ [] := by
  unfold Nat.toDigits
  simp only [Nat.toDigitsCore]
  split
  · simp
  · rw [toDigitsCore_append]; simp

theorem number_no_bar (n : Int) : 124 ∉ number n := by
  unfold number
  intro h
  split at h
  · rcases List.mem_cons.mp h with h | h
    · omega
    · have := (toDigits_value n.natAbs).2 124 h
      omega
  · have := (toDigits_value n.toNat).2 124 h
    omega

theorem number_inj (a b : Int) (h : number a = number b) : a = b := by
  unfold number at h
  have hne : ∀ k : Nat, ∀ l : Bytes, (Nat.toDigits 10 k).map Char.toNat ≠ 45 :: l := by
    intro k l hk
    have h0 := (toDigits_value k).2 45 (by rw [hk]; exact List.mem_cons_self _ _)
    omega
  by_cases ha : a < 0 <;> by_cases hb : b < 0
  · rw [if_pos ha, if_pos hb] at h
    have := congrArg digitsValue (List.cons.inj h).2
    rw [(toDigits_value _).1, (toDigits_value _).1] at this
    omega
  · rw [if_pos ha, if_neg hb] at h
    exact absurd h.symm (hne _ _)
  · rw [if_neg ha, if_pos hb] at h
    exact absurd h (hne _ _)
  · rw [if_neg ha, if_neg hb] at h
    have := congrArg digitsValue h
    rw [(toDigits_value _).1, (toDigits_value _).1] at this
    omega

/-- Two byte strings cut at a separator that the right parts do not contain are cut at the
same place. -/
theorem split_at_separator (sep : Nat) (x y a b : Bytes) (hx : sep ∉ x) (hy : sep ∉ y)
    (h : x ++ sep :: a = y ++ sep :: b) : x = y ∧ a = b := by
  induction x generalizing y with
  | nil =>
    cases y with
    | nil => exact ⟨rfl, (List.cons.inj h).2⟩
    | cons c r =>
      exfalso
      have := (List.cons.inj h).1
      exact hy (this ▸ List.mem_cons_self _ _)
  | cons c r ih =>
    cases y with
    | nil =>
      exfalso
      have := (List.cons.inj h).1
      exact hx (this ▸ List.mem_cons_self _ _)
    | cons d r2 =>
      have h1 := List.cons.inj h
      obtain ⟨e1, e2⟩ := ih r2 (fun hm => hx (List.mem_cons_of_mem _ hm))
        (fun hm => hy (List.mem_cons_of_mem _ hm)) h1.2
      exact ⟨by rw [h1.1, e1], e2⟩

theorem split_at_last_separator (sep : Nat) (a b x y : Bytes) (hx : sep ∉ x) (hy : sep ∉ y)
    (h : a ++ sep :: x = b ++ sep :: y) : a = b ∧ x = y := by
  have hr := congrArg List.reverse h
  simp only [List.reverse_append, List.reverse_cons, List.append_assoc, List.singleton_append] at hr
  obtain ⟨e1, e2⟩ := split_at_separator sep x.reverse y.reverse a.reverse b.reverse
    (by simpa using hx) (by simpa using hy) hr
  exact ⟨List.reverse_injective e2, List.reverse_injective e1⟩

/-- Claim C30. The payload signed by `computeSignature` is unambiguous. For two metadata
records whose hash fields contain no `|` (the paths may contain it): when the payload byte
strings `path | size | mtime | uid | gid | mode | hash` are equal, the two records have the
same path, size, mtimeSeconds, uid, gid, mode and hash; so two records that differ in one
of these fields have different payloads; and under every non-empty key the signature is the
hexadecimal form of the keyed hash of exactly that payload. -/
theorem signedPayload_unambiguous (m1 m2 : FileMetadata)
    (h1 : '|' ∉ m1.hash.data) (h2 : '|' ∉ m2.hash.data) :
    (signedPayload m1 = signedPayload m2 →
      m1.path = m2.path ∧ m1.size = m2.size ∧ m1.mtimeSeconds = m2.mtimeSeconds ∧
        m1.uid = m2.uid ∧ m1.gid = m2.gid ∧ m1.mode = m2.mode ∧ m1.hash = m2.hash) ∧
    ((m1.path ≠ m2.path ∨ m1.size ≠ m2.size ∨ m1.mtimeSeconds ≠ m2.mtimeSeconds ∨
        m1.uid ≠ m2.uid ∨ m1.gid ≠ m2.gid ∨ m1.mode ≠ m2.mode ∨ m1.hash ≠ m2.hash) →
      signedPayload m1 ≠ signedPayload m2) ∧
    (∀ (env : Env) (db : DatabaseManager), db.hmacKey ≠ [] →
      db.computeSignature env m1 =
        toHex (hmacRfc2104 env.sha256 64 db.hmacKey (signedPayload m1))) := by
  have main : signedPayload m1 = signedPayload m2 →
      m1.path = m2.path ∧ m1.size = m2.size ∧ m1.mtimeSeconds = m2.mtimeSeconds ∧
        m1.uid = m2.uid ∧ m1.gid = m2.gid ∧ m1.mode = m2.mode ∧ m1.hash = m2.hash := by
    intro h
    rw [← payload_eq m1, ← payload_eq m2] at h
    obtain ⟨h, e7⟩ :=
      split_at_last_separator 124 _ _ _ _ (toUtf8_no_bar _ h1) (toUtf8_no_bar _ h2) h
    obtain ⟨h, e6⟩ := split_at_last_separator 124 _ _ _ _ (number_no_bar _) (number_no_bar _) h
    obtain ⟨h, e5⟩ := split_at_last_separator 124 _ _ _ _ (number_no_bar _) (number_no_bar _) h
    obtain ⟨h, e4⟩ := split_at_last_separator 124 _ _ _ _ (number_no_bar _) (number_no_bar _) h
    obtain ⟨h, e3⟩ := split_at_last_separator 124 _ _ _ _ (number_no_bar _) (number_no_bar _) h
    obtain ⟨h, e2⟩ := split_at_last_separator 124 _ _ _ _ (number_no_bar _) (number_no_bar _) h
    refine ⟨toUtf8_inj _ _ h, number_inj _ _ e2, number_inj _ _ e3, ?_, ?_, ?_,
      toUtf8_inj _ _ e7⟩
    · exact_mod_cast number_inj _ _ e4
    · exact_mod_cast number_inj _ _ e5
    · exact_mod_cast number_inj _ _ e6
  refine ⟨main, ?_, ?_⟩
  · intro hne heq
    obtain ⟨a, b, c, d, e, f, g⟩ := main heq
    rcases hne with h | h | h | h | h | h | h
    · exact h a
    · exact h b
    · exact h c
    · exact h d
    · exact h e
    · exact h f
    · exact h g
  · intro env db hkey
    unfold DatabaseManager.computeSignature hmacRfc2104
    rw [if_neg hkey]
    simp only [foldl_pair_split, payload_eq]
    rw [foldl_xor_eq_zipWith _ _ 64 (List.length_replicate _ _) (leftJustified_length _ _),
      foldl_xor_eq_zipWith _ _ 64 (List.length_replicate _ _) (leftJustified_length _ _),
      zipWith_leftJustified _ _ 64 (List.length_replicate _ _),
      zipWith_leftJustified _ _ 64 (List.length_replicate _ _)]

theorem signedPayload_unambiguous_witness :
    '|' ∉ demoBarPath.hash.data ∧ '|' ∉ { demoBarPath with inode := 99, owner := "x" }.hash.data ∧
      signedPayload demoBarPath = signedPayload { demoBarPath with inode := 99, owner := "x" } ∧
      demoBarPath.path = "/r/a|b" ∧
      (demoBarPath.path = { demoBarPath with inode := 99, owner := "x" }.path ∧
        demoBarPath.size = { demoBarPath with inode := 99, owner := "x" }.size ∧
        demoBarPath.mtimeSeconds = { demoBarPath with inode := 99, owner := "x" }.mtimeSeconds ∧
        demoBarPath.uid = { demoBarPath with inode := 99, owner := "x" }.uid ∧
        demoBarPath.gid = { demoBarPath with inode := 99, owner := "x" }.gid ∧
        demoBarPath.mode = { demoBarPath with inode := 99, owner := "x" }.mode ∧
        demoBarPath.hash = { demoBarPath with inode := 99, owner := "x" }.hash) :=
  ⟨by decide, by decide, rfl, rfl,
    (signedPayload_unambiguous demoBarPath { demoBarPath with inode := 99, owner := "x" }
      (by decide) (by decide)).1 rfl⟩

/-- The condition on the hash fields is needed: a `|` in one hash lets two records that
differ in every signed field have the same payload. -/
theorem signedPayload_ambiguous_with_bar :
    signedPayload { FileMetadata.empty with
        path := "a", size := 1, mtimeSeconds := 2, uid := 3, gid := 4, mode := 5, hash := "6|h" } =
      signedPayload { FileMetadata.empty with
        path := "a|1", size := 2, mtimeSeconds := 3, uid := 4, gid := 5, mode := 6, hash := "h" } := by
  decide

namespace FileMonitor

theorem listedChain_append (fs : QtFileSystem) (root : String) (names : List String)
    (name : String) :
    listedChain fs root (names ++ [name]) =
      (listedChain fs root names && decide (name ∈ fs.entryList (descend root names))) := by
  induction names generalizing root with
  | nil => simp [listedChain, descend]
  | cons n rest ih =>
    rw [List.cons_append]
    simp only [listedChain, descend, List.foldl_cons]
    rw [ih]
    simp only [descend, Bool.and_assoc]

theorem descend_append (root : String) (names : List String) (name : String) :
    descend root (names ++ [name]) = entryPath (descend root names) name := by
  simp [descend, List.foldl_append]

theorem visitEntry_stack (fs : QtFileSystem) (rules : List ExcludeRule)
    (recursive followSymlinks : Bool) (maxDepth : Int) (currentPath : String) (depth : Nat)
    (st : Traversal) (name : String) :
    ((visitEntry fs rules recursive followSymlinks maxDepth currentPath depth st name).stack =
        st.stack ∨
      ((visitEntry fs rules recursive followSymlinks maxDepth currentPath depth st name).stack =
          (entryPath currentPath name, depth + 1) :: st.stack ∧
        recursive = true ∧ (0 ≤ maxDepth → (depth : Int) + 1 ≤ maxDepth))) ∧
    ((visitEntry fs rules recursive followSymlinks maxDepth currentPath depth st name).files =
        st.files ∨
      (visitEntry fs rules recursive followSymlinks maxDepth currentPath depth st name).files =
        st.files ++ [entryPath currentPath name]) ∧
    (visitEntry fs rules recursive followSymlinks maxDepth currentPath depth st name).visitedDirs =
      st.visitedDirs := by
  unfold visitEntry
  simp only
  split_ifs with h1 h2 h3 h4 h5 h6
  · simp
  · simp
  · simp
  · simp
  · simp
  · refine ⟨Or.inr ⟨rfl, ?_, ?_⟩, Or.inl rfl, rfl⟩
    · cases recursive <;> simp_all
    · intro h0
      by_contra hc
      exact h6 ⟨h0, by omega⟩
  · split
    · split_ifs <;> simp
    · simp

end FileMonitor

namespace FileMonitor

theorem visitEntry_bounded (fs : QtFileSystem) (rules : List ExcludeRule)
    (recursive followSymlinks : Bool) (maxDepth : Int) (root currentPath : String)
    (depth : Nat) (names : List String) (hmax : recursive = true → 0 ≤ maxDepth)
    (hlen : names.length = depth) (hchain : listedChain fs root names = true)
    (hpath : currentPath = descend root names) (hd : depth ≤ levels recursive maxDepth)
    (st : Traversal) (name : String) (hname : name ∈ fs.entryList currentPath)
    (hst : Bounded fs root (levels recursive maxDepth) st) :
    Bounded fs root (levels recursive maxDepth)
      (visitEntry fs rules recursive followSymlinks maxDepth currentPath depth st name) := by
  obtain ⟨hs, hf, _⟩ :=
    visitEntry_stack fs rules recursive followSymlinks maxDepth currentPath depth st name
  have hchain2 : listedChain fs root (names ++ [name]) = true := by
    rw [listedChain_append, hchain, ← hpath]
    simpa using hname
  have hpath2 : entryPath currentPath name = descend root (names ++ [name]) := by
    rw [descend_append, hpath]
  refine ⟨?_, ?_⟩
  · rcases hs with hs | ⟨hs, hrec, hle⟩
    · rw [hs]; exact hst.1
    · rw [hs]
      intro pd hpd
      rcases List.mem_cons.mp hpd with hpd | hpd
      · subst hpd
        refine ⟨names ++ [name], by simp [hlen], ?_, hchain2, hpath2⟩
        have h0 := hmax hrec
        have := hle h0
        simp only [levels, hrec, if_true]
        show depth + 1 ≤ maxDepth.toNat
        omega
      · exact hst.1 pd hpd
  · rcases hf with hf | hf
    · rw [hf]; exact hst.2
    · rw [hf]
      intro f hfm
      rcases List.mem_append.mp hfm with hfm | hfm
      · exact hst.2 f hfm
      · rw [List.mem_singleton] at hfm
        subst hfm
        exact ⟨names, name, by omega, hchain2, hpath2⟩

theorem foldl_visitEntry_bounded (fs : QtFileSystem) (rules : List ExcludeRule)
    (recursive followSymlinks : Bool) (maxDepth : Int) (root currentPath : String)
    (depth : Nat) (names : List String) (hmax : recursive = true → 0 ≤ maxDepth)
    (hlen : names.length = depth) (hchain : listedChain fs root names = true)
    (hpath : currentPath = descend root names) (hd : depth ≤ levels recursive maxDepth)
    (entries : List String) (hent : ∀ n ∈ entries, n ∈ fs.entryList currentPath)
    (st : Traversal) (hst : Bounded fs root (levels recursive maxDepth) st) :
    Bounded fs root (levels recursive maxDepth)
      (entries.foldl (visitEntry fs rules recursive followSymlinks maxDepth currentPath depth)
        st) := by
  induction entries generalizing st with
  | nil => exact hst
  | cons n rest ih =>
    rw [List.foldl_cons]
    apply ih (fun m hm => hent m (List.mem_cons_of_mem _ hm))
    exact visitEntry_bounded fs rules recursive followSymlinks maxDepth root currentPath depth
      names hmax hlen hchain hpath hd st n (hent n (List.mem_cons_self _ _)) hst

theorem step_bounded (fs : QtFileSystem) (rules : List ExcludeRule)
    (recursive followSymlinks : Bool) (maxDepth : Int) (root : String)
    (hmax : recursive = true → 0 ≤ maxDepth) (st : Traversal)
    (hst : Bounded fs root (levels recursive maxDepth) st) :
    Bounded fs root (levels recursive maxDepth)
      (step fs rules recursive followSymlinks maxDepth st) := by
  unfold step
  split
  · exact hst
  · rename_i currentPath depth rest hstack
    have hrest : Bounded fs root (levels recursive maxDepth) { st with stack := rest } :=
      ⟨fun pd hpd => hst.1 pd (by rw [hstack]; exact List.mem_cons_of_mem _ hpd), hst.2⟩
    split_ifs with h1 h2
    · exact hrest
    · exact hrest
    · obtain ⟨names, hlen, hd, hchain, hpath⟩ :=
        hst.1 (currentPath, depth) (by rw [hstack]; exact List.mem_cons_self _ _)
      exact foldl_visitEntry_bounded fs rules recursive followSymlinks maxDepth root currentPath
        depth names hmax hlen hchain hpath hd _ (fun _ h => h) _
        ⟨fun pd hpd => hst.1 pd (by rw [hstack]; exact List.mem_cons_of_mem _ hpd), hst.2⟩

theorem loop_bounded (fs : QtFileSystem) (rules : List ExcludeRule)
    (recursive followSymlinks : Bool) (maxDepth : Int) (root : String)
    (hmax : recursive = true → 0 ≤ maxDepth) (fuel : Nat) (st t : Traversal)
    (hst : Bounded fs root (levels recursive maxDepth) st)
    (hrun : loop fs rules recursive followSymlinks maxDepth fuel st = some t) :
    Bounded fs root (levels recursive maxDepth) t := by
  induction fuel generalizing st with
  | zero =>
    unfold loop at hrun
    split_ifs at hrun
    cases hrun
    exact hst
  | succ n ih =>
    unfold loop at hrun
    split_ifs at hrun
    · cases hrun
      exact hst
    · exact ih _ (step_bounded fs rules recursive followSymlinks maxDepth root hmax st hst) hrun

/-- Every stacked directory takes at least one pass. -/
theorem passes_pos (fs : QtFileSystem) (k : Nat) (dir : String) : 1 ≤ passes fs k dir := by
  cases k <;> simp [passes]

end FileMonitor

namespace FileMonitor

theorem visitEntry_pending (fs : QtFileSystem) (rules : List ExcludeRule)
    (recursive followSymlinks : Bool) (maxDepth : Int) (currentPath : String) (depth : Nat)
    (hmax : recursive = true → 0 ≤ maxDepth) (st : Traversal) (name : String) :
    pending fs (levels recursive maxDepth)
        (visitEntry fs rules recursive followSymlinks maxDepth currentPath depth st name).stack ≤
      pending fs (levels recursive maxDepth) st.stack +
        (if depth + 1 ≤ levels recursive maxDepth then
          passes fs (levels recursive maxDepth - (depth + 1)) (entryPath currentPath name)
        else 0) := by
  obtain ⟨hs, _, _⟩ :=
    visitEntry_stack fs rules recursive followSymlinks maxDepth currentPath depth st name
  rcases hs with hs | ⟨hs, hrec, hle⟩
  · rw [hs]; omega
  · rw [hs]
    have h0 := hmax hrec
    have h1 := hle h0
    have h2 : depth + 1 ≤ levels recursive maxDepth := by
      simp only [levels, hrec, if_true]
      omega
    rw [if_pos h2]
    simp only [pending, List.map_cons, List.sum_cons]
    omega

theorem foldl_visitEntry_pending (fs : QtFileSystem) (rules : List ExcludeRule)
    (recursive followSymlinks : Bool) (maxDepth : Int) (currentPath : String) (depth : Nat)
    (hmax : recursive = true → 0 ≤ maxDepth) (entries : List String) (st : Traversal) :
    pending fs (levels recursive maxDepth)
        (entries.foldl (visitEntry fs rules recursive followSymlinks maxDepth currentPath depth)
          st).stack ≤
      pending fs (levels recursive maxDepth) st.stack +
        (if depth + 1 ≤ levels recursive maxDepth then
          (entries.map (fun name =>
            passes fs (levels recursive maxDepth - (depth + 1)) (entryPath currentPath name))).sum
        else 0) := by
  induction entries generalizing st with
  | nil => simp
  | cons n rest ih =>
    rw [List.foldl_cons]
    have h1 := ih (visitEntry fs rules recursive followSymlinks maxDepth currentPath depth st n)
    have h2 := visitEntry_pending fs rules recursive followSymlinks maxDepth currentPath depth
      hmax st n
    by_cases hd : depth + 1 ≤ levels recursive maxDepth
    · rw [if_pos hd] at h1 h2 ⊢
      simp only [List.map_cons, List.sum_cons]
      omega
    · rw [if_neg hd] at h1 h2 ⊢
      omega

theorem step_pending (fs : QtFileSystem) (rules : List ExcludeRule)
    (recursive followSymlinks : Bool) (maxDepth : Int)
    (hmax : recursive = true → 0 ≤ maxDepth) (st : Traversal) (hne : st.stack ≠ []) :
    pending fs (levels recursive maxDepth)
        (step fs rules recursive followSymlinks maxDepth st).stack + 1 ≤
      pending fs (levels recursive maxDepth) st.stack := by
  unfold step
  split
  · rename_i h
    exact absurd h hne
  · rename_i currentPath depth rest hstack
    rw [hstack]
    have hpos := passes_pos fs (levels recursive maxDepth - depth) currentPath
    have hcons : pending fs (levels recursive maxDepth) ((currentPath, depth) :: rest) =
        passes fs (levels recursive maxDepth - depth) currentPath +
          pending fs (levels recursive maxDepth) rest := by
      simp [pending]
    rw [hcons]
    split_ifs with h1 h2
    · show pending fs (levels recursive maxDepth) rest + 1 ≤ _
      omega
    · show pending fs (levels recursive maxDepth) rest + 1 ≤ _
      omega
    · have h3 := foldl_visitEntry_pending fs rules recursive followSymlinks maxDepth currentPath
        depth hmax (fs.entryList currentPath)
        { st with stack := rest, visitedDirs := st.visitedDirs ++ [currentPath] }
      by_cases hd : depth + 1 ≤ levels recursive maxDepth
      · rw [if_pos hd] at h3
        have hk : levels recursive maxDepth - depth =
            (levels recursive maxDepth - (depth + 1)) + 1 := by omega
        rw [hk, passes]
        have h4 : pending fs (levels recursive maxDepth)
            ({ st with stack := rest, visitedDirs := st.visitedDirs ++ [currentPath] } :
              Traversal).stack = pending fs (levels recursive maxDepth) rest := rfl
        omega
      · rw [if_neg hd] at h3
        have h4 : pending fs (levels recursive maxDepth)
            ({ st with stack := rest, visitedDirs := st.visitedDirs ++ [currentPath] } :
              Traversal).stack = pending fs (levels recursive maxDepth) rest := rfl
        omega

theorem loop_returns (fs : QtFileSystem) (rules : List ExcludeRule)
    (recursive followSymlinks : Bool) (maxDepth : Int)
    (hmax : recursive = true → 0 ≤ maxDepth) (fuel : Nat) (st : Traversal)
    (hfuel : pending fs (levels recursive maxDepth) st.stack ≤ fuel) :
    ∃ t, loop fs rules recursive followSymlinks maxDepth fuel st = some t := by
  induction fuel generalizing st with
  | zero =>
    unfold loop
    have hnil : st.stack = [] := by
      cases hs : st.stack with
      | nil => rfl
      | cons pd rest =>
        rw [hs] at hfuel
        have := passes_pos fs (levels recursive maxDepth - pd.2) pd.1
        simp only [pending, List.map_cons, List.sum_cons] at hfuel
        omega
    rw [if_pos hnil]
    exact ⟨st, rfl⟩
  | succ n ih =>
    unfold loop
    by_cases hnil : st.stack = []
    · rw [if_pos hnil]
      exact ⟨st, rfl⟩
    · rw [if_neg hnil]
      apply ih
      have := step_pending fs rules recursive followSymlinks maxDepth hmax st hnil
      omega

end FileMonitor

theorem scanFile_results_metadata (env : Env) (disk : Disk) (ver : String) (st : ScanLoop)
    (m : FileMetadata) :
    ∀ r ∈ (scanFile env disk ver st m).results, r ∈ st.results ∨ r.metadata = m := by
  intro r hr
  unfold scanFile at hr
  simp only at hr
  by_cases hh : m.hash = ""
  · rw [if_pos hh] at hr
    rcases List.mem_append.mp hr with h | h
    · exact Or.inl h
    · rw [List.mem_singleton] at h
      exact Or.inr (by rw [h])
  · rw [if_neg hh] at hr
    by_cases hi : m.inode ≠ 0 ∧ inodeKey m ∈ st.seenInodes
    · rw [if_pos hi] at hr
      exact Or.inl hr
    · rw [if_neg hi] at hr
      unfold persistRecord at hr
      simp only at hr
      split_ifs at hr <;>
      · rcases List.mem_append.mp hr with h | h
        · exact Or.inl h
        · rw [List.mem_singleton] at h
          exact Or.inr (by rw [h]; simp [classifyRecord])

theorem runLoop_scanFile_metadata (env : Env) (disk : Disk) (ver : String)
    (L : List FileMetadata) (st : ScanLoop) :
    ∀ r ∈ (runLoop (scanFile env disk ver) st L).results, r ∈ st.results ∨ r.metadata ∈ L := by
  induction L generalizing st with
  | nil => intro r hr; exact Or.inl hr
  | cons m rest ih =>
    intro r hr
    unfold runLoop at hr
    split_ifs at hr
    · rcases scanFile_results_metadata env disk ver st m r hr with h | h
      · exact Or.inl h
      · exact Or.inr (h ▸ List.mem_cons_self _ _)
    · rcases ih _ r hr with h | h
      · rcases scanFile_results_metadata env disk ver st m r h with h | h
        · exact Or.inl h
        · exact Or.inr (h ▸ List.mem_cons_self _ _)
      · exact Or.inr (List.mem_cons_of_mem _ h)

theorem scanDirectory_record_scanned (env : Env) (disk : Disk) (ver : String)
    (db : DatabaseManager) (dir : String) (scanned : List FileMetadata)
    (hnf : ∀ n, env.fails n = false) (hdir : disk.isDir dir = true)
    (hsnap : db.snapshot = none) :
    ∀ r ∈ (scanDirectory env disk ver db dir scanned).1, r.status ≠ "Deleted" →
      r.metadata ∈ scanned := by
  obtain ⟨st1, st2, h1, h2, hr1, _, heq⟩ :=
    scanDirectory_unfailing env disk ver db dir scanned hnf hdir hsnap
  intro r hr hst
  rw [heq] at hr
  have hres := (runLoop_checkDeleted env disk
    (if endsWith (disk.absolutePath dir) "/" = true then disk.absolutePath dir
      else disk.absolutePath dir ++ "/") (some (env.clock st1.db.ops)) hnf
    ((List.insertionSort (fun a b : FilesRow => ¬ b.path.data < a.path.data) db.files).map
      (db.hydrateRecord env)) st1 hr1).2.2.1
  rw [← h2] at hres
  simp only at hr
  rw [hres] at hr
  rcases List.mem_append.mp hr with h | h
  · rw [h1] at h
    rcases runLoop_scanFile_metadata env disk ver scanned _ r h with h | h
    · simp at h
    · exact h
  · exfalso
    obtain ⟨o, _, ho⟩ := List.mem_map.mp h
    apply hst
    rw [← ho]
    simp [buildDeletedRecord]

namespace FileMonitor

theorem buildMetadata_path (fs : QtFileSystem) (filePath : String) :
    (buildMetadata fs filePath).path = filePath := by
  unfold buildMetadata
  simp only
  split_ifs <;> split <;> rfl

end FileMonitor

namespace FileMonitor

/-- Claim C22. For `scanDirectory(root, recursive, followSymlinks, maxDepth)` with
`maxDepth >= 0` when the scan is recursive, over any file system, rules and link option:
the traversal ends within `passes` passes of its loop; whenever it ends, every path that it
passes to `buildMetadata` is that of an entry listed under at most `maxDepth` directory levels
below the root (`AtDepth`), and under no level at all when `recursive` is false; and in a scan
without failing statement and with no transaction open, every record returned whose status is
not `Deleted` carries such a path. -/
theorem scanDirectory_depth_bounded (fs : QtFileSystem) (rules : List ExcludeRule)
    (root : String) (recursive followSymlinks : Bool) (maxDepth : Int)
    (hmax : recursive = true → 0 ≤ maxDepth) :
    (∃ t, traverse fs rules root recursive followSymlinks maxDepth
        (passes fs (levels recursive maxDepth) root) = some t) ∧
    (∀ (fuel : Nat) (t : Traversal),
      traverse fs rules root recursive followSymlinks maxDepth fuel = some t →
        ∀ f ∈ t.files, AtDepth fs root recursive maxDepth f) ∧
    (∀ (env : Env) (disk : Disk) (ver : String) (db : DatabaseManager) (fuel : Nat)
        (out : List FileRecordEntry × DatabaseManager),
      (∀ n, env.fails n = false) → disk.isDir root = true → db.snapshot = none →
      scanDirectory env disk fs rules ver db root recursive followSymlinks maxDepth fuel =
        some out →
      ∀ r ∈ out.1, r.status ≠ "Deleted" → AtDepth fs root recursive maxDepth r.metadata.path) := by
  have hinit : Bounded fs root (levels recursive maxDepth)
      { stack := [(root, 0)], visitedDirs := [], files := [] } := by
    refine ⟨?_, ?_⟩
    · intro pd hpd
      rw [List.mem_singleton] at hpd
      subst hpd
      exact ⟨[], rfl, Nat.zero_le _, rfl, rfl⟩
    · intro f hf
      simp at hf
  have hfiles : ∀ (fuel : Nat) (t : Traversal),
      traverse fs rules root recursive followSymlinks maxDepth fuel = some t →
        ∀ f ∈ t.files, AtDepth fs root recursive maxDepth f := by
    intro fuel t ht f hf
    obtain ⟨dirs, file, hlen, hchain, hpath⟩ :=
      (loop_bounded fs rules recursive followSymlinks maxDepth root hmax fuel _ t hinit ht).2 f hf
    refine ⟨dirs, file, ?_, ?_, hchain, hpath⟩
    · intro hrec
      have h0 := hmax hrec
      simp only [levels, hrec, if_true] at hlen
      omega
    · intro hrec
      simp only [levels, hrec] at hlen
      exact List.length_eq_zero.mp (by simpa using hlen)
  refine ⟨?_, hfiles, ?_⟩
  · apply loop_returns fs rules recursive followSymlinks maxDepth hmax
    simp [pending]
  · intro env disk ver db fuel out hnf hdir hsnap hout r hr hst
    unfold scanDirectory at hout
    cases ht : traverse fs rules root recursive followSymlinks maxDepth fuel with
    | none => rw [ht] at hout; simp at hout
    | some t =>
      rw [ht] at hout
      simp only [Option.map_some', Option.some.injEq] at hout
      subst hout
      have hm := scanDirectory_record_scanned env disk ver db root _ hnf hdir hsnap r hr hst
      obtain ⟨p, hp, hpm⟩ := List.mem_map.mp hm
      rw [← hpm, buildMetadata_path]
      exact hfiles fuel t ht p hp

theorem scanDirectory_depth_bounded_witness :
    ((true = true → (0 : Int) ≤ 1)) ∧
      traverse demoTree [] "/r" true false 1 2 =
        some { stack := [], visitedDirs := ["/r", "/r/a"], files := ["/r/x.txt", "/r/a/y.txt"] } ∧
      (∀ f ∈ ["/r/x.txt", "/r/a/y.txt"], AtDepth demoTree "/r" true 1 f) :=
  ⟨by decide, by decide,
    (scanDirectory_depth_bounded demoTree [] "/r" true false 1 (by decide)).2.1 2
      { stack := [], visitedDirs := ["/r", "/r/a"], files := ["/r/x.txt", "/r/a/y.txt"] }
      (by decide)⟩

/-- Claim C23 at the failing input. Over `demoLinked`, where `/r` holds the link `a_link` to
the directory `/r/z` and that directory itself, the traversal with `followSymlinks = true` and
no depth cap ends after three passes, and it lists the real directory `/r/z` twice, once
under each of its two names: the set of visited directories holds the names, not the canonical
paths, and the target of a link is only compared with the directories visited before the link
is stacked. The file of that directory is passed to `buildMetadata` once under each name. -/
theorem traverse_lists_linked_directory_twice :
    traverse demoLinked [] "/r" true true (-1) 3 =
        some { stack := [], visitedDirs := ["/r", "/r/z", "/r/a_link"],
               files := ["/r/z/f.txt", "/r/a_link/f.txt"] } ∧
      ["/r", "/r/z", "/r/a_link"].map demoLinked.canonicalFilePath = ["/r", "/r/z", "/r/z"] ∧
      ¬ (["/r", "/r/z", "/r/a_link"].map demoLinked.canonicalFilePath).Nodup := by
  decide

end FileMonitor
end FIM
